import Mathlib

/-!
# A verification development for the Coup rules engine

This file gives a shallow embedding, in Lean 4, of the turn-engine of the
Coup-family card game implemented in `src/game/characters.ts`, `src/game/types.ts`
and `src/game/gameEngine.ts` of the repository, and proves (or refutes)
properties of that engine.

Modelling conventions, applied uniformly:

* TypeScript functions that `throw` are modelled as functions into
  `Option GameState`; `none` is a thrown exception (the call produces no
  successor state).  `getPlayerById` correspondingly returns `Option Player`.
* The game log is write-only in the source (no transition ever reads it), and
  its entries are impure (a global id counter and `Date.now()` timestamps), so
  `log` and `createLogEntry` are not modelled.  Where building a log message
  performs a player lookup that can throw (`getPlayerName`), that lookup is
  retained as a monadic bind, because it is an observable side condition.
* `shuffleArray` uses `Math.random()`; every engine operation that shuffles
  takes an explicit shuffle function `sh : List Character → List Character` as
  a parameter.  Where a property needs it, the hypothesis that `sh l` is a
  permutation of `l` is stated explicitly.  Likewise the random card pick in
  `resolveInquisitorChoice` becomes an explicit `Nat` parameter.
* JavaScript `arr.pop()` removes the last element: it is modelled by `popCard`.
  A JavaScript array access at a possibly negative index is modelled by
  `jsIdx`, which takes an `Int` index.
* Coin balances are modelled as `Int`, since the engine subtracts costs
  without an affordability check.
-/

set_option maxHeartbeats 1000000

namespace Coup

/-- Character identities (`enum Character` in `types.ts`). -/
inductive Character where
  | Duke | Assassin | Captain | Ambassador | Contessa
  | Inquisitor
  | Jester | Bureaucrat | Speculator | Socialist
deriving DecidableEq

/-- Action types (`enum ActionType` in `types.ts`). -/
inductive ActionType where
  | Income | ForeignAid | Coup
  | Tax | Assassinate | Steal | Exchange | Examine
  | InquisitorSelfExchange | BureaucratTax | SpeculatorTax | SocialistRedistribute
  | Convert | Embezzle
deriving DecidableEq

/-- Game phases (`enum GamePhase` in `types.ts`). -/
inductive GamePhase where
  | AwaitingAction
  | AwaitingChallengeOnAction
  | AwaitingBlock
  | AwaitingChallengeOnBlock
  | ResolvingAction
  | AwaitingCardSelection
  | AwaitingExchangeSelection
  | AwaitingExamineDecision
  | AwaitingTargetSelection
  | AwaitingInquisitorChoice
  | AwaitingCoupRedirect
  | AwaitingCoupRedirectChallenge
  | GameOver
deriving DecidableEq

/-- Factions (`enum Faction`). -/
inductive Faction where
  | Loyalist | Reformist
deriving DecidableEq

/-- Bot difficulty (`enum BotDifficulty`); inert for the engine, carried for fidelity. -/
inductive BotDifficulty where
  | Easy | Medium | Hard
deriving DecidableEq

/-- The `cardSelectionReason` field's two string values. -/
inductive CardSelectionReason where
  | challengePenalty | actionEffect
deriving DecidableEq

/-- `interface InfluenceCard`. -/
structure InfluenceCard where
  character : Character
  isRevealed : Bool
deriving DecidableEq

/-- `interface Player` (display-only `name` kept; bot metadata kept but inert). -/
structure Player where
  id : String
  name : String
  coins : Int
  influenceCards : List InfluenceCard
  isHuman : Bool
  botDifficulty : Option BotDifficulty
  faction : Option Faction
  isEliminated : Bool
deriving DecidableEq

/-- `interface GameAction`.  `examinedCard` stores the card together with its index. -/
structure GameAction where
  type : ActionType
  sourcePlayerId : String
  targetPlayerId : Option String := none
  claimedCharacter : Option Character := none
  examinedCard : Option (InfluenceCard × Nat) := none
  redirectDeclined : Option Bool := none
deriving DecidableEq

/-- `interface PendingBlock`. -/
structure PendingBlock where
  blockingPlayerId : String
  claimedCharacter : Character
  blockedAction : GameAction
deriving DecidableEq

/-- `interface GameConfig`. -/
structure GameConfig where
  playerCount : Nat
  humanPlayerName : String
  enabledCharacters : List Character
  enableFactions : Bool
  botDifficulty : BotDifficulty
  cardsPerCharacter : Nat
  botCount : Option Nat := none
  playerIds : Option (List String) := none
  playerNames : Option (List String) := none
deriving DecidableEq

/-- `interface GameState` (the write-only impure `log` field is not modelled). -/
structure GameState where
  config : GameConfig
  players : List Player
  courtDeck : List Character
  treasuryReserve : Int
  currentPlayerIndex : Nat
  phase : GamePhase
  pendingAction : Option GameAction
  pendingBlock : Option PendingBlock
  respondedPlayerIds : List String
  drawnCards : List Character
  winnerId : Option String
  turnNumber : Nat
  coupRedirectChain : List String
  coupRedirectSourceId : Option String
  cardSelectionReason : Option CardSelectionReason
deriving DecidableEq

/-- Structural part of `interface CharacterDefinition` (display strings omitted). -/
structure CharacterDefinition where
  character : Character
  action : Option ActionType := none
  actionCost : Nat := 0
  requiresTarget : Bool := false
  blocksActions : List ActionType := []
  replacesCharacter : Option Character := none
deriving DecidableEq

/-- The static catalog `CHARACTER_DEFINITIONS` from `characters.ts`. -/
def characterDefinitions : Character → CharacterDefinition
  | .Duke =>
    { character := .Duke, action := some .Tax, actionCost := 0,
      requiresTarget := false, blocksActions := [.ForeignAid] }
  | .Assassin =>
    { character := .Assassin, action := some .Assassinate, actionCost := 3,
      requiresTarget := true, blocksActions := [] }
  | .Captain =>
    { character := .Captain, action := some .Steal, actionCost := 0,
      requiresTarget := true, blocksActions := [.Steal] }
  | .Ambassador =>
    { character := .Ambassador, action := some .Exchange, actionCost := 0,
      requiresTarget := false, blocksActions := [.Steal] }
  | .Contessa =>
    { character := .Contessa, action := none, actionCost := 0,
      requiresTarget := false, blocksActions := [.Assassinate] }
  | .Inquisitor =>
    { character := .Inquisitor, action := some .Examine, actionCost := 0,
      requiresTarget := false, blocksActions := [],
      replacesCharacter := some .Ambassador }
  | .Jester =>
    { character := .Jester, action := none, actionCost := 0,
      requiresTarget := false, blocksActions := [] }
  | .Bureaucrat =>
    { character := .Bureaucrat, action := some .BureaucratTax, actionCost := 0,
      requiresTarget := true, blocksActions := [.ForeignAid],
      replacesCharacter := some .Duke }
  | .Speculator =>
    { character := .Speculator, action := some .SpeculatorTax, actionCost := 0,
      requiresTarget := false, blocksActions := [.ForeignAid],
      replacesCharacter := some .Duke }
  | .Socialist =>
    { character := .Socialist, action := some .SocialistRedistribute, actionCost := 0,
      requiresTarget := false, blocksActions := [.Steal],
      replacesCharacter := some .Ambassador }

/-- One entry of `GENERAL_ACTIONS` in `characters.ts`. -/
structure GeneralAction where
  type : ActionType
  cost : Nat
  requiresTarget : Bool
  canBeBlocked : Bool
  canBeChallenged : Bool
deriving DecidableEq

/-- The `GENERAL_ACTIONS` table: Income, ForeignAid, Coup. -/
def generalActions : List GeneralAction :=
  [ { type := .Income, cost := 0, requiresTarget := false,
      canBeBlocked := false, canBeChallenged := false },
    { type := .ForeignAid, cost := 0, requiresTarget := false,
      canBeBlocked := true, canBeChallenged := false },
    { type := .Coup, cost := 7, requiresTarget := true,
      canBeBlocked := false, canBeChallenged := false } ]

/-- `getCharactersThatBlock` from `characters.ts`. -/
def getCharactersThatBlock (actionType : ActionType) (enabledCharacters : List Character) :
    List Character :=
  enabledCharacters.filter
    (fun c => (characterDefinitions c).blocksActions.contains actionType)

/-- `isActionChallengeable` from `characters.ts`. -/
def isActionChallengeable (actionType : ActionType) : Bool :=
  match generalActions.find? (fun a => a.type == actionType) with
  | some g => g.canBeChallenged
  | none => true

/-- `isActionBlockable` from `characters.ts`. -/
def isActionBlockable (actionType : ActionType) (enabledCharacters : List Character) : Bool :=
  match generalActions.find? (fun a => a.type == actionType) with
  | some g => g.canBeBlocked
  | none => (getCharactersThatBlock actionType enabledCharacters).length > 0

/-- The engine-local constants of `types.ts`. -/
def STARTING_COINS : Int := 2

/-- `COUP_COST` from `types.ts`. -/
def COUP_COST : Int := 7

/-- `ASSASSINATE_COST` from `types.ts`. -/
def ASSASSINATE_COST : Int := 3

/-- `FORCED_COUP_THRESHOLD` from `types.ts`. -/
def FORCED_COUP_THRESHOLD : Int := 10

/-- The engine-local `getActionCost` in `gameEngine.ts` (Coup 7, Assassinate 3, else 0);
this, not the catalog version, is what `declareAction` and `challengeAction` use. -/
def engineActionCost (actionType : ActionType) : Int :=
  if actionType = .Coup then COUP_COST
  else if actionType = .Assassinate then ASSASSINATE_COST
  else 0

/-- JavaScript `arr.pop()`: removes and returns the last element. -/
def popCard (l : List Character) : Option (Character × List Character) :=
  match l.getLast? with
  | none => none
  | some c => some (c, l.dropLast)

/-- JavaScript array indexing with a possibly negative `Int` index
(negative or out-of-range gives `undefined`, i.e. `none`). -/
def jsIdx {α : Type} (l : List α) (i : Int) : Option α :=
  if i < 0 then none else l.get? i.toNat

/-- JavaScript truthiness of an optional string (`undefined` and `''` are falsy). -/
def jsTruthyStr (o : Option String) : Option String :=
  match o with
  | some x => if x = "" then none else some x
  | none => none

/-- `getAliveInfluence` from `gameEngine.ts`. -/
def getAliveInfluence (player : Player) : List InfluenceCard :=
  player.influenceCards.filter (fun c => !c.isRevealed)

/-- `getAlivePlayers` from `gameEngine.ts`. -/
def getAlivePlayers (state : GameState) : List Player :=
  state.players.filter (fun p => !p.isEliminated)

/-- `getPlayerById` from `gameEngine.ts`; `none` models the throw on a missing id. -/
def getPlayerById (state : GameState) (id : String) : Option Player :=
  state.players.find? (fun p => p.id == id)

/-- `nextAlivePlayerIndex` from `gameEngine.ts`: the first non-eliminated index
strictly cycling from `currentPlayerIndex + 1`.  The source loops forever when
every player is eliminated; here that case yields `none`. -/
def nextAlivePlayerIndex (state : GameState) : Option Nat :=
  (List.range state.players.length).findSome? fun j =>
    let i := (state.currentPlayerIndex + 1 + j) % state.players.length
    match state.players.get? i with
    | some p => if p.isEliminated then none else some i
    | none => none

/-- The fixed bot-name pool in `createGame`. -/
def botNames : List String := ["Valentina", "Ricardo", "Isabela", "Fernando", "Camila"]

/-- Construction of the `i`-th player inside `createGame`'s loop. -/
def mkPlayer (config : GameConfig) (botCount : Nat) (i : Nat)
    (card1 card2 : Character) : Player :=
  let humanCount := config.playerCount - botCount
  let isHuman := i < humanCount
  let id :=
    match jsTruthyStr ((config.playerIds.getD []).get? i) with
    | some s => s
    | none => "player-" ++ toString i
  let name :=
    match jsTruthyStr ((config.playerNames.getD []).get? i) with
    | some s => s
    | none =>
      if isHuman ∧ i = 0 ∧ config.humanPlayerName ≠ "" then config.humanPlayerName
      else if !isHuman then (botNames.get? (i % botNames.length)).getD ("Bot " ++ toString i)
      else "Player " ++ toString (i + 1)
  { id := id, name := name, coins := STARTING_COINS,
    influenceCards := [ { character := card1, isRevealed := false },
                        { character := card2, isRevealed := false } ],
    isHuman := isHuman,
    botDifficulty := if isHuman then none else some config.botDifficulty,
    faction :=
      if config.enableFactions then
        some (if i % 2 = 0 then Faction.Loyalist else Faction.Reformist)
      else none,
    isEliminated := false }

/-- The dealing loop of `createGame`: pops two cards per player off the shuffled
deck.  `none` models the unchecked `pop()!` on an exhausted deck. -/
def dealPlayers (config : GameConfig) (botCount : Nat) :
    Nat → Nat → List Character → Option (List Player × List Character)
  | _, 0, deck => some ([], deck)
  | i, n + 1, deck => do
    let (c1, d1) ← popCard deck
    let (c2, d2) ← popCard d1
    let (rest, d3) ← dealPlayers config botCount (i + 1) n d2
    return (mkPlayer config botCount i c1 c2 :: rest, d3)

/-- `createGame` from `gameEngine.ts`, with the shuffle passed in as `sh`. -/
def createGame (sh : List Character → List Character) (config : GameConfig) :
    Option GameState := do
  let deck := config.enabledCharacters.flatMap
    (fun char => List.replicate config.cardsPerCharacter char)
  let shuffledDeck := sh deck
  let botCount := config.botCount.getD (config.playerCount - 1)
  let (players, remainingDeck) ← dealPlayers config botCount 0 config.playerCount shuffledDeck
  return { config := config, players := players, courtDeck := remainingDeck,
           treasuryReserve := 0, currentPlayerIndex := 0,
           phase := .AwaitingAction, pendingAction := none, pendingBlock := none,
           respondedPlayerIds := [], drawnCards := [], winnerId := none,
           turnNumber := 1, coupRedirectChain := [], coupRedirectSourceId := none,
           cardSelectionReason := none }

/-- `checkGameOver` from `gameEngine.ts`. -/
def checkGameOver (state : GameState) : GameState :=
  let alive := getAlivePlayers state
  if alive.length = 1 then
    { state with phase := .GameOver, winnerId := alive.head?.map (·.id) }
  else state

/-- `checkPlayerElimination` from `gameEngine.ts`. -/
def checkPlayerElimination (state : GameState) (playerId : String) : Option GameState := do
  let player ← getPlayerById state playerId
  if (getAliveInfluence player).length = 0 ∧ !player.isEliminated then
    let updatedPlayers := state.players.map fun p =>
      if p.id = playerId then { p with isEliminated := true } else p
    return checkGameOver { state with players := updatedPlayers }
  else
    return state

/-- `loseInfluence` from `gameEngine.ts`: reveals card `cardIndex` of `playerId`;
`none` models the throw on a missing or already revealed card. -/
def loseInfluence (state : GameState) (playerId : String) (cardIndex : Nat) :
    Option GameState := do
  let _player ← getPlayerById state playerId
  let card ← _player.influenceCards.get? cardIndex
  if card.isRevealed then
    none
  else
    let updatedPlayers := state.players.map fun p =>
      if p.id = playerId then
        { p with influenceCards := p.influenceCards.mapIdx fun i c =>
            if i = cardIndex then { c with isRevealed := true } else c }
      else p
    checkPlayerElimination { state with players := updatedPlayers } playerId

/-- `advanceTurn` from `gameEngine.ts`: a no-op on GameOver, otherwise clears all
per-turn fields and moves to the next alive player.  `none` models the source's
divergence when no player is alive. -/
def advanceTurn (state : GameState) : Option GameState :=
  if state.phase = .GameOver then some state
  else do
    let nextIdx ← nextAlivePlayerIndex state
    return { state with
      currentPlayerIndex := nextIdx,
      phase := .AwaitingAction,
      pendingAction := none,
      pendingBlock := none,
      respondedPlayerIds := [],
      drawnCards := [],
      turnNumber := state.turnNumber + 1,
      coupRedirectChain := [],
      coupRedirectSourceId := none,
      cardSelectionReason := none }

/-- `replaceRevealedCard` from `gameEngine.ts`: shuffles the proven card back and
draws a fresh replacement; the identity when the player does not hold the card. -/
def replaceRevealedCard (sh : List Character → List Character)
    (state : GameState) (playerId : String) (character : Character) :
    Option GameState := do
  let player ← getPlayerById state playerId
  match player.influenceCards.findIdx?
      (fun c => c.character = character ∧ !c.isRevealed) with
  | none => return state
  | some cardIdx =>
    let (newCard, newDeck) ← popCard (sh (state.courtDeck ++ [character]))
    return { state with
      courtDeck := newDeck,
      players := state.players.map fun p =>
        if p.id = playerId then
          { p with influenceCards := p.influenceCards.mapIdx fun i c =>
              if i = cardIdx then { character := newCard, isRevealed := false } else c }
        else p }

/-- The draw loop of the Exchange branch of `resolveAction`: pops up to `n`
cards off the deck, returning the drawn cards (in pop order) and the rest. -/
def drawCards : Nat → List Character → List Character × List Character
  | 0, deck => ([], deck)
  | n + 1, deck =>
    match popCard deck with
    | none => ([], deck)
    | some (c, rest) =>
      let (drawn, finalDeck) := drawCards n rest
      (c :: drawn, finalDeck)

/-- `resolveAction` from `gameEngine.ts`: dispatch on the pending action's type. -/
def resolveAction (sh : List Character → List Character) (state : GameState) :
    Option GameState := do
  let action ← state.pendingAction
  let actor ← getPlayerById state action.sourcePlayerId
  match action.type with
  | .Income =>
    advanceTurn { state with players := state.players.map fun p =>
      if p.id = actor.id then { p with coins := p.coins + 1 } else p }
  | .ForeignAid =>
    advanceTurn { state with players := state.players.map fun p =>
      if p.id = actor.id then { p with coins := p.coins + 2 } else p }
  | .Coup => do
    let targetId ← action.targetPlayerId
    -- the log message fetches the target's name; the lookup can throw
    let coupTarget ← getPlayerById state targetId
    if action.redirectDeclined ≠ some true ∧ !coupTarget.isEliminated ∧
        state.config.enabledCharacters.contains Character.Jester then
      return { state with
        phase := .AwaitingCoupRedirect,
        coupRedirectChain := [targetId],
        coupRedirectSourceId := some actor.id }
    else if (getAliveInfluence coupTarget).length = 1 then do
      let idx ← coupTarget.influenceCards.findIdx? (fun c => !c.isRevealed)
      let lost ← loseInfluence state targetId idx
      advanceTurn lost
    else
      return { state with
        phase := .AwaitingCardSelection,
        respondedPlayerIds := [targetId],
        cardSelectionReason := some .actionEffect }
  | .Tax =>
    advanceTurn { state with players := state.players.map fun p =>
      if p.id = actor.id then { p with coins := p.coins + 3 } else p }
  | .SpeculatorTax =>
    advanceTurn { state with players := state.players.map fun p =>
      if p.id = actor.id then { p with coins := p.coins + 3 } else p }
  | .BureaucratTax => do
    let targetId ← action.targetPlayerId
    let _targetName ← getPlayerById state targetId  -- log lookup; can throw
    advanceTurn { state with players := state.players.map fun p =>
      if p.id = actor.id then { p with coins := p.coins + 2 }
      else if p.id = targetId then { p with coins := p.coins + 1 }
      else p }
  | .Assassinate => do
    let targetId ← action.targetPlayerId
    let target ← getPlayerById state targetId
    if (getAliveInfluence target).length = 0 then
      advanceTurn state
    else if (getAliveInfluence target).length = 1 then do
      let idx ← target.influenceCards.findIdx? (fun c => !c.isRevealed)
      let lost ← loseInfluence state targetId idx
      advanceTurn lost
    else
      return { state with
        phase := .AwaitingCardSelection,
        respondedPlayerIds := [targetId],
        cardSelectionReason := some .actionEffect }
  | .Steal => do
    let targetId ← action.targetPlayerId
    let target ← getPlayerById state targetId
    let stolen : Int := min 2 target.coins
    advanceTurn { state with players := state.players.map fun p =>
      if p.id = actor.id then { p with coins := p.coins + stolen }
      else if p.id = targetId then { p with coins := p.coins - stolen }
      else p }
  | .Exchange =>
    let aliveCards := getAliveInfluence actor
    let returnedChars := aliveCards.map (·.character)
    let (newCards, newDeck) := drawCards aliveCards.length (sh (state.courtDeck ++ returnedChars))
    let newInfluence :=
      newCards.map (fun c => { character := c, isRevealed := false : InfluenceCard })
        ++ actor.influenceCards.filter (·.isRevealed)
    advanceTurn { state with
      courtDeck := newDeck,
      players := state.players.map fun p =>
        if p.id = actor.id then { p with influenceCards := newInfluence } else p }
  | .Examine =>
    return { state with phase := .AwaitingInquisitorChoice }
  | .InquisitorSelfExchange =>
    match popCard state.courtDeck with
    | some (c, rest) =>
      return { state with
        courtDeck := rest, drawnCards := [c], phase := .AwaitingExchangeSelection }
    | none =>
      return { state with drawnCards := [], phase := .AwaitingExchangeSelection }
  | .SocialistRedistribute =>
    let totalCollected : Int :=
      ((state.players.filter fun p => ¬(p.id = actor.id ∨ p.isEliminated)).map
        (fun p => min 1 p.coins)).sum
    let updatedPlayers := state.players.map fun p =>
      if p.id = actor.id ∨ p.isEliminated then p
      else { p with coins := p.coins - min 1 p.coins }
    let kept : Int := min 1 totalCollected
    -- the source also computes `returned = totalCollected - kept` but never
    -- hands it back to anyone: those coins simply leave the game
    advanceTurn { state with players := updatedPlayers.map fun p =>
      if p.id = actor.id then { p with coins := p.coins + kept } else p }
  | _ =>
    advanceTurn state

/-- `declareAction` from `gameEngine.ts`: deducts the cost immediately, then
routes to challenge, block, or immediate resolution. -/
def declareAction (sh : List Character → List Character)
    (state : GameState) (action : GameAction) : Option GameState := do
  let player ← getPlayerById state action.sourcePlayerId
  -- if the action has a target, the log message fetches the target's name
  match action.targetPlayerId with
  | some t => do
    let _ ← getPlayerById state t
    declareActionAfterLog sh state action player
  | none => declareActionAfterLog sh state action player
where
  /-- The remainder of `declareAction` after the log entry is built. -/
  declareActionAfterLog (sh : List Character → List Character)
      (state : GameState) (action : GameAction) (player : Player) : Option GameState :=
    let actionCost := engineActionCost action.type
    let newState :=
      if actionCost > 0 then
        { state with players := state.players.map fun p =>
            if p.id = player.id then { p with coins := p.coins - actionCost } else p }
      else state
    if isActionChallengeable action.type then
      some { newState with
        phase := .AwaitingChallengeOnAction,
        pendingAction := some action,
        respondedPlayerIds := [] }
    else if isActionBlockable action.type state.config.enabledCharacters then
      some { newState with
        phase := .AwaitingBlock,
        pendingAction := some action,
        respondedPlayerIds := [] }
    else
      resolveAction sh { newState with pendingAction := some action }

/-- `challengeAction` from `gameEngine.ts`. -/
def challengeAction (sh : List Character → List Character)
    (state : GameState) (challengerId : String) : Option GameState := do
  let act ← state.pendingAction
  let _challenger ← getPlayerById state challengerId
  let actor ← getPlayerById state act.sourcePlayerId
  let claimedChar ← act.claimedCharacter
  let hasCharacter := (getAliveInfluence actor).any (fun c => c.character = claimedChar)
  if hasCharacter then do
    -- challenge fails: prove, re-randomize the proven card, challenger pays
    let ns ← replaceRevealedCard sh state actor.id claimedChar
    let chal ← getPlayerById ns challengerId
    if (getAliveInfluence chal).length = 1 then do
      let idx ← chal.influenceCards.findIdx? (fun c => !c.isRevealed)
      let ns2 ← loseInfluence ns challengerId idx
      if ns2.phase = .GameOver then
        return ns2
      -- Assassinate rule: a failed challenge forfeits the block phase
      else if act.type = .Assassinate then
        resolveAction sh ns2
      else if isActionBlockable act.type ns2.config.enabledCharacters then
        return { ns2 with phase := .AwaitingBlock, respondedPlayerIds := [] }
      else
        resolveAction sh ns2
    else
      return { ns with
        phase := .AwaitingCardSelection,
        respondedPlayerIds := [challengerId] }
  else do
    -- challenge succeeds: the actor loses influence and the action is voided;
    -- the cost-refund block present in an earlier revision is commented out in
    -- the source ("Coins are lost on failed challenge too"), so no coin moves
    let ns := { state with cardSelectionReason := some .challengePenalty }
    let actor2 ← getPlayerById ns actor.id
    if (getAliveInfluence actor2).length = 1 then do
      let idx ← actor2.influenceCards.findIdx? (fun c => !c.isRevealed)
      let ns2 ← loseInfluence ns actor.id idx
      advanceTurn ns2
    else
      return { ns with
        phase := .AwaitingCardSelection,
        respondedPlayerIds := [actor.id] }

/-- The eligible-responder list shared by `passChallenge` and `passBlock`:
alive players other than the pending action's source. -/
def passResponders (state : GameState) : List Player :=
  (getAlivePlayers state).filter fun p =>
    match state.pendingAction with
    | some act => p.id ≠ act.sourcePlayerId
    | none => true

/-- `passChallenge` from `gameEngine.ts`. -/
def passChallenge (sh : List Character → List Character)
    (state : GameState) (playerId : String) : Option GameState :=
  let responded := state.respondedPlayerIds ++ [playerId]
  if responded.length ≥ (passResponders state).length then
    if state.phase = .AwaitingChallengeOnAction then do
      let act ← state.pendingAction
      if isActionBlockable act.type state.config.enabledCharacters then
        return { state with phase := .AwaitingBlock, respondedPlayerIds := [] }
      else
        resolveAction sh state
    else if state.phase = .AwaitingChallengeOnBlock then
      advanceTurn state
    else
      some { state with respondedPlayerIds := responded }
  else
    some { state with respondedPlayerIds := responded }

/-- `declareBlock` from `gameEngine.ts`.  Note: the source validates nothing
beyond the existence of a pending action and of the blocker id — no phase
check, no blocker-eligibility check, no catalog check of the claimed
character. -/
def declareBlock (state : GameState) (blockerId : String)
    (claimedCharacter : Character) : Option GameState := do
  let act ← state.pendingAction
  let _blocker ← getPlayerById state blockerId
  return { state with
    phase := .AwaitingChallengeOnBlock,
    pendingBlock := some { blockingPlayerId := blockerId,
                           claimedCharacter := claimedCharacter,
                           blockedAction := act },
    respondedPlayerIds := [] }

/-- `passBlock` from `gameEngine.ts`. -/
def passBlock (sh : List Character → List Character)
    (state : GameState) (playerId : String) : Option GameState :=
  let responded := state.respondedPlayerIds ++ [playerId]
  if responded.length ≥ (passResponders state).length then
    resolveAction sh state
  else
    some { state with respondedPlayerIds := responded }

/-- `challengeBlock` from `gameEngine.ts`. -/
def challengeBlock (sh : List Character → List Character)
    (state : GameState) (challengerId : String) : Option GameState := do
  let pb ← state.pendingBlock
  let _challenger ← getPlayerById state challengerId
  let blocker ← getPlayerById state pb.blockingPlayerId
  let claimedChar := pb.claimedCharacter
  let hasChar := (getAliveInfluence blocker).any (fun c => c.character = claimedChar)
  if hasChar then do
    let ns ← replaceRevealedCard sh state blocker.id claimedChar
    let chal ← getPlayerById ns challengerId
    if (getAliveInfluence chal).length = 1 then do
      let idx ← chal.influenceCards.findIdx? (fun c => !c.isRevealed)
      let ns2 ← loseInfluence ns challengerId idx
      advanceTurn ns2
    else
      return { ns with
        phase := .AwaitingCardSelection,
        respondedPlayerIds := [challengerId] }
  else do
    let ns := { state with cardSelectionReason := some .challengePenalty }
    let blk ← getPlayerById ns blocker.id
    if (getAliveInfluence blk).length = 1 then do
      let idx ← blk.influenceCards.findIdx? (fun c => !c.isRevealed)
      let ns2 ← loseInfluence ns blocker.id idx
      if ns2.phase = .GameOver then return ns2
      else resolveAction sh ns2
    else
      return { ns with
        phase := .AwaitingCardSelection,
        respondedPlayerIds := [blocker.id] }

/-- `declareCoupRedirect` from `gameEngine.ts`: appends the new target to the
chain and re-points the pending Coup, pinning the claim to the Jester. -/
def declareCoupRedirect (state : GameState) (redirectorId newTargetId : String) :
    Option GameState := do
  let _redirector ← getPlayerById state redirectorId
  let _newTarget ← getPlayerById state newTargetId
  let matchSource :=
    (((jsTruthyStr state.coupRedirectSourceId).orElse
      (fun _ => jsTruthyStr (state.pendingAction.map (·.sourcePlayerId)))).getD "")
  return { state with
    phase := .AwaitingCoupRedirectChallenge,
    pendingAction := some { type := .Coup, sourcePlayerId := matchSource,
                            targetPlayerId := some newTargetId,
                            claimedCharacter := some .Jester },
    respondedPlayerIds := [],
    coupRedirectChain := state.coupRedirectChain ++ [newTargetId] }

/-- `passCoupRedirect` from `gameEngine.ts`: the chain's tail accepts the Coup. -/
def passCoupRedirect (state : GameState) (playerId : String) : Option GameState := do
  let player ← getPlayerById state playerId
  let aliveCards := getAliveInfluence player
  let act ← state.pendingAction
  let ns := { state with
    pendingAction := some { act with redirectDeclined := some true },
    coupRedirectChain := [],
    coupRedirectSourceId := none }
  if aliveCards.length = 1 then do
    let idx ← player.influenceCards.findIdx? (fun c => !c.isRevealed)
    let ns2 ← loseInfluence ns playerId idx
    advanceTurn ns2
  else
    return { ns with
        phase := .AwaitingCardSelection,
        respondedPlayerIds := [playerId],
             cardSelectionReason := some .actionEffect }

/-- The double-loss loop of `challengeCoupRedirect`'s challenge-succeeds branch:
`for (const card of aliveCards)` reveals one unrevealed card per iteration,
early-returning once the phase hits GameOver; afterwards the chain is cleared
and the turn advances.  The fuel is the snapshot length of the redirector's
alive cards, exactly as in the source. -/
def loseAllLoop (redirectorId : String) : Nat → GameState → Option GameState
  | 0, s =>
    advanceTurn { s with coupRedirectChain := [], coupRedirectSourceId := none }
  | n + 1, s => do
    let r ← getPlayerById s redirectorId
    let s' ← match r.influenceCards.findIdx? (fun c => !c.isRevealed) with
             | some idx => loseInfluence s redirectorId idx
             | none => some s
    if s'.phase = .GameOver then return s'
    else loseAllLoop redirectorId n s'

/-- `challengeCoupRedirect` from `gameEngine.ts`.  The redirector is looked up
at chain index `length - 2` (a JavaScript negative/undefined access, hence a
throw, when the chain has fewer than two entries). -/
def challengeCoupRedirect (sh : List Character → List Character)
    (state : GameState) (challengerId : String) : Option GameState := do
  let chain := state.coupRedirectChain
  let redirectorId ← jsIdx chain ((chain.length : Int) - 2)
  let redirector ← getPlayerById state redirectorId
  let _challenger ← getPlayerById state challengerId
  let jesterCount :=
    ((getAliveInfluence redirector).filter (fun c => c.character = Character.Jester)).length
  -- occurrences of the redirector among the chain's entries other than the tail
  let redirectorOccurrences :=
    ((chain.take (chain.length - 1)).filter (fun id => id = redirectorId)).length
  if jesterCount ≥ redirectorOccurrences then do
    -- challenge fails: reveal-and-replace the required number of Jesters,
    -- then the challenger pays one influence and the redirect stands
    let ns ← (List.range redirectorOccurrences).foldlM
      (fun st _ => replaceRevealedCard sh st redirector.id Character.Jester) state
    let chal ← getPlayerById ns challengerId
    if (getAliveInfluence chal).length = 1 then do
      let idx ← chal.influenceCards.findIdx? (fun c => !c.isRevealed)
      let ns2 ← loseInfluence ns challengerId idx
      if ns2.phase = .GameOver then return ns2
      else do
        let newTargetId ← jsIdx chain ((chain.length : Int) - 1)
        let newTarget ← getPlayerById ns2 newTargetId
        if newTarget.isEliminated then
          advanceTurn { ns2 with coupRedirectChain := [], coupRedirectSourceId := none }
        else if state.config.enabledCharacters.contains Character.Jester then
          return { ns2 with phase := .AwaitingCoupRedirect }
        else if (getAliveInfluence newTarget).length = 1 then do
          let idx2 ← newTarget.influenceCards.findIdx? (fun c => !c.isRevealed)
          let lost ← loseInfluence
            { ns2 with coupRedirectChain := [], coupRedirectSourceId := none }
            newTargetId idx2
          advanceTurn lost
        else
          return { ns2 with
            coupRedirectChain := [], coupRedirectSourceId := none,
            phase := .AwaitingCardSelection,
            respondedPlayerIds := [newTargetId] }
    else
      return { ns with
        phase := .AwaitingCardSelection,
        respondedPlayerIds := [challengerId],
               cardSelectionReason := some .challengePenalty }
  else
    -- challenge succeeds: the redirector loses every remaining card at once
    loseAllLoop redirectorId (getAliveInfluence redirector).length state

/-- `passCoupRedirectChallenge` from `gameEngine.ts`. -/
def passCoupRedirectChallenge (state : GameState) (playerId : String) :
    Option GameState :=
  let responded := state.respondedPlayerIds ++ [playerId]
  let chain := state.coupRedirectChain
  let redirectorId? := jsIdx chain ((chain.length : Int) - 2)
  let alive := (getAlivePlayers state).filter fun p =>
    match redirectorId? with
    | some r => p.id ≠ r
    | none => true
  if responded.length ≥ alive.length then do
    let newTargetId ← jsIdx chain ((chain.length : Int) - 1)
    let newTarget ← getPlayerById state newTargetId
    if newTarget.isEliminated then
      advanceTurn { state with coupRedirectChain := [], coupRedirectSourceId := none }
    else if state.config.enabledCharacters.contains Character.Jester then
      return { state with phase := .AwaitingCoupRedirect, respondedPlayerIds := [] }
    else if (getAliveInfluence newTarget).length = 1 then do
      let idx ← newTarget.influenceCards.findIdx? (fun c => !c.isRevealed)
      let lost ← loseInfluence
        { state with coupRedirectChain := [], coupRedirectSourceId := none }
        newTargetId idx
      advanceTurn lost
    else
      return { state with
        coupRedirectChain := [], coupRedirectSourceId := none,
        phase := .AwaitingCardSelection,
        respondedPlayerIds := [newTargetId] }
  else
    some { state with respondedPlayerIds := responded }

/-- The two choices of `resolveInquisitorChoice`. -/
inductive InquisitorChoice where
  | selfExchange | examine
deriving DecidableEq

/-- `resolveInquisitorChoice` from `gameEngine.ts`; `r` stands in for the
`Math.random()` pick of which of the target's alive cards is examined. -/
def resolveInquisitorChoice (sh : List Character → List Character) (r : Nat)
    (state : GameState) (choice : InquisitorChoice)
    (targetPlayerId : Option String) : Option GameState := do
  let act ← state.pendingAction
  let _actor ← getPlayerById state act.sourcePlayerId
  match choice with
  | .selfExchange =>
    resolveAction sh
      { state with pendingAction := some { act with type := .InquisitorSelfExchange } }
  | .examine => do
    let tid ← targetPlayerId
    let target ← getPlayerById state tid
    let aliveCards :=
      (target.influenceCards.enum.filter (fun ic => !ic.2.isRevealed)).map
        (fun ic => (ic.2, ic.1))
    if aliveCards.length = 0 then none
    else do
      let selected ← aliveCards.get? (r % aliveCards.length)
      return { state with
        phase := .AwaitingExamineDecision,
        pendingAction := some { act with
          type := .Examine,
          targetPlayerId := some tid,
          examinedCard := some selected } }

/-- `selectCardToLose` from `gameEngine.ts`: reveals the chosen card, then
routes on why the selection was requested and on whether the loser is the
pending action's source. -/
def selectCardToLose (sh : List Character → List Character)
    (state : GameState) (playerId : String) (cardIndex : Nat) : Option GameState := do
  let ns ← loseInfluence state playerId cardIndex
  if ns.phase = .GameOver then return ns
  else
    match state.pendingAction with
    | some act =>
      if state.phase = .AwaitingCardSelection then
        if playerId ≠ act.sourcePlayerId then
          -- the challenger (or target) lost a card: the action proceeds
          if act.type = .Assassinate then
            resolveAction sh ns
          -- Coup damage is final: do not re-resolve
          else if act.type = .Coup then
            advanceTurn { ns with cardSelectionReason := none }
          else if state.cardSelectionReason = some .actionEffect then
            advanceTurn { ns with cardSelectionReason := none }
          else if isActionBlockable act.type ns.config.enabledCharacters then
            return { ns with phase := .AwaitingBlock, respondedPlayerIds := [] }
          else
            resolveAction sh ns
        else
          -- the actor lost a card: the action fails and the turn advances
          advanceTurn { ns with cardSelectionReason := none }
      else
        advanceTurn { ns with cardSelectionReason := none }
    | none =>
      advanceTurn { ns with cardSelectionReason := none }

/-- `completeExchange` from `gameEngine.ts`: validates only that the kept-card
count equals the current alive-card count, then installs the kept cards and
shuffles the returned ones into the deck. -/
def completeExchange (sh : List Character → List Character)
    (state : GameState) (playerId : String)
    (keptCards returnedCards : List Character) : Option GameState := do
  let player ← getPlayerById state playerId
  if keptCards.length ≠ (getAliveInfluence player).length then
    none
  else
    let newInfluence :=
      keptCards.map (fun c => { character := c, isRevealed := false : InfluenceCard })
        ++ player.influenceCards.filter (·.isRevealed)
    advanceTurn { state with
      courtDeck := sh (state.courtDeck ++ returnedCards),
      drawnCards := [],
      players := state.players.map fun p =>
        if p.id = playerId then { p with influenceCards := newInfluence } else p }

/-- `resolveExamine` from `gameEngine.ts`. -/
def resolveExamine (sh : List Character → List Character)
    (state : GameState) (forceExchange : Bool) (targetCardIndex : Nat) :
    Option GameState := do
  let act ← state.pendingAction
  let tid ← act.targetPlayerId
  let target ← getPlayerById state tid
  let card ← target.influenceCards.get? targetCardIndex
  if card.isRevealed then none
  else if forceExchange then do
    let (newCard, newDeck) ← popCard (sh (state.courtDeck ++ [card.character]))
    advanceTurn { state with
      courtDeck := newDeck,
      players := state.players.map fun p =>
        if p.id = target.id then
          { p with influenceCards := p.influenceCards.mapIdx fun i c =>
              if i = targetCardIndex then { character := newCard, isRevealed := false }
              else c }
        else p }
  else
    advanceTurn state

/-! ## Observables used by the stated properties -/

/-- Total coins held across all players. -/
def totalCoins (s : GameState) : Int := (s.players.map (·.coins)).sum

/-- The coin balance of the player with the given id (`none` if absent). -/
def coinsOf (s : GameState) (id : String) : Option Int :=
  (getPlayerById s id).map (·.coins)

/-- The number of unrevealed influence cards of the given id's player. -/
def aliveCountOf (s : GameState) (id : String) : Option Nat :=
  (getPlayerById s id).map (fun p => (getAliveInfluence p).length)

/-- Copies of character `c` in the court deck. -/
def deckCount (s : GameState) (c : Character) : Nat :=
  (s.courtDeck.filter (fun x => x = c)).length

/-- Unrevealed influence cards showing `c`, across all players. -/
def unrevealedCount (s : GameState) (c : Character) : Nat :=
  (s.players.map (fun p =>
    ((getAliveInfluence p).filter (fun ic => ic.character = c)).length)).sum

/-- Revealed influence cards showing `c`, across all players. -/
def revealedCount (s : GameState) (c : Character) : Nat :=
  (s.players.map (fun p =>
    ((p.influenceCards.filter (·.isRevealed)).filter (fun ic => ic.character = c)).length)).sum

/-- Temporarily drawn cards showing `c`. -/
def drawnCount (s : GameState) (c : Character) : Nat :=
  (s.drawnCards.filter (fun x => x = c)).length

/-- Copies of `c` in a plain list of characters. -/
def countC (l : List Character) (c : Character) : Nat :=
  (l.filter (fun x => x = c)).length

/-- Copies of `c` among a player's influence cards, revealed or not. -/
def inflCount (p : Player) (c : Character) : Nat :=
  (p.influenceCards.filter (fun ic => ic.character = c)).length

/-- Copies of `c` across all hands, revealed or not. -/
def handCount (s : GameState) (c : Character) : Nat :=
  (s.players.map (fun p => inflCount p c)).sum

/-- All copies of `c` tracked by the state: court deck, all influence cards
(revealed or not), and the temporarily drawn cards. -/
def charTotal (s : GameState) (c : Character) : Nat :=
  countC s.courtDeck c + handCount s c + countC s.drawnCards c

/-- The roster's id list. -/
def idsOf (s : GameState) : List String := s.players.map (·.id)

/-! ## Reachability

The spec declares the public transition vocabulary (§4/§6) and that `GameOver`
is terminal (§3): a host never applies a further transition to a finished
game.  `Step` is one application of a public operation to an unfinished game,
with arbitrary shuffle functions and random picks. -/

/-- One public transition applied to a non-terminal state. -/
inductive Step : GameState → GameState → Prop where
  | ofDeclareAction {s s' : GameState} (sh : List Character → List Character)
      (a : GameAction) :
      s.phase ≠ GamePhase.GameOver → declareAction sh s a = some s' → Step s s'
  | ofChallengeAction {s s' : GameState} (sh : List Character → List Character)
      (cid : String) :
      s.phase ≠ GamePhase.GameOver → challengeAction sh s cid = some s' → Step s s'
  | ofPassChallenge {s s' : GameState} (sh : List Character → List Character)
      (pid : String) :
      s.phase ≠ GamePhase.GameOver → passChallenge sh s pid = some s' → Step s s'
  | ofDeclareBlock {s s' : GameState} (bid : String) (c : Character) :
      s.phase ≠ GamePhase.GameOver → declareBlock s bid c = some s' → Step s s'
  | ofPassBlock {s s' : GameState} (sh : List Character → List Character)
      (pid : String) :
      s.phase ≠ GamePhase.GameOver → passBlock sh s pid = some s' → Step s s'
  | ofChallengeBlock {s s' : GameState} (sh : List Character → List Character)
      (cid : String) :
      s.phase ≠ GamePhase.GameOver → challengeBlock sh s cid = some s' → Step s s'
  | ofResolveAction {s s' : GameState} (sh : List Character → List Character) :
      s.phase ≠ GamePhase.GameOver → resolveAction sh s = some s' → Step s s'
  | ofDeclareCoupRedirect {s s' : GameState} (rid tid : String) :
      s.phase ≠ GamePhase.GameOver → declareCoupRedirect s rid tid = some s' → Step s s'
  | ofPassCoupRedirect {s s' : GameState} (pid : String) :
      s.phase ≠ GamePhase.GameOver → passCoupRedirect s pid = some s' → Step s s'
  | ofChallengeCoupRedirect {s s' : GameState} (sh : List Character → List Character)
      (cid : String) :
      s.phase ≠ GamePhase.GameOver → challengeCoupRedirect sh s cid = some s' → Step s s'
  | ofPassCoupRedirectChallenge {s s' : GameState} (pid : String) :
      s.phase ≠ GamePhase.GameOver → passCoupRedirectChallenge s pid = some s' → Step s s'
  | ofResolveInquisitorChoice {s s' : GameState} (sh : List Character → List Character)
      (r : Nat) (choice : InquisitorChoice) (tid : Option String) :
      s.phase ≠ GamePhase.GameOver →
      resolveInquisitorChoice sh r s choice tid = some s' → Step s s'
  | ofSelectCardToLose {s s' : GameState} (sh : List Character → List Character)
      (pid : String) (idx : Nat) :
      s.phase ≠ GamePhase.GameOver → selectCardToLose sh s pid idx = some s' → Step s s'
  | ofCompleteExchange {s s' : GameState} (sh : List Character → List Character)
      (pid : String) (kept returned : List Character) :
      s.phase ≠ GamePhase.GameOver →
      completeExchange sh s pid kept returned = some s' → Step s s'
  | ofResolveExamine {s s' : GameState} (sh : List Character → List Character)
      (force : Bool) (idx : Nat) :
      s.phase ≠ GamePhase.GameOver → resolveExamine sh s force idx = some s' → Step s s'
  | ofAdvanceTurn {s s' : GameState} :
      s.phase ≠ GamePhase.GameOver → advanceTurn s = some s' → Step s s'

/-- A state reachable from `createGame` (on a config with at least the spec's
minimum of two players and with distinct resulting player ids) by public
transitions. -/
inductive Reachable : GameState → Prop where
  | init (cfg : GameConfig) (sh : List Character → List Character) (s : GameState) :
      2 ≤ cfg.playerCount → createGame sh cfg = some s →
      (s.players.map (·.id)).Nodup → Reachable s
  | step {s s' : GameState} : Reachable s → Step s s' → Reachable s'

/-- One public transition applied by a protocol-respecting host, as needed for
card conservation: shuffles permute their input, transitions other than
`completeExchange` are not applied while exchange cards are drawn, and
`completeExchange` is given a genuine partition of hand-plus-drawn cards.
`advanceTurn` and the card-selection phases need no own constructor here
because a conservation-respecting host reaches them only through the other
operations; direct `advanceTurn` would discard drawn cards. -/
inductive StepC : GameState → GameState → Prop where
  | ofDeclareAction {s s' : GameState} (sh : List Character → List Character)
      (a : GameAction) : (∀ l, (sh l).Perm l) → s.drawnCards = [] →
      s.phase ≠ GamePhase.GameOver → declareAction sh s a = some s' → StepC s s'
  | ofChallengeAction {s s' : GameState} (sh : List Character → List Character)
      (cid : String) : (∀ l, (sh l).Perm l) → s.drawnCards = [] →
      s.phase ≠ GamePhase.GameOver → challengeAction sh s cid = some s' → StepC s s'
  | ofPassChallenge {s s' : GameState} (sh : List Character → List Character)
      (pid : String) : (∀ l, (sh l).Perm l) → s.drawnCards = [] →
      s.phase ≠ GamePhase.GameOver → passChallenge sh s pid = some s' → StepC s s'
  | ofDeclareBlock {s s' : GameState} (bid : String) (c : Character) :
      s.drawnCards = [] →
      s.phase ≠ GamePhase.GameOver → declareBlock s bid c = some s' → StepC s s'
  | ofPassBlock {s s' : GameState} (sh : List Character → List Character)
      (pid : String) : (∀ l, (sh l).Perm l) → s.drawnCards = [] →
      s.phase ≠ GamePhase.GameOver → passBlock sh s pid = some s' → StepC s s'
  | ofChallengeBlock {s s' : GameState} (sh : List Character → List Character)
      (cid : String) : (∀ l, (sh l).Perm l) → s.drawnCards = [] →
      s.phase ≠ GamePhase.GameOver → challengeBlock sh s cid = some s' → StepC s s'
  | ofResolveAction {s s' : GameState} (sh : List Character → List Character) :
      (∀ l, (sh l).Perm l) → s.drawnCards = [] →
      s.phase ≠ GamePhase.GameOver → resolveAction sh s = some s' → StepC s s'
  | ofDeclareCoupRedirect {s s' : GameState} (rid tid : String) :
      s.drawnCards = [] →
      s.phase ≠ GamePhase.GameOver → declareCoupRedirect s rid tid = some s' → StepC s s'
  | ofPassCoupRedirect {s s' : GameState} (pid : String) :
      s.drawnCards = [] →
      s.phase ≠ GamePhase.GameOver → passCoupRedirect s pid = some s' → StepC s s'
  | ofChallengeCoupRedirect {s s' : GameState} (sh : List Character → List Character)
      (cid : String) : (∀ l, (sh l).Perm l) → s.drawnCards = [] →
      s.phase ≠ GamePhase.GameOver → challengeCoupRedirect sh s cid = some s' → StepC s s'
  | ofPassCoupRedirectChallenge {s s' : GameState} (pid : String) :
      s.drawnCards = [] →
      s.phase ≠ GamePhase.GameOver → passCoupRedirectChallenge s pid = some s' → StepC s s'
  | ofResolveInquisitorChoice {s s' : GameState} (sh : List Character → List Character)
      (r : Nat) (choice : InquisitorChoice) (tid : Option String) :
      (∀ l, (sh l).Perm l) → s.drawnCards = [] →
      s.phase ≠ GamePhase.GameOver →
      resolveInquisitorChoice sh r s choice tid = some s' → StepC s s'
  | ofSelectCardToLose {s s' : GameState} (sh : List Character → List Character)
      (pid : String) (idx : Nat) : (∀ l, (sh l).Perm l) → s.drawnCards = [] →
      s.phase ≠ GamePhase.GameOver → selectCardToLose sh s pid idx = some s' → StepC s s'
  | ofCompleteExchange {s s' : GameState} (sh : List Character → List Character)
      (pid : String) (kept returned : List Character) :
      (∀ l, (sh l).Perm l) →
      (∀ p, getPlayerById s pid = some p →
        (kept ++ returned).Perm ((getAliveInfluence p).map (·.character) ++ s.drawnCards)) →
      s.phase ≠ GamePhase.GameOver →
      completeExchange sh s pid kept returned = some s' → StepC s s'
  | ofResolveExamine {s s' : GameState} (sh : List Character → List Character)
      (force : Bool) (idx : Nat) : (∀ l, (sh l).Perm l) → s.drawnCards = [] →
      s.phase ≠ GamePhase.GameOver → resolveExamine sh s force idx = some s' → StepC s s'

/-- Reachability under a protocol-respecting host (see `StepC`). -/
inductive ReachableC : GameState → Prop where
  | init (cfg : GameConfig) (sh : List Character → List Character) (s : GameState) :
      (∀ l, (sh l).Perm l) → 2 ≤ cfg.playerCount → createGame sh cfg = some s →
      (s.players.map (·.id)).Nodup → ReachableC s
  | step {s s' : GameState} : ReachableC s → StepC s s' → ReachableC s'

/-! ## Invariant bundles -/

/-- The game-over/winner invariant of §8.4: once (and only once) exactly one
player is non-eliminated, the phase is GameOver and the winner is that
player; an unfinished game always has at least two non-eliminated players. -/
def GameOverInv (s : GameState) : Prop :=
  (s.phase = GamePhase.GameOver →
    ∃ p, getAlivePlayers s = [p] ∧ s.winnerId = some p.id)
  ∧ (s.phase ≠ GamePhase.GameOver → 2 ≤ (getAlivePlayers s).length)

/-- Every entry of the Coup-redirect chain names a rostered player. -/
def ChainValid (s : GameState) : Prop :=
  ∀ id ∈ s.coupRedirectChain, ∃ p ∈ s.players, p.id = id

/-- The structural invariant carried through every public transition. -/
def StateInv (s : GameState) : Prop :=
  (idsOf s).Nodup ∧ GameOverInv s ∧ ChainValid s

/-! ## Concrete scenario states

Small explicit states used by the concrete counterexample and witness
theorems below.  `mkTestPlayer` abbreviates a human player record. -/

/-- An explicit player record for scenario states. -/
def mkTestPlayer (id name : String) (coins : Int)
    (cards : List (Character × Bool)) : Player :=
  { id := id, name := name, coins := coins,
    influenceCards := cards.map (fun x => { character := x.1, isRevealed := x.2 }),
    isHuman := true, botDifficulty := none, faction := none, isEliminated := false }

/-- A 2-player config with the base five, Inquisitor and Jester enabled. -/
def cfgTwo : GameConfig :=
  { playerCount := 2, humanPlayerName := "P1",
    enabledCharacters := [.Duke, .Assassin, .Captain, .Ambassador, .Contessa,
                          .Inquisitor, .Jester],
    enableFactions := false, botDifficulty := .Medium, cardsPerCharacter := 3 }

/-- A state template with empty transient fields, phase AwaitingAction. -/
def mkTestState (players : List Player) (deck : List Character) : GameState :=
  { config := cfgTwo, players := players, courtDeck := deck,
    treasuryReserve := 0, currentPlayerIndex := 0, phase := .AwaitingAction,
    pendingAction := none, pendingBlock := none, respondedPlayerIds := [],
    drawnCards := [], winnerId := none, turnNumber := 1,
    coupRedirectChain := [], coupRedirectSourceId := none,
    cardSelectionReason := none }

/-- C2 scenario: a Socialist redistribution with two alive contributors. -/
def stateSocialist : GameState :=
  { mkTestState
      [ mkTestPlayer "p1" "P1" 5 [(.Socialist, false), (.Captain, false)],
        mkTestPlayer "p2" "P2" 3 [(.Duke, false), (.Duke, false)],
        mkTestPlayer "p3" "P3" 4 [(.Contessa, false), (.Contessa, false)] ]
      [.Duke, .Contessa, .Contessa] with
    pendingAction := some { type := .SocialistRedistribute, sourcePlayerId := "p1" } }

/-- C3 scenario: the initial state of `repro_redirection_challenge.ts`.
P1 has 10 coins and two non-Jester cards; P2 truly holds a Jester. -/
def stateRedirectRepro : GameState :=
  mkTestState
    [ mkTestPlayer "p1" "P1" 10 [(.Ambassador, false), (.Captain, false)],
      mkTestPlayer "p2" "P2" 2 [(.Jester, false), (.Duke, false)] ]
    [.Duke, .Contessa, .Contessa]

/-- C4 scenario: AwaitingCoupRedirectChallenge in a 2-player game; the
redirector `p2` holds no Jester, so the challenge succeeds and the double
loss eliminates `p2`. -/
def stateDoubleLoss : GameState :=
  { mkTestState
      [ mkTestPlayer "p1" "P1" 3 [(.Ambassador, false), (.Captain, false)],
        mkTestPlayer "p2" "P2" 2 [(.Duke, false), (.Contessa, false)] ]
      [.Duke, .Contessa, .Contessa] with
    phase := .AwaitingCoupRedirectChallenge,
    pendingAction := some { type := .Coup, sourcePlayerId := "p1",
                            targetPlayerId := some "p1",
                            claimedCharacter := some .Jester },
    coupRedirectChain := ["p2", "p1"], coupRedirectSourceId := some "p1" }

/-- C6 scenario: a pending Exchange by `p1` holding two alive cards. -/
def stateExchange : GameState :=
  { mkTestState
      [ mkTestPlayer "p1" "P1" 2 [(.Ambassador, false), (.Captain, false)],
        mkTestPlayer "p2" "P2" 2 [(.Duke, false), (.Duke, false)] ]
      [.Contessa, .Contessa, .Inquisitor] with
    pendingAction := some { type := .Exchange, sourcePlayerId := "p1" } }

/-- C7 scenario: AwaitingBlock on an Assassinate targeting `p3`; `p2` is not
the target. -/
def stateBlockable : GameState :=
  { mkTestState
      [ mkTestPlayer "p1" "P1" 2 [(.Assassin, false), (.Captain, false)],
        mkTestPlayer "p2" "P2" 2 [(.Duke, false), (.Duke, false)],
        mkTestPlayer "p3" "P3" 2 [(.Contessa, false), (.Contessa, false)] ]
      [.Duke, .Contessa, .Contessa] with
    phase := .AwaitingBlock,
    pendingAction := some { type := .Assassinate, sourcePlayerId := "p1",
                            targetPlayerId := some "p3",
                            claimedCharacter := some .Assassin } }

/-- C8 scenario: AwaitingBlock on a ForeignAid by `p1` with three alive
non-actors `p2`, `p3`, `p4`. -/
def stateForeignAid : GameState :=
  { mkTestState
      [ mkTestPlayer "p1" "P1" 2 [(.Assassin, false), (.Captain, false)],
        mkTestPlayer "p2" "P2" 2 [(.Duke, false), (.Duke, false)],
        mkTestPlayer "p3" "P3" 2 [(.Contessa, false), (.Contessa, false)],
        mkTestPlayer "p4" "P4" 2 [(.Captain, false), (.Captain, false)] ]
      [.Duke, .Contessa, .Contessa] with
    phase := .AwaitingBlock,
    pendingAction := some { type := .ForeignAid, sourcePlayerId := "p1" } }

/-- C1 scenario: `p1` (without the Assassin) declares Assassinate on `p2`. -/
def stateAssassinBluff : GameState :=
  mkTestState
    [ mkTestPlayer "p1" "P1" 7 [(.Duke, false), (.Captain, false)],
      mkTestPlayer "p2" "P2" 2 [(.Contessa, false), (.Duke, false)] ]
    [.Duke, .Contessa, .Contessa]

/-- The identity shuffle, used to instantiate concrete runs. -/
def shId : List Character → List Character := fun l => l

/-- A throwaway default state (only a `getD` fallback; never reached). -/
def fallbackState : GameState := mkTestState [] []

/-- The concrete initial state of a 2-player game under the identity shuffle. -/
def stateInit2 : GameState := (createGame shId cfgTwo).getD fallbackState

/-- The concrete run: create a 2-player game, `player-0` Coups `player-1`,
`player-1` redirects back to `player-0`; ends in AwaitingCoupRedirectChallenge
with a redirect chain of length two. -/
def redirectDeclaredRun : Option GameState := do
  let s0 ← createGame shId cfgTwo
  let s1 ← declareAction shId s0
    { type := .Coup, sourcePlayerId := "player-0", targetPlayerId := some "player-1" }
  declareCoupRedirect s1 "player-1" "player-0"

/-- The final state of `redirectDeclaredRun`. -/
def stateChainTwo : GameState := redirectDeclaredRun.getD fallbackState

/-- The Coup declaration of `redirectDeclaredRun`, as a named action. -/
def actCoup01 : GameAction :=
  { type := .Coup, sourcePlayerId := "player-0", targetPlayerId := some "player-1" }

/-- The intermediate state of `redirectDeclaredRun`, after the Coup declaration. -/
def stateCoupDeclared01 : GameState :=
  (declareAction shId stateInit2 actCoup01).getD fallbackState

/-- The Assassinate declaration of the C1 scenario. -/
def actAssassinate : GameAction :=
  { type := .Assassinate, sourcePlayerId := "p1", targetPlayerId := some "p2",
    claimedCharacter := some .Assassin }

/-- The C1 scenario after the declaration. -/
def stateAssassinDeclared : GameState :=
  (declareAction shId stateAssassinBluff actAssassinate).getD fallbackState

/-- The C1 scenario after `p2`'s successful challenge. -/
def stateAssassinChallenged : GameState :=
  (challengeAction shId stateAssassinDeclared "p2").getD fallbackState

/-- The C2 scenario after resolution. -/
def stateSocialistAfter : GameState :=
  (resolveAction shId stateSocialist).getD fallbackState

/-- The C6 scenario after resolution. -/
def stateExchangeAfter : GameState :=
  (resolveAction shId stateExchange).getD fallbackState

/-- The C7 scenario after the ineligible `declareBlock` call. -/
def stateBlockableAfter : GameState :=
  (declareBlock stateBlockable "p2" Character.Contessa).getD fallbackState

/-- The C8 scenario after one, two, and three `passBlock` calls, all by `p2`. -/
def stateFAPass1 : GameState := (passBlock shId stateForeignAid "p2").getD fallbackState

/-- See `stateFAPass1`. -/
def stateFAPass2 : GameState := (passBlock shId stateFAPass1 "p2").getD fallbackState

/-- See `stateFAPass1`. -/
def stateFAPass3 : GameState := (passBlock shId stateFAPass2 "p2").getD fallbackState

/-- The C4 scenario after the successful counter-challenge. -/
def stateDoubleLossAfter : GameState :=
  (challengeCoupRedirect shId stateDoubleLoss "p1").getD fallbackState

/-- The C3 run, mirroring `repro_redirection_challenge.ts` step by step:
P1 Coups P2, P2 redirects to P1 claiming the Jester it truly holds, P1
challenges (the challenge fails), P1 selects card 0 as the challenge
penalty. -/
def redirectReproRun : Option GameState := do
  let s1 ← declareAction shId stateRedirectRepro
    { type := .Coup, sourcePlayerId := "p1", targetPlayerId := some "p2" }
  let s2 ← declareCoupRedirect s1 "p2" "p1"
  let s3 ← challengeCoupRedirect shId s2 "p1"
  selectCardToLose shId s3 "p1" 0

/-- The final state of `redirectReproRun`. -/
def stateReproFinal : GameState := redirectReproRun.getD fallbackState

/-- A sequence of `passBlock` calls, first caller first. -/
def passBlockSeq (sh : List Character → List Character)
    (pids : List String) (s : GameState) : Option GameState :=
  match pids with
  | [] => some s
  | pid :: rest => do
    let s' ← passBlock sh s pid
    passBlockSeq sh rest s'

/-! ## Basic lemmas -/

theorem getPlayerById_mem {s : GameState} {q : String} {p : Player}
    (h : getPlayerById s q = some p) : p ∈ s.players ∧ p.id = q := by
  unfold getPlayerById at h
  refine ⟨List.mem_of_find?_eq_some h, ?_⟩
  have hs := List.find?_some h
  simpa using hs

theorem getPlayerById_map {s t : GameState} (f : Player → Player)
    (hid : ∀ p, (f p).id = p.id) (h : t.players = s.players.map f) (q : String) :
    getPlayerById t q = (getPlayerById s q).map f := by
  unfold getPlayerById
  rw [h, List.find?_map]
  have hf : ((fun p : Player => p.id == q) ∘ f) = (fun p : Player => p.id == q) := by
    funext p
    simp [Function.comp, hid]
  rw [hf]

theorem coinsOf_congr {s t : GameState} (h : t.players = s.players) (q : String) :
    coinsOf t q = coinsOf s q := by
  unfold coinsOf getPlayerById
  rw [h]

theorem coinsOf_map {s t : GameState} (f : Player → Player)
    (hid : ∀ p, (f p).id = p.id) (hcoins : ∀ p, (f p).coins = p.coins)
    (h : t.players = s.players.map f) (q : String) :
    coinsOf t q = coinsOf s q := by
  unfold coinsOf
  rw [getPlayerById_map f hid h]
  cases getPlayerById s q <;> simp [hcoins]

theorem checkGameOver_players (s : GameState) :
    (checkGameOver s).players = s.players := by
  by_cases hl : (getAlivePlayers s).length = 1 <;> simp [checkGameOver, hl]

theorem checkPlayerElimination_coinsOf {s t : GameState} {pid : String}
    (h : checkPlayerElimination s pid = some t) (q : String) :
    coinsOf t q = coinsOf s q := by
  unfold checkPlayerElimination at h
  cases hp : getPlayerById s pid with
  | none => rw [hp] at h; simp at h
  | some player =>
    rw [hp] at h
    simp only [Option.pure_def, Option.bind_eq_bind, Option.some_bind] at h
    split at h
    · simp only [Option.some.injEq] at h
      subst h
      have h1 : (checkGameOver { s with players := s.players.map fun p =>
          if p.id = pid then { p with isEliminated := true } else p }).players
          = s.players.map fun p =>
          if p.id = pid then { p with isEliminated := true } else p :=
        checkGameOver_players _
      refine coinsOf_map _ ?_ ?_ h1 q
      · intro p; split <;> rfl
      · intro p; split <;> rfl
    · simp only [Option.some.injEq] at h
      subst h
      rfl

theorem loseInfluence_coinsOf {s t : GameState} {pid : String} {i : Nat}
    (h : loseInfluence s pid i = some t) (q : String) :
    coinsOf t q = coinsOf s q := by
  unfold loseInfluence at h
  cases hp : getPlayerById s pid with
  | none => rw [hp] at h; simp at h
  | some player =>
    rw [hp] at h
    simp only [Option.pure_def, Option.bind_eq_bind, Option.some_bind] at h
    cases hc : player.influenceCards.get? i with
    | none => rw [hc] at h; simp at h
    | some card =>
      rw [hc] at h
      simp only [Option.some_bind] at h
      split at h
      · simp at h
      · have := checkPlayerElimination_coinsOf h q
        rw [this]
        refine coinsOf_map (t := { s with players := s.players.map fun p =>
          if p.id = pid then
            { p with influenceCards := p.influenceCards.mapIdx fun j c =>
                if j = i then { c with isRevealed := true } else c }
          else p }) _ ?_ ?_ rfl q
        · intro p; split <;> rfl
        · intro p; split <;> rfl

theorem advanceTurn_players {s t : GameState} (h : advanceTurn s = some t) :
    t.players = s.players := by
  unfold advanceTurn at h
  split at h
  · simp only [Option.some.injEq] at h; subst h; rfl
  · cases hn : nextAlivePlayerIndex s with
    | none => rw [hn] at h; simp at h
    | some i =>
      rw [hn] at h
      simp only [Option.pure_def, Option.bind_eq_bind, Option.some_bind,
        Option.some.injEq] at h
      subst h; rfl

theorem resolveAction_coup_coinsOf {sh : List Character → List Character}
    {s t : GameState} {a : GameAction}
    (hact : s.pendingAction = some a) (htype : a.type = ActionType.Coup)
    (h : resolveAction sh s = some t) (q : String) :
    coinsOf t q = coinsOf s q := by
  unfold resolveAction at h
  rw [hact] at h
  simp only [Option.pure_def, Option.bind_eq_bind, Option.some_bind] at h
  cases ha : getPlayerById s a.sourcePlayerId with
  | none => rw [ha] at h; simp at h
  | some actor =>
    rw [ha] at h
    simp only [Option.some_bind] at h
    rw [htype] at h
    simp only at h
    cases htgt : a.targetPlayerId with
    | none => rw [htgt] at h; simp at h
    | some tid =>
      rw [htgt] at h
      simp only [Option.some_bind] at h
      cases hct : getPlayerById s tid with
      | none => rw [hct] at h; simp at h
      | some coupTarget =>
        rw [hct] at h
        simp only [Option.some_bind] at h
        split at h
        · simp only [Option.some.injEq] at h
          subst h
          exact coinsOf_congr rfl q
        · split at h
          · cases hidx : coupTarget.influenceCards.findIdx? (fun c => !c.isRevealed) with
            | none => rw [hidx] at h; simp at h
            | some idx =>
              rw [hidx] at h
              simp only [Option.some_bind] at h
              cases hlost : loseInfluence s tid idx with
              | none => rw [hlost] at h; simp at h
              | some lost =>
                rw [hlost] at h
                simp only [Option.some_bind] at h
                calc coinsOf t q = coinsOf lost q :=
                      coinsOf_congr (advanceTurn_players h) q
                  _ = coinsOf s q := loseInfluence_coinsOf hlost q
          · simp only [Option.some.injEq] at h
            subst h
            exact coinsOf_congr rfl q

theorem coinsOf_deduct {s t : GameState} (xid : String) (amt : Int)
    (ht : t.players = s.players.map fun p =>
      if p.id = xid then { p with coins := p.coins - amt } else p) (q : String) :
    coinsOf t q = (coinsOf s q).map (fun c => if q = xid then c - amt else c) := by
  unfold coinsOf
  rw [getPlayerById_map (fun p => if p.id = xid then { p with coins := p.coins - amt } else p)
    (fun p => by by_cases hp : p.id = xid <;> simp [hp]) ht q]
  cases hq : getPlayerById s q with
  | none => rfl
  | some pq =>
    have hid : pq.id = q := (getPlayerById_mem hq).2
    subst hid
    by_cases hc : pq.id = xid <;> simp [hc]

theorem declareAction_cost_deducted
    {sh : List Character → List Character} {s : GameState} {a : GameAction}
    {s' : GameState}
    (hty : a.type = ActionType.Coup ∨ a.type = ActionType.Assassinate)
    (h : declareAction sh s a = some s') :
    coinsOf s' a.sourcePlayerId
      = (coinsOf s a.sourcePlayerId).map (fun c => c - engineActionCost a.type) := by
  unfold declareAction at h
  simp only [Option.pure_def, Option.bind_eq_bind] at h
  cases hpl : getPlayerById s a.sourcePlayerId with
  | none => rw [hpl] at h; simp at h
  | some player =>
    rw [hpl] at h
    simp only [Option.some_bind] at h
    have hplid : player.id = a.sourcePlayerId := (getPlayerById_mem hpl).2
    have hde : declareAction.declareActionAfterLog sh s a player = some s' := by
      cases htgt : a.targetPlayerId with
      | none => rw [htgt] at h; exact h
      | some t =>
        rw [htgt] at h
        simp only [Option.bind_eq_bind] at h
        cases htl : getPlayerById s t with
        | none => rw [htl] at h; simp at h
        | some tp => rw [htl] at h; simpa using h
    clear h
    unfold declareAction.declareActionAfterLog at hde
    rcases hty with h1 | h1 <;> rw [h1] at hde ⊢
    · -- Coup: cost 7 > 0, not challengeable, not blockable, resolves immediately
      norm_num [show isActionChallengeable ActionType.Coup = false from rfl,
        show isActionBlockable ActionType.Coup s.config.enabledCharacters = false from rfl,
        engineActionCost, COUP_COST] at hde
      have hcoins := resolveAction_coup_coinsOf (a := a) rfl h1 hde a.sourcePlayerId
      rw [hcoins]
      rw [coinsOf_deduct player.id 7 rfl a.sourcePlayerId]
      cases hq : coinsOf s a.sourcePlayerId <;>
        simp [hplid, engineActionCost, COUP_COST]
    · -- Assassinate: cost 3 > 0, challengeable, stops in AwaitingChallengeOnAction
      norm_num [show isActionChallengeable ActionType.Assassinate = true from rfl,
        engineActionCost, ASSASSINATE_COST] at hde
      subst hde
      rw [coinsOf_deduct player.id 3 rfl a.sourcePlayerId]
      cases hq : coinsOf s a.sourcePlayerId <;>
        simp [hplid, engineActionCost, ASSASSINATE_COST]

theorem challengeAction_success_coinsOf
    {sh : List Character → List Character} {s : GameState} {cid : String}
    {s' : GameState} {act : GameAction} {actor : Player} {cc : Character}
    (hact : s.pendingAction = some act)
    (hactor : getPlayerById s act.sourcePlayerId = some actor)
    (hcc : act.claimedCharacter = some cc)
    (hno : (getAliveInfluence actor).any (fun c => c.character = cc) = false)
    (h : challengeAction sh s cid = some s') (q : String) :
    coinsOf s' q = coinsOf s q := by
  unfold challengeAction at h
  rw [hact] at h
  simp only [Option.pure_def, Option.bind_eq_bind, Option.some_bind] at h
  cases hch : getPlayerById s cid with
  | none => rw [hch] at h; simp at h
  | some challenger =>
    rw [hch] at h
    simp only [Option.some_bind] at h
    rw [hactor] at h
    simp only [Option.some_bind] at h
    rw [hcc] at h
    simp only [Option.some_bind] at h
    rw [hno] at h
    simp only [Bool.false_eq_true, if_false] at h
    cases ha2 : getPlayerById
        { s with pendingAction := some act,
                 cardSelectionReason := some CardSelectionReason.challengePenalty }
        actor.id with
    | none => rw [ha2] at h; simp at h
    | some actor2 =>
      rw [ha2] at h
      simp only [Option.some_bind] at h
      split at h
      · cases hidx : actor2.influenceCards.findIdx? (fun c => !c.isRevealed) with
        | none => rw [hidx] at h; simp at h
        | some idx =>
          rw [hidx] at h
          simp only [Option.some_bind] at h
          cases hlo : loseInfluence
              { s with pendingAction := some act,
                       cardSelectionReason := some CardSelectionReason.challengePenalty }
              actor.id idx with
          | none => rw [hlo] at h; simp at h
          | some ns2 =>
            rw [hlo] at h
            simp only [Option.some_bind] at h
            calc coinsOf s' q = coinsOf ns2 q := coinsOf_congr (advanceTurn_players h) q
              _ = coinsOf s q := by
                  rw [loseInfluence_coinsOf hlo q]
                  exact coinsOf_congr rfl q
      · simp only [Option.some.injEq] at h
        subst h
        exact coinsOf_congr rfl q

/-- C1: `declareAction` deducts the declared action's fixed coin cost (7 for
Coup, 3 for Assassinate) from the actor immediately, and the cost is never
refunded: a successful challenge against the actor (who holds no unrevealed
card of the claimed character) moves no coins at all, so after declaration
followed by a successful challenge the actor's balance still shows the full
deduction. -/
theorem claim_C1_cost_paid_never_refunded :
    (∀ (sh : List Character → List Character) (s : GameState) (a : GameAction)
        (s' : GameState),
      (a.type = ActionType.Coup ∨ a.type = ActionType.Assassinate) →
      declareAction sh s a = some s' →
      coinsOf s' a.sourcePlayerId
        = (coinsOf s a.sourcePlayerId).map (fun c => c - engineActionCost a.type))
    ∧ (∀ (sh : List Character → List Character) (s : GameState) (cid : String)
        (s' : GameState) (act : GameAction) (actor : Player) (cc : Character),
      s.pendingAction = some act →
      getPlayerById s act.sourcePlayerId = some actor →
      act.claimedCharacter = some cc →
      (getAliveInfluence actor).any (fun c => c.character = cc) = false →
      challengeAction sh s cid = some s' →
      ∀ q, coinsOf s' q = coinsOf s q)
    ∧ (∀ (sh1 sh2 : List Character → List Character) (s : GameState)
        (a : GameAction) (s1 : GameState) (cid : String) (s2 : GameState)
        (actor : Player) (cc : Character),
      (a.type = ActionType.Coup ∨ a.type = ActionType.Assassinate) →
      declareAction sh1 s a = some s1 →
      s1.pendingAction = some a →
      getPlayerById s1 a.sourcePlayerId = some actor →
      a.claimedCharacter = some cc →
      (getAliveInfluence actor).any (fun c => c.character = cc) = false →
      challengeAction sh2 s1 cid = some s2 →
      coinsOf s2 a.sourcePlayerId
        = (coinsOf s a.sourcePlayerId).map (fun c => c - engineActionCost a.type)) := by
  refine ⟨fun sh s a s' hty h => declareAction_cost_deducted hty h,
    fun sh s cid s' act actor cc h1 h2 h3 h4 h5 q =>
      challengeAction_success_coinsOf h1 h2 h3 h4 h5 q,
    fun sh1 sh2 s a s1 cid s2 actor cc hty hdecl hpa hact hcc hno hch => ?_⟩
  rw [challengeAction_success_coinsOf hpa hact hcc hno hch a.sourcePlayerId]
  exact declareAction_cost_deducted hty hdecl

/-- Witness for C1 at the concrete bluff scenario: `p1` (7 coins, no Assassin)
declares Assassinate on `p2` (balance drops to 4), `p2` challenges
successfully, and the balance is still 4 in the final state. -/
theorem claim_C1_witness :
    declareAction shId stateAssassinBluff actAssassinate = some stateAssassinDeclared
    ∧ challengeAction shId stateAssassinDeclared "p2" = some stateAssassinChallenged
    ∧ coinsOf stateAssassinBluff "p1" = some 7
    ∧ coinsOf stateAssassinDeclared "p1" = some 4
    ∧ coinsOf stateAssassinChallenged "p1"
        = (coinsOf stateAssassinBluff "p1").map
            (fun c => c - engineActionCost actAssassinate.type) := by
  refine ⟨by decide, by decide, by decide, by decide, ?_⟩
  exact claim_C1_cost_paid_never_refunded.2.2 shId shId stateAssassinBluff
    actAssassinate stateAssassinDeclared "p2" stateAssassinChallenged
    (mkTestPlayer "p1" "P1" 4 [(.Duke, false), (.Captain, false)]) Character.Assassin
    (Or.inr rfl) (by decide) (by decide) (by decide) (by decide) (by decide) (by decide)

/-- The full field-level description of a successful `advanceTurn` from a
non-terminal state. -/
theorem advanceTurn_spec {s t : GameState} (h : advanceTurn s = some t)
    (hph : s.phase ≠ GamePhase.GameOver) :
    t.phase = GamePhase.AwaitingAction ∧ t.players = s.players ∧
    t.courtDeck = s.courtDeck ∧ t.pendingAction = none ∧ t.pendingBlock = none ∧
    t.respondedPlayerIds = [] ∧ t.drawnCards = [] ∧
    t.turnNumber = s.turnNumber + 1 ∧ t.coupRedirectChain = [] ∧
    t.coupRedirectSourceId = none ∧ t.cardSelectionReason = none ∧
    t.winnerId = s.winnerId ∧ t.config = s.config := by
  unfold advanceTurn at h
  rw [if_neg hph] at h
  cases hn : nextAlivePlayerIndex s with
  | none => rw [hn] at h; simp at h
  | some i =>
    rw [hn] at h
    simp only [Option.pure_def, Option.bind_eq_bind, Option.some_bind,
      Option.some.injEq] at h
    subst h
    exact ⟨rfl, rfl, rfl, rfl, rfl, rfl, rfl, rfl, rfl, rfl, rfl, rfl, rfl⟩

theorem coinsOf_adjust {s t : GameState} (xid : String) (g : Int → Int)
    (ht : t.players = s.players.map fun p =>
      if p.id = xid then { p with coins := g p.coins } else p) (q : String) :
    coinsOf t q = (coinsOf s q).map (fun c => if q = xid then g c else c) := by
  unfold coinsOf
  rw [getPlayerById_map (fun p => if p.id = xid then { p with coins := g p.coins } else p)
    (fun p => by by_cases hp : p.id = xid <;> simp [hp]) ht q]
  cases hq : getPlayerById s q with
  | none => rfl
  | some pq =>
    have hid : pq.id = q := (getPlayerById_mem hq).2
    subst hid
    by_cases hc : pq.id = xid <;> simp [hc]

/-- C2: the SocialistRedistribute branch of `resolveAction` does not conserve
coins: with two alive contributors the actor collects 2, keeps 1, and the
computed remainder is never handed back — one coin leaves the game.  This
contradicts the action's own catalog description ("devolve o restante") and
the spec's conservation requirement, so the claim is right and the code is
wrong. -/
theorem claim_C2_socialist_destroys_remainder :
    resolveAction shId stateSocialist = some stateSocialistAfter
    ∧ totalCoins stateSocialist = 12
    ∧ totalCoins stateSocialistAfter = 11
    ∧ coinsOf stateSocialist "p1" = some 5
    ∧ coinsOf stateSocialistAfter "p1" = some 6
    ∧ coinsOf stateSocialist "p2" = some 3
    ∧ coinsOf stateSocialistAfter "p2" = some 2
    ∧ coinsOf stateSocialist "p3" = some 4
    ∧ coinsOf stateSocialistAfter "p3" = some 3 := by
  refine ⟨by decide, by decide, by decide, by decide, by decide, by decide,
    by decide, by decide, by decide⟩

/-- C3: the code contradicts the repository's own repro test
(`repro_redirection_challenge.ts`).  In the exact scenario of the test —
P1 Coups P2, P2 redirects back claiming (and truly holding) the Jester, P1
challenges and pays the one-card penalty — the engine advances the turn
instead of re-resolving the Coup against P1: P1 keeps one influence, nobody
wins, and the turn counter moves on (the test prints FAILURE for precisely
this outcome). -/
theorem claim_C3_redirected_coup_never_lands :
    redirectReproRun = some stateReproFinal
    ∧ stateReproFinal.phase = GamePhase.AwaitingAction
    ∧ aliveCountOf stateReproFinal "p1" = some 1
    ∧ aliveCountOf stateReproFinal "p2" = some 2
    ∧ stateReproFinal.winnerId = none
    ∧ stateReproFinal.turnNumber = 2
    ∧ stateReproFinal.coupRedirectChain = [] := by
  refine ⟨by decide, by decide, by decide, by decide, by decide, by decide, by decide⟩

/-- C7: the claim is right and the code is wrong.  `declareBlock` performs no
eligibility validation whatsoever — at the failing input (an Assassinate
targeting `p3`), the non-target `p2` blocks with Contessa and the call
succeeds, opening AwaitingChallengeOnBlock, where the repository's own test
(`verify_rules.ts`, test 4) asserts such a call must throw. -/
theorem claim_C7_declareBlock_accepts_ineligible :
    stateBlockable.pendingAction
      = some {
          type := .Assassinate,
          sourcePlayerId := "p1",
          targetPlayerId := some "p3",
          claimedCharacter := some .Assassin }
    ∧ declareBlock stateBlockable "p2" Character.Contessa = some stateBlockableAfter
    ∧ stateBlockableAfter.phase = GamePhase.AwaitingChallengeOnBlock
    ∧ stateBlockableAfter.pendingBlock
      = some {
          blockingPlayerId := "p2",
          claimedCharacter := Character.Contessa,
          blockedAction := {
            type := .Assassinate,
            sourcePlayerId := "p1",
            targetPlayerId := some "p3",
            claimedCharacter := some .Assassin } } := by
  refine ⟨by decide, by decide, by decide, by decide⟩

/-- Counterexample to C6 as stated: resolving an Exchange does NOT transition
to a phase awaiting a kept/returned partition — at the concrete input it
finalizes a hand immediately and advances the turn (phase AwaitingAction,
turn counter incremented, no drawn cards held out). -/
theorem claim_C6_counterexample :
    resolveAction shId stateExchange = some stateExchangeAfter
    ∧ stateExchangeAfter.phase = GamePhase.AwaitingAction
    ∧ stateExchangeAfter.phase ≠ GamePhase.AwaitingExchangeSelection
    ∧ stateExchangeAfter.drawnCards = []
    ∧ stateExchangeAfter.turnNumber = stateExchange.turnNumber + 1
    ∧ aliveCountOf stateExchangeAfter "p1" = some 2 := by
  refine ⟨by decide, by decide, by decide, by decide, by decide, by decide⟩

/-- C6 as amended: `resolveAction` on an Exchange returns all of the actor's
alive cards to the court deck, reshuffles, draws an equal count back, and
finalizes the hand immediately — the new hand is exactly the drawn cards plus
the previously revealed placeholders, the turn advances, and no
kept/returned-selection phase is entered (`completeExchange` plays no role in
this flow; AwaitingExchangeSelection is used only by the Inquisitor
self-exchange). -/
theorem getPlayerById_update {s t : GameState} (xid : String) (g : Player → Player)
    (hg : ∀ p, (g p).id = p.id)
    (ht : t.players = s.players.map fun p => if p.id = xid then g p else p)
    {pl : Player} (hp : getPlayerById s xid = some pl) :
    getPlayerById t xid = some (g pl) := by
  rw [getPlayerById_map (fun p => if p.id = xid then g p else p)
    (fun p => by by_cases hc : p.id = xid <;> simp [hc, hg]) ht xid, hp]
  have hid : pl.id = xid := (getPlayerById_mem hp).2
  simp [hid]

theorem claim_C6_exchange_finalizes_immediately
    {sh : List Character → List Character} {s : GameState} {a : GameAction}
    {actor : Player} {s' : GameState}
    (hact : s.pendingAction = some a) (hty : a.type = ActionType.Exchange)
    (hactor : getPlayerById s a.sourcePlayerId = some actor)
    (hph : s.phase ≠ GamePhase.GameOver)
    (h : resolveAction sh s = some s') :
    s'.phase = GamePhase.AwaitingAction
    ∧ s'.pendingAction = none
    ∧ s'.drawnCards = []
    ∧ s'.turnNumber = s.turnNumber + 1
    ∧ s'.courtDeck = (drawCards (getAliveInfluence actor).length
        (sh (s.courtDeck ++ (getAliveInfluence actor).map (·.character)))).2
    ∧ getPlayerById s' a.sourcePlayerId
      = some { actor with
          influenceCards :=
            ((drawCards (getAliveInfluence actor).length
              (sh (s.courtDeck ++ (getAliveInfluence actor).map (·.character)))).1.map
                (fun c => { character := c, isRevealed := false }))
              ++ actor.influenceCards.filter (·.isRevealed) } := by
  unfold resolveAction at h
  rw [hact] at h
  simp only [Option.pure_def, Option.bind_eq_bind, Option.some_bind] at h
  rw [hactor] at h
  simp only [Option.some_bind] at h
  rw [hty] at h
  simp only at h
  have hspec := advanceTurn_spec h hph
  obtain ⟨h1, h2, h3, h4, -, -, h7, h8, -, -, -, -, -⟩ := hspec
  refine ⟨h1, h4, h7, h8, by rw [h3], ?_⟩
  have haid : actor.id = a.sourcePlayerId := (getPlayerById_mem hactor).2
  rw [← haid]
  have hactor2 : getPlayerById s actor.id = some actor := by rw [haid]; exact hactor
  exact getPlayerById_update actor.id
    (fun p => { p with
      influenceCards :=
        ((drawCards (getAliveInfluence actor).length
          (sh (s.courtDeck ++ (getAliveInfluence actor).map (·.character)))).1.map
            (fun c => { character := c, isRevealed := false }))
          ++ actor.influenceCards.filter (·.isRevealed) })
    (fun p => rfl) h2 hactor2

/-- Witness for the amended C6 at the concrete Exchange scenario. -/
theorem claim_C6_witness :
    stateExchange.pendingAction
      = some { type := ActionType.Exchange, sourcePlayerId := "p1" }
    ∧ stateExchangeAfter.phase = GamePhase.AwaitingAction
    ∧ stateExchangeAfter.turnNumber = stateExchange.turnNumber + 1 := by
  have happ := @claim_C6_exchange_finalizes_immediately shId stateExchange
    { type := ActionType.Exchange, sourcePlayerId := "p1" }
    (mkTestPlayer "p1" "P1" 2 [(.Ambassador, false), (.Captain, false)])
    stateExchangeAfter (by decide) rfl (by decide) (by decide) (by decide)
  exact ⟨by decide, happ.1, happ.2.2.2.1⟩

/-- Counterexample to C8 as stated: in the concrete ForeignAid scenario with
three alive non-actors, three `passBlock` calls all made by the same player
`p2` resolve the action (phase leaves AwaitingBlock, the actor is paid 2)
even though fewer than all three eligible players have passed — the engine
counts responses with multiplicity and never deduplicates. -/
theorem claim_C8_counterexample :
    passBlock shId stateForeignAid "p2" = some stateFAPass1
    ∧ passBlock shId stateFAPass1 "p2" = some stateFAPass2
    ∧ passBlock shId stateFAPass2 "p2" = some stateFAPass3
    ∧ stateFAPass1.phase = GamePhase.AwaitingBlock
    ∧ stateFAPass2.phase = GamePhase.AwaitingBlock
    ∧ stateFAPass2.respondedPlayerIds = ["p2", "p2"]
    ∧ stateFAPass3.phase = GamePhase.AwaitingAction
    ∧ coinsOf stateFAPass3 "p1" = some 4
    ∧ coinsOf stateFAPass2 "p1" = some 2 := by
  refine ⟨by decide, by decide, by decide, by decide, by decide, by decide,
    by decide, by decide, by decide⟩

theorem passResponders_congr {s t : GameState} (hp : t.players = s.players)
    (ha : t.pendingAction = s.pendingAction) :
    passResponders t = passResponders s := by
  unfold passResponders getAlivePlayers
  rw [hp, ha]

theorem passBlock_step
    {sh : List Character → List Character} {s : GameState} {pid : String}
    {s' : GameState} {a : GameAction}
    (hph : s.phase = GamePhase.AwaitingBlock)
    (hact : s.pendingAction = some a) (hty : a.type = ActionType.ForeignAid)
    (hresp : (passResponders s).length = 3)
    (h : passBlock sh s pid = some s') :
    (s.respondedPlayerIds.length + 1 < 3 →
      s'.phase = GamePhase.AwaitingBlock
      ∧ s'.respondedPlayerIds = s.respondedPlayerIds ++ [pid]
      ∧ s'.players = s.players ∧ s'.pendingAction = s.pendingAction
      ∧ s'.turnNumber = s.turnNumber)
    ∧ (3 ≤ s.respondedPlayerIds.length + 1 →
      s'.phase = GamePhase.AwaitingAction
      ∧ s'.turnNumber = s.turnNumber + 1
      ∧ coinsOf s' a.sourcePlayerId = (coinsOf s a.sourcePlayerId).map (· + 2)) := by
  unfold passBlock at h
  rw [hresp] at h
  have hlen : (s.respondedPlayerIds ++ [pid]).length = s.respondedPlayerIds.length + 1 := by
    simp
  constructor
  · intro hlt
    rw [if_neg (by omega)] at h
    simp only [Option.some.injEq] at h
    subst h
    exact ⟨hph, rfl, rfl, rfl, rfl⟩
  · intro hge
    rw [if_pos (by omega)] at h
    unfold resolveAction at h
    rw [hact] at h
    simp only [Option.pure_def, Option.bind_eq_bind, Option.some_bind] at h
    cases hac : getPlayerById s a.sourcePlayerId with
    | none => rw [hac] at h; simp at h
    | some actor =>
      rw [hac] at h
      simp only [Option.some_bind] at h
      rw [hty] at h
      simp only at h
      have hspec := advanceTurn_spec h (by rw [hph]; simp)
      obtain ⟨h1, h2, -, -, -, -, -, h8, -, -, -, -, -⟩ := hspec
      refine ⟨h1, h8, ?_⟩
      rw [coinsOf_adjust actor.id (fun c => c + 2) h2 a.sourcePlayerId]
      have hid : actor.id = a.sourcePlayerId := (getPlayerById_mem hac).2
      cases hq : coinsOf s a.sourcePlayerId with
      | none => rfl
      | some c => simp [hid]

theorem passBlockSeq_stays
    {sh : List Character → List Character} :
    ∀ (pids : List String) (s s₂ : GameState) (a : GameAction),
    s.phase = GamePhase.AwaitingBlock →
    s.pendingAction = some a → a.type = ActionType.ForeignAid →
    (passResponders s).length = 3 →
    s.respondedPlayerIds.length + pids.length ≤ 2 →
    passBlockSeq sh pids s = some s₂ →
    s₂.phase = GamePhase.AwaitingBlock
    ∧ s₂.respondedPlayerIds = s.respondedPlayerIds ++ pids
    ∧ s₂.players = s.players ∧ s₂.pendingAction = s.pendingAction
    ∧ s₂.turnNumber = s.turnNumber
  | [], s, s₂, a, hph, hact, hty, hresp, hle, h => by
    unfold passBlockSeq at h
    simp only [Option.some.injEq] at h
    subst h
    exact ⟨hph, by simp, rfl, rfl, rfl⟩
  | pid :: rest, s, s₂, a, hph, hact, hty, hresp, hle, h => by
    unfold passBlockSeq at h
    simp only [Option.pure_def, Option.bind_eq_bind] at h
    cases h1 : passBlock sh s pid with
    | none => rw [h1] at h; simp at h
    | some s₁ =>
      rw [h1] at h
      simp only [Option.some_bind] at h
      have hstep := (passBlock_step hph hact hty hresp h1).1 (by simp at hle; omega)
      obtain ⟨k1, k2, k3, k4, k5⟩ := hstep
      have hresp1 : (passResponders s₁).length = 3 := by
        rw [passResponders_congr k3 k4]
        exact hresp
      have hrec := passBlockSeq_stays rest s₁ s₂ a k1 (by rw [k4, hact]) hty hresp1
        (by rw [k2]; simp at hle ⊢; omega) h
      obtain ⟨m1, m2, m3, m4, m5⟩ := hrec
      refine ⟨m1, ?_, by rw [m3, k3], by rw [m4, k4], by rw [m5, k5]⟩
      rw [m2, k2]
      simp

/-- C8 as amended: for an untargeted blockable (ForeignAid-class) pending
action with 3 alive non-actors, the engine counts `passBlock` responses with
multiplicity and never deduplicates: the state remains in AwaitingBlock after
any sequence of passes totalling fewer than three (in particular after any
set of distinct passers smaller than all three), and the action resolves
exactly when a third pass arrives — whoever makes it, so repeated passes by
one player resolve early. -/
theorem claim_C8_resolution_by_pass_count :
    (∀ (sh : List Character → List Character) (pids : List String)
        (s s₂ : GameState) (a : GameAction),
      s.phase = GamePhase.AwaitingBlock →
      s.pendingAction = some a → a.type = ActionType.ForeignAid →
      (passResponders s).length = 3 →
      s.respondedPlayerIds = [] → pids.length ≤ 2 →
      passBlockSeq sh pids s = some s₂ →
      s₂.phase = GamePhase.AwaitingBlock ∧ s₂.respondedPlayerIds = pids)
    ∧ (∀ (sh : List Character → List Character) (s : GameState) (pid : String)
        (s' : GameState) (a : GameAction),
      s.phase = GamePhase.AwaitingBlock →
      s.pendingAction = some a → a.type = ActionType.ForeignAid →
      (passResponders s).length = 3 →
      2 ≤ s.respondedPlayerIds.length →
      passBlock sh s pid = some s' →
      s'.phase = GamePhase.AwaitingAction
      ∧ s'.turnNumber = s.turnNumber + 1
      ∧ coinsOf s' a.sourcePlayerId = (coinsOf s a.sourcePlayerId).map (· + 2)) := by
  constructor
  · intro sh pids s s₂ a hph hact hty hresp hemp hle h
    have := passBlockSeq_stays pids s s₂ a hph hact hty hresp (by rw [hemp]; simpa) h
    exact ⟨this.1, by rw [this.2.1, hemp]; simp⟩
  · intro sh s pid s' a hph hact hty hresp hge h
    exact (passBlock_step hph hact hty hresp h).2 (by omega)

/-- Witness for the amended C8 at the concrete ForeignAid scenario: both a
two-pass prefix (still AwaitingBlock) and the resolving third pass. -/
theorem claim_C8_witness :
    stateFAPass2.phase = GamePhase.AwaitingBlock
    ∧ stateFAPass2.respondedPlayerIds = ["p2", "p2"]
    ∧ stateFAPass3.phase = GamePhase.AwaitingAction
    ∧ coinsOf stateFAPass3 "p1" = (coinsOf stateFAPass2 "p1").map (· + 2) := by
  have h1 := claim_C8_resolution_by_pass_count.1 shId ["p2", "p2"] stateForeignAid
    stateFAPass2 { type := ActionType.ForeignAid, sourcePlayerId := "p1" }
    (by decide) (by decide) rfl (by decide) (by decide) (by decide) (by decide)
  have h2 := claim_C8_resolution_by_pass_count.2 shId stateFAPass2 "p2" stateFAPass3
    { type := ActionType.ForeignAid, sourcePlayerId := "p1" }
    (by decide) (by decide) rfl (by decide) (by decide) (by decide)
  exact ⟨h1.1, h1.2, h2.1, h2.2.2⟩

theorem mapIdx_congrFn {α : Type} {f g : Nat → α → α} :
    ∀ (l : List α), (∀ i a, f i a = g i a) → l.mapIdx f = l.mapIdx g := by
  intro l
  induction l generalizing f g with
  | nil => intro _; rfl
  | cons a t ih =>
    intro hfg
    rw [List.mapIdx_cons, List.mapIdx_cons, hfg]
    rw [ih (fun i a => hfg (i + 1) a)]

theorem mapIdx_idFn {α : Type} {f : Nat → α → α} :
    ∀ (l : List α), (∀ i a, f i a = a) → l.mapIdx f = l := by
  intro l
  induction l generalizing f with
  | nil => intro _; rfl
  | cons a t ih =>
    intro hf
    rw [List.mapIdx_cons, hf]
    rw [ih (fun i a => hf (i + 1) a)]

theorem filter_length_reveal :
    ∀ (l : List InfluenceCard) (i : Nat) (c : InfluenceCard),
    l.get? i = some c → c.isRevealed = false →
    ((l.mapIdx fun j x => if j = i then { x with isRevealed := true } else x).filter
        (fun x => !x.isRevealed)).length + 1
      = (l.filter (fun x => !x.isRevealed)).length := by
  intro l
  induction l with
  | nil => intro i c hg; simp at hg
  | cons a t ih =>
    intro i c hg hc
    cases i with
    | zero =>
      simp only [List.get?] at hg
      cases hg
      rw [List.mapIdx_cons]
      simp only [if_pos rfl]
      rw [mapIdx_idFn t (fun i a => by simp)]
      simp [List.filter_cons, hc]
    | succ k =>
      simp only [List.get?] at hg
      rw [List.mapIdx_cons]
      simp only [Nat.succ_ne_zero, if_neg (by omega : ¬(0 : Nat) = k + 1)]
      rw [mapIdx_congrFn t (g := fun j x =>
        if j = k then { x with isRevealed := true } else x)
        (fun i a => by simp [Nat.succ_inj])]
      have := ih k c hg hc
      by_cases ha : a.isRevealed <;> simp [List.filter_cons, ha] <;> omega

theorem findIdx?_of_alive {l : List InfluenceCard}
    (h : 0 < (l.filter (fun c => !c.isRevealed)).length) :
    ∃ i c, l.findIdx? (fun c => !c.isRevealed) = some i
      ∧ l.get? i = some c ∧ c.isRevealed = false := by
  have hne : (l.filter (fun c => !c.isRevealed)) ≠ [] := by
    intro he; rw [he] at h; simp at h
  obtain ⟨x, hx⟩ := List.exists_mem_of_ne_nil _ hne
  have hx' := List.mem_filter.mp hx
  have hex : ∃ y ∈ l, (!y.isRevealed) = true := ⟨x, hx'.1, hx'.2⟩
  have hfi := List.findIdx?_eq_some_of_exists hex
  obtain ⟨hlt, hp, -⟩ := List.findIdx?_eq_some_iff_getElem.mp hfi
  refine ⟨_, l[List.findIdx (fun c => !c.isRevealed) l], hfi, ?_, ?_⟩
  · rw [List.get?_eq_getElem?]
    exact List.getElem?_eq_some.mpr ⟨hlt, rfl⟩
  · simpa using hp

theorem getPlayerById_map_other {s t : GameState} (xid : String) (g : Player → Player)
    (hg : ∀ p, (g p).id = p.id)
    (ht : t.players = s.players.map fun p => if p.id = xid then g p else p)
    (q : String) (hq : q ≠ xid) :
    getPlayerById t q = getPlayerById s q := by
  rw [getPlayerById_map (fun p => if p.id = xid then g p else p)
    (fun p => by by_cases hc : p.id = xid <;> simp [hc, hg]) ht q]
  cases hx : getPlayerById s q with
  | none => rfl
  | some pq =>
    have hid : pq.id = q := (getPlayerById_mem hx).2
    simp [hid, hq]

theorem checkGameOver_fields (s : GameState) :
    (checkGameOver s).coupRedirectChain = s.coupRedirectChain
    ∧ (checkGameOver s).coupRedirectSourceId = s.coupRedirectSourceId
    ∧ (checkGameOver s).turnNumber = s.turnNumber
    ∧ (checkGameOver s).currentPlayerIndex = s.currentPlayerIndex
    ∧ (checkGameOver s).config = s.config
    ∧ ((checkGameOver s).phase = s.phase ∨ (checkGameOver s).phase = GamePhase.GameOver)
    ∧ (checkGameOver s).pendingAction = s.pendingAction
    ∧ (checkGameOver s).courtDeck = s.courtDeck
    ∧ (checkGameOver s).drawnCards = s.drawnCards
    ∧ (checkGameOver s).respondedPlayerIds = s.respondedPlayerIds
    ∧ (checkGameOver s).cardSelectionReason = s.cardSelectionReason
    ∧ (checkGameOver s).pendingBlock = s.pendingBlock := by
  by_cases hl : (getAlivePlayers s).length = 1 <;> simp [checkGameOver, hl]

/-- What one `loseInfluence` does, from the point of view of the redirector
loop: the target player's card `idx` flips to revealed (one fewer alive card),
every other player is untouched, the chain/turn/deck fields are untouched,
and the phase either stays or jumps to GameOver — the latter only with the
target player now at zero alive cards. -/
theorem loseInfluence_spec {s s' : GameState} {pid : String} {idx : Nat} {pl : Player}
    (hp : getPlayerById s pid = some pl)
    (h : loseInfluence s pid idx = some s') :
    (∃ pl', getPlayerById s' pid = some pl'
       ∧ pl'.influenceCards = pl.influenceCards.mapIdx
           (fun j c => if j = idx then { c with isRevealed := true } else c)
       ∧ (getAliveInfluence pl').length + 1 = (getAliveInfluence pl).length)
    ∧ (∀ q, q ≠ pid → getPlayerById s' q = getPlayerById s q)
    ∧ s'.coupRedirectChain = s.coupRedirectChain
    ∧ s'.coupRedirectSourceId = s.coupRedirectSourceId
    ∧ s'.turnNumber = s.turnNumber
    ∧ s'.currentPlayerIndex = s.currentPlayerIndex
    ∧ s'.config = s.config
    ∧ (s'.phase = s.phase ∨ s'.phase = GamePhase.GameOver)
    ∧ (s'.phase ≠ s.phase →
        ∃ pl', getPlayerById s' pid = some pl' ∧ (getAliveInfluence pl').length = 0) := by
  unfold loseInfluence at h
  rw [hp] at h
  simp only [Option.pure_def, Option.bind_eq_bind, Option.some_bind] at h
  cases hc : pl.influenceCards.get? idx with
  | none => rw [hc] at h; simp at h
  | some card =>
    rw [hc] at h
    simp only [Option.some_bind] at h
    split at h
    · simp at h
    · rename_i hrev
      have hcardrev : card.isRevealed = false := by
        revert hrev; cases card.isRevealed <;> simp
      -- the state after the reveal map, before elimination bookkeeping
      set sm : GameState := { s with players := s.players.map fun p =>
        if p.id = pid then
          { p with influenceCards := p.influenceCards.mapIdx fun j c =>
              if j = idx then { c with isRevealed := true } else c }
        else p } with hsm
      have hpm : getPlayerById sm pid = some { pl with
          influenceCards := pl.influenceCards.mapIdx fun j c =>
            if j = idx then { c with isRevealed := true } else c } :=
        getPlayerById_update pid
          (fun p => { p with influenceCards := p.influenceCards.mapIdx fun j c =>
            if j = idx then { c with isRevealed := true } else c })
          (fun p => rfl) rfl hp
      have hcount : (getAliveInfluence { pl with
          influenceCards := pl.influenceCards.mapIdx fun j c =>
            if j = idx then { c with isRevealed := true } else c }).length + 1
          = (getAliveInfluence pl).length := by
        unfold getAliveInfluence
        exact filter_length_reveal pl.influenceCards idx card hc hcardrev
      have hother : ∀ q, q ≠ pid → getPlayerById sm q = getPlayerById s q := by
        intro q hq
        exact getPlayerById_map_other pid
          (fun p => { p with influenceCards := p.influenceCards.mapIdx fun j c =>
            if j = idx then { c with isRevealed := true } else c })
          (fun p => rfl) rfl q hq
      -- unfold the elimination bookkeeping
      unfold checkPlayerElimination at h
      rw [hpm] at h
      simp only [Option.pure_def, Option.bind_eq_bind, Option.some_bind] at h
      split at h
      · rename_i helim
        simp only [Option.some.injEq] at h
        subst h
        -- the eliminated-flag map, then checkGameOver
        set se : GameState := { sm with players := sm.players.map fun p =>
          if p.id = pid then { p with isEliminated := true } else p } with hse
        have hpe := getPlayerById_update (t := se) pid
          (fun p => { p with isEliminated := true }) (fun p => rfl) rfl hpm
        have hothere : ∀ q, q ≠ pid → getPlayerById se q = getPlayerById sm q := by
          intro q hq
          exact getPlayerById_map_other pid (fun p => { p with isEliminated := true })
            (fun p => rfl) rfl q hq
        have hgo : ∀ q, getPlayerById (checkGameOver se) q = getPlayerById se q := by
          intro q
          unfold getPlayerById
          rw [checkGameOver_players]
        have hcnt0 : (getAliveInfluence { pl with
            influenceCards := pl.influenceCards.mapIdx fun j c =>
              if j = idx then { c with isRevealed := true } else c }).length = 0 :=
          helim.1
        constructor
        · refine ⟨{ { pl with influenceCards := pl.influenceCards.mapIdx fun j c =>
              if j = idx then { c with isRevealed := true } else c : Player } with
              isEliminated := true }, by rw [hgo, hpe], rfl, ?_⟩
          have h0 : (getAliveInfluence { pl with
              influenceCards := pl.influenceCards.mapIdx fun j c =>
                if j = idx then { c with isRevealed := true } else c }).length = 0 :=
            hcnt0
          rw [show (getAliveInfluence { { pl with
              influenceCards := pl.influenceCards.mapIdx fun j c =>
                if j = idx then { c with isRevealed := true } else c
              : Player } with isEliminated := true }).length = 0 from h0]
          omega
        refine ⟨fun q hq => by rw [hgo, hothere q hq, hother q hq], ?_, ?_, ?_, ?_, ?_, ?_, ?_⟩
        · rw [(checkGameOver_fields se).1]
        · rw [(checkGameOver_fields se).2.1]
        · rw [(checkGameOver_fields se).2.2.1]
        · rw [(checkGameOver_fields se).2.2.2.1]
        · rw [(checkGameOver_fields se).2.2.2.2.1]
        · rcases (checkGameOver_fields se).2.2.2.2.2.1 with hph | hph
          · left; rw [hph]
          · right; rw [hph]
        · intro _
          refine ⟨{ { pl with influenceCards := pl.influenceCards.mapIdx fun j c =>
              if j = idx then { c with isRevealed := true } else c : Player } with
              isEliminated := true }, by rw [hgo, hpe], hcnt0⟩
      · simp only [Option.some.injEq] at h
        subst h
        refine ⟨⟨_, hpm, rfl, hcount⟩, hother, rfl, rfl, rfl, rfl, rfl,
          Or.inl rfl, fun hne => absurd rfl hne⟩

theorem getPlayerById_congr {s t : GameState} (h : t.players = s.players)
    (q : String) : getPlayerById t q = getPlayerById s q := by
  unfold getPlayerById
  rw [h]

/-- What the double-loss loop does, by induction on the snapshot count of the
redirector's alive cards: the redirector ends with zero unrevealed cards,
nobody else's roster entry changes, and either the game ended mid-loop (chain
and turn counter untouched) or the chain is cleared and the turn advances. -/
theorem loseAllLoop_spec {rid : String} :
    ∀ (n : Nat) (s s' : GameState) (pl : Player),
    getPlayerById s rid = some pl →
    (getAliveInfluence pl).length = n →
    s.phase ≠ GamePhase.GameOver →
    loseAllLoop rid n s = some s' →
    (∃ pl', getPlayerById s' rid = some pl' ∧ (getAliveInfluence pl').length = 0)
    ∧ (∀ q, q ≠ rid → getPlayerById s' q = getPlayerById s q)
    ∧ ((s'.phase = GamePhase.GameOver ∧ s'.coupRedirectChain = s.coupRedirectChain
          ∧ s'.turnNumber = s.turnNumber)
       ∨ (s'.phase = GamePhase.AwaitingAction ∧ s'.coupRedirectChain = []
          ∧ s'.turnNumber = s.turnNumber + 1)) := by
  intro n
  induction n with
  | zero =>
    intro s s' pl hp hcnt hph h
    unfold loseAllLoop at h
    obtain ⟨h1, h2, -, -, -, -, -, h8, h9, -, -, -, -⟩ :=
      advanceTurn_spec h (by exact hph)
    refine ⟨⟨pl, ?_, hcnt⟩, ?_, Or.inr ⟨h1, h9, h8⟩⟩
    · rw [getPlayerById_congr (s := s) h2 rid]
      exact hp
    · intro q hq
      rw [getPlayerById_congr (s := s) h2 q]
  | succ n ih =>
    intro s s' pl hp hcnt hph h
    unfold loseAllLoop at h
    rw [hp] at h
    simp only [Option.pure_def, Option.bind_eq_bind, Option.some_bind] at h
    have hpos : 0 < (pl.influenceCards.filter (fun c => !c.isRevealed)).length := by
      have : (getAliveInfluence pl).length = n + 1 := hcnt
      unfold getAliveInfluence at this
      omega
    obtain ⟨i, c, hfi, hget, hcrev⟩ := findIdx?_of_alive hpos
    rw [hfi] at h
    simp only [Option.some_bind] at h
    cases hlo : loseInfluence s rid i with
    | none => rw [hlo] at h; simp at h
    | some s₁ =>
      rw [hlo] at h
      simp only [Option.some_bind] at h
      obtain ⟨⟨pl', hpl', hhand, hcnt'⟩, hoth, hchain, hsrc, hturn, -, -, hphor, hph0⟩ :=
        loseInfluence_spec hp hlo
      split at h
      · -- the loop early-returns at GameOver
        rename_i hgo
        simp only [Option.some.injEq] at h
        subst h
        have hne : s₁.phase ≠ s.phase := by rw [hgo]; exact fun hx => hph hx.symm
        obtain ⟨pl0, hlk0, hcnt0⟩ := hph0 hne
        exact ⟨⟨pl0, hlk0, hcnt0⟩, hoth, Or.inl ⟨hgo, hchain, hturn⟩⟩
      · rename_i hngo
        have hcnt1 : (getAliveInfluence pl').length = n := by omega
        have := ih s₁ s' pl' hpl' hcnt1 hngo h
        obtain ⟨hfin, hoth2, hdisj⟩ := this
        refine ⟨hfin, fun q hq => by rw [hoth2 q hq, hoth q hq], ?_⟩
        rcases hdisj with ⟨d1, d2, d3⟩ | ⟨d1, d2, d3⟩
        · exact Or.inl ⟨d1, by rw [d2, hchain], by rw [d3, hturn]⟩
        · exact Or.inr ⟨d1, d2, by rw [d3, hturn]⟩

/-- Counterexample to C4 as stated: when the double loss eliminates the
redirector and thereby ends the game, `challengeCoupRedirect` returns with the
redirect chain NOT cleared and the turn NOT advanced.  At the concrete
2-player input (redirector `p2` appears once in the chain and holds zero
Jesters) the transition removes both of `p2`'s cards, but ends at GameOver
with the chain still `["p2", "p1"]` and the turn counter unchanged. -/
theorem claim_C4_counterexample :
    stateDoubleLoss.phase = GamePhase.AwaitingCoupRedirectChallenge
    ∧ challengeCoupRedirect shId stateDoubleLoss "p1" = some stateDoubleLossAfter
    ∧ aliveCountOf stateDoubleLossAfter "p2" = some 0
    ∧ stateDoubleLossAfter.phase = GamePhase.GameOver
    ∧ stateDoubleLossAfter.coupRedirectChain = ["p2", "p1"]
    ∧ stateDoubleLossAfter.turnNumber = stateDoubleLoss.turnNumber := by
  refine ⟨by decide, by decide, by decide, by decide, by decide, by decide⟩

/-- C4 as amended: in AwaitingCoupRedirectChallenge, when the redirector
(chain entry at index length−2) holds fewer unrevealed Jesters than their
number of appearances among the chain's non-tail entries, the challenge
succeeds and `challengeCoupRedirect` removes ALL of the redirector's
remaining unrevealed cards in that one transition; no other player's roster
entry changes (the Coup lands on nobody); and either the eliminations ended
the game — in which case the transition stops at GameOver with the chain and
turn counter untouched — or the chain is cleared and the turn advances. -/
theorem claim_C4_double_loss
    {sh : List Character → List Character} {s s' : GameState} {cid rid : String}
    {redirector : Player}
    (hphase : s.phase = GamePhase.AwaitingCoupRedirectChallenge)
    (hjs : jsIdx s.coupRedirectChain ((s.coupRedirectChain.length : Int) - 2) = some rid)
    (hred : getPlayerById s rid = some redirector)
    (hlt : ((getAliveInfluence redirector).filter
        (fun c => c.character = Character.Jester)).length
      < ((s.coupRedirectChain.take (s.coupRedirectChain.length - 1)).filter
        (fun id => id = rid)).length)
    (h : challengeCoupRedirect sh s cid = some s') :
    (∃ pl', getPlayerById s' rid = some pl' ∧ (getAliveInfluence pl').length = 0)
    ∧ (∀ q, q ≠ rid → getPlayerById s' q = getPlayerById s q)
    ∧ ((s'.phase = GamePhase.GameOver ∧ s'.coupRedirectChain = s.coupRedirectChain
          ∧ s'.turnNumber = s.turnNumber)
       ∨ (s'.phase = GamePhase.AwaitingAction ∧ s'.coupRedirectChain = []
          ∧ s'.turnNumber = s.turnNumber + 1)) := by
  unfold challengeCoupRedirect at h
  simp only [Option.pure_def, Option.bind_eq_bind] at h
  rw [hjs] at h
  simp only [Option.some_bind] at h
  rw [hred] at h
  simp only [Option.some_bind] at h
  cases hch : getPlayerById s cid with
  | none => rw [hch] at h; simp at h
  | some challenger =>
    rw [hch] at h
    simp only [Option.some_bind] at h
    rw [if_neg (Nat.not_le.mpr hlt)] at h
    exact loseAllLoop_spec (getAliveInfluence redirector).length s s' redirector
      hred rfl (by rw [hphase]; simp) h

/-- Witness for the amended C4 at the concrete 2-player scenario (the
GameOver disjunct). -/
theorem claim_C4_witness :
    (∃ pl', getPlayerById stateDoubleLossAfter "p2" = some pl'
       ∧ (getAliveInfluence pl').length = 0)
    ∧ (∀ q, q ≠ "p2" →
        getPlayerById stateDoubleLossAfter q = getPlayerById stateDoubleLoss q)
    ∧ ((stateDoubleLossAfter.phase = GamePhase.GameOver
          ∧ stateDoubleLossAfter.coupRedirectChain = stateDoubleLoss.coupRedirectChain
          ∧ stateDoubleLossAfter.turnNumber = stateDoubleLoss.turnNumber)
       ∨ (stateDoubleLossAfter.phase = GamePhase.AwaitingAction
          ∧ stateDoubleLossAfter.coupRedirectChain = []
          ∧ stateDoubleLossAfter.turnNumber = stateDoubleLoss.turnNumber + 1)) :=
  @claim_C4_double_loss shId stateDoubleLoss stateDoubleLossAfter "p1" "p2"
    (mkTestPlayer "p2" "P2" 2 [(.Duke, false), (.Contessa, false)])
    (by decide) (by decide) (by decide) (by decide) (by decide)

/-! ## The structural invariant and its preservation -/

theorem getAlivePlayers_map {s t : GameState} (f : Player → Player)
    (hflag : ∀ p, (f p).isEliminated = p.isEliminated)
    (h : t.players = s.players.map f) :
    getAlivePlayers t = (getAlivePlayers s).map f := by
  unfold getAlivePlayers
  rw [h, List.filter_map]
  have hf : ((fun p : Player => !p.isEliminated) ∘ f) = (fun p : Player => !p.isEliminated) := by
    funext p
    simp [Function.comp, hflag]
  rw [hf]

theorem idsOf_map {s t : GameState} (f : Player → Player)
    (hid : ∀ p, (f p).id = p.id) (h : t.players = s.players.map f) :
    idsOf t = idsOf s := by
  unfold idsOf
  rw [h, List.map_map]
  congr 1
  funext p
  simp [Function.comp, hid]

/-- The master record-building lemma: a new state whose roster is an
id/elimination-preserving transformation of a non-terminal invariant state,
whose phase is not GameOver, and whose chain entries all name rostered
players, satisfies the invariant again. -/
theorem stateInv_build {s t : GameState} (hInv : StateInv s)
    (hs : s.phase ≠ GamePhase.GameOver) (f : Player → Player)
    (hid : ∀ p, (f p).id = p.id) (hflag : ∀ p, (f p).isEliminated = p.isEliminated)
    (hpl : t.players = s.players.map f) (hph : t.phase ≠ GamePhase.GameOver)
    (hch : ∀ id ∈ t.coupRedirectChain, ∃ p ∈ s.players, p.id = id) : StateInv t := by
  obtain ⟨hnd, hgo, hcv⟩ := hInv
  refine ⟨?_, ⟨fun hphh => absurd hphh hph, fun _ => ?_⟩, ?_⟩
  · rw [idsOf_map f hid hpl]; exact hnd
  · rw [getAlivePlayers_map f hflag hpl, List.length_map]
    exact hgo.2 hs
  · intro id hmem
    obtain ⟨p, hp, hpid⟩ := hch id hmem
    refine ⟨f p, ?_, by rw [hid p]; exact hpid⟩
    rw [hpl]
    exact List.mem_map_of_mem f hp

/-- Specialization of `stateInv_build` to an unchanged roster. -/
theorem stateInv_record {s t : GameState} (hInv : StateInv s)
    (hs : s.phase ≠ GamePhase.GameOver)
    (hpl : t.players = s.players) (hph : t.phase ≠ GamePhase.GameOver)
    (hch : t.coupRedirectChain = s.coupRedirectChain ∨ t.coupRedirectChain = []) :
    StateInv t := by
  refine stateInv_build hInv hs id (fun _ => rfl) (fun _ => rfl)
    (by rw [hpl, List.map_id]) hph ?_
  rcases hch with hc | hc <;> rw [hc]
  · exact hInv.2.2
  · intro id hmem; simp at hmem

theorem alive_length_elim {players : List Player} {pid : String}
    (hnd : (players.map (·.id)).Nodup) {p0 : Player}
    (h0 : p0 ∈ players) (hid0 : p0.id = pid) (hel : p0.isEliminated = false) :
    ((players.map fun p =>
        if p.id = pid then { p with isEliminated := true } else p).filter
      (fun p => !p.isEliminated)).length + 1
    = (players.filter (fun p => !p.isEliminated)).length := by
  induction players with
  | nil => simp at h0
  | cons a t ih =>
    simp only [List.map_cons, List.nodup_cons] at hnd
    rcases List.mem_cons.mp h0 with rfl | hmem
    · rw [List.map_cons, if_pos hid0]
      have ht : t.map (fun p => if p.id = pid then { p with isEliminated := true } else p)
          = t := by
        conv_rhs => rw [← List.map_id t]
        apply List.map_congr_left
        intro q hq
        have hqid : ¬ q.id = pid := fun hqid =>
          hnd.1 (by rw [hid0, ← hqid]; exact List.mem_map_of_mem _ hq)
        simp [hqid]
      rw [ht]
      rw [List.filter_cons, List.filter_cons]
      simp [hel]
    · have haid : a.id ≠ pid := by
        intro ha
        exact hnd.1 (by rw [ha, ← hid0]; exact List.mem_map_of_mem _ hmem)
      rw [List.map_cons, if_neg haid]
      rw [List.filter_cons, List.filter_cons]
      by_cases hae : a.isEliminated
      · simp only [hae, Bool.not_true, Bool.false_eq_true, if_false]
        exact ih hnd.2 hmem
      · simp only [Bool.not_eq_true] at hae
        simp only [hae, Bool.not_false, if_true, List.length_cons]
        have := ih hnd.2 hmem
        omega

theorem chainValid_map {s t : GameState} (hcv : ChainValid s) (f : Player → Player)
    (hid : ∀ p, (f p).id = p.id) (hpl : t.players = s.players.map f)
    (hc : t.coupRedirectChain = s.coupRedirectChain) : ChainValid t := by
  intro id hmem
  rw [hc] at hmem
  obtain ⟨p, hp, hpid⟩ := hcv id hmem
  exact ⟨f p, by rw [hpl]; exact List.mem_map_of_mem f hp, by rw [hid]; exact hpid⟩

/-- `loseInfluence` preserves the structural invariant from a non-terminal
state, leaves every non-roster field except the phase unchanged, and moves
the phase only to GameOver if at all. -/
theorem loseInfluence_inv {s s' : GameState} {pid : String} {i : Nat}
    (hInv : StateInv s) (hph : s.phase ≠ GamePhase.GameOver)
    (h : loseInfluence s pid i = some s') :
    StateInv s'
    ∧ idsOf s' = idsOf s
    ∧ s'.coupRedirectChain = s.coupRedirectChain
    ∧ s'.coupRedirectSourceId = s.coupRedirectSourceId
    ∧ s'.pendingAction = s.pendingAction
    ∧ s'.pendingBlock = s.pendingBlock
    ∧ s'.courtDeck = s.courtDeck
    ∧ s'.drawnCards = s.drawnCards
    ∧ s'.respondedPlayerIds = s.respondedPlayerIds
    ∧ s'.cardSelectionReason = s.cardSelectionReason
    ∧ s'.config = s.config
    ∧ s'.turnNumber = s.turnNumber
    ∧ (s'.phase = s.phase ∨ s'.phase = GamePhase.GameOver) := by
  unfold loseInfluence at h
  cases hp : getPlayerById s pid with
  | none => rw [hp] at h; simp at h
  | some pl =>
    rw [hp] at h
    simp only [Option.pure_def, Option.bind_eq_bind, Option.some_bind] at h
    cases hc : pl.influenceCards.get? i with
    | none => rw [hc] at h; simp at h
    | some card =>
      rw [hc] at h
      simp only [Option.some_bind] at h
      split at h
      · simp at h
      · -- the reveal map
        have hpm := getPlayerById_update (s := s)
          (t := { s with players := s.players.map fun p =>
            if p.id = pid then
              { p with influenceCards := p.influenceCards.mapIdx fun j c =>
                  if j = i then { c with isRevealed := true } else c }
            else p })
          pid
          (fun p => { p with influenceCards := p.influenceCards.mapIdx fun j c =>
            if j = i then { c with isRevealed := true } else c })
          (fun p => rfl) rfl hp
        have hInvSm : StateInv { s with players := s.players.map fun p =>
            if p.id = pid then
              { p with influenceCards := p.influenceCards.mapIdx fun j c =>
                  if j = i then { c with isRevealed := true } else c }
            else p } := by
          refine stateInv_build hInv hph _ (fun p => by by_cases hx : p.id = pid <;> simp [hx])
            (fun p => by by_cases hx : p.id = pid <;> simp [hx]) rfl hph ?_
          exact hInv.2.2
        -- elimination bookkeeping
        unfold checkPlayerElimination at h
        rw [hpm] at h
        simp only [Option.pure_def, Option.bind_eq_bind, Option.some_bind] at h
        split at h
        · rename_i helim
          simp only [Option.some.injEq] at h
          subst h
          -- the eliminated-flag map, then checkGameOver
          set sm : GameState := { s with players := s.players.map fun p =>
            if p.id = pid then
              { p with influenceCards := p.influenceCards.mapIdx fun j c =>
                  if j = i then { c with isRevealed := true } else c }
            else p } with hsmdef
          set se : GameState := { sm with players := sm.players.map fun p =>
            if p.id = pid then { p with isEliminated := true } else p } with hsedef
          have hplid : pl.id = pid := (getPlayerById_mem hp).2
          have hndSm : (sm.players.map (·.id)).Nodup := hInvSm.1
          have hmemSm : ({ pl with
              influenceCards := pl.influenceCards.mapIdx fun j c =>
                if j = i then { c with isRevealed := true } else c :
              Player }) ∈ sm.players :=
            (getPlayerById_mem hpm).1
          have hel2 : ({ pl with
              influenceCards := pl.influenceCards.mapIdx fun j c =>
                if j = i then { c with isRevealed := true } else c :
              Player }).isEliminated = false := by
            have := helim.2
            revert this
            cases hx : pl.isEliminated <;> simp [hx]
          have hid0 : ({ pl with
              influenceCards := pl.influenceCards.mapIdx fun j c =>
                if j = i then { c with isRevealed := true } else c :
              Player }).id = pid := hplid
          have hlenElim := alive_length_elim hndSm hmemSm hid0 hel2
          have hAliveSm : (getAlivePlayers sm).length = (getAlivePlayers s).length := by
            rw [getAlivePlayers_map
              (fun p => if p.id = pid then
                ({ p with influenceCards := p.influenceCards.mapIdx fun j c =>
                  if j = i then { c with isRevealed := true } else c : Player })
                else p)
              (fun p => by by_cases hx : p.id = pid <;> simp [hx]) rfl]
            exact List.length_map _ _
          have hge2 : 2 ≤ (getAlivePlayers s).length := hInv.2.1.2 hph
          have hAliveSe : (getAlivePlayers se).length + 1 = (getAlivePlayers s).length := by
            have : (getAlivePlayers se).length + 1 = (getAlivePlayers sm).length := by
              unfold getAlivePlayers
              exact hlenElim
            omega
          have hIdsSe : idsOf se = idsOf s := by
            rw [idsOf_map (fun p => if p.id = pid then { p with isEliminated := true } else p)
              (fun p => by by_cases hx : p.id = pid <;> simp [hx]) rfl]
            exact idsOf_map _ (fun p => by by_cases hx : p.id = pid <;> simp [hx]) rfl
          have hChainSe : ChainValid se := by
            refine chainValid_map (t := se)
              (chainValid_map (t := sm) hInv.2.2 _
                (fun p => by by_cases hx : p.id = pid <;> simp [hx]) rfl rfl)
              (fun p => if p.id = pid then { p with isEliminated := true } else p)
              (fun p => by by_cases hx : p.id = pid <;> simp [hx]) rfl rfl
          have hFields := checkGameOver_fields se
          refine ⟨?_, by rw [show idsOf (checkGameOver se) = idsOf se from by
              unfold idsOf; rw [checkGameOver_players]]; exact hIdsSe,
            hFields.1, hFields.2.1, hFields.2.2.2.2.2.2.1, hFields.2.2.2.2.2.2.2.2.2.2.2,
            hFields.2.2.2.2.2.2.2.1, hFields.2.2.2.2.2.2.2.2.1,
            hFields.2.2.2.2.2.2.2.2.2.1, hFields.2.2.2.2.2.2.2.2.2.2.1,
            hFields.2.2.2.2.1, hFields.2.2.1, ?_⟩
          · -- the invariant for checkGameOver se
            by_cases hlen1 : (getAlivePlayers se).length = 1
            · have hcg : checkGameOver se = { se with
                  phase := GamePhase.GameOver,
                  winnerId := (getAlivePlayers se).head?.map (·.id) } := by
                simp [checkGameOver, hlen1]
              obtain ⟨w, hw⟩ := List.length_eq_one.mp hlen1
              rw [hcg]
              refine ⟨?_, ⟨?_, ?_⟩, ?_⟩
              · show (idsOf se).Nodup
                rw [hIdsSe]
                exact hInv.1
              · intro _
                refine ⟨w, ?_, ?_⟩
                · exact hw
                · show (getAlivePlayers se).head?.map (·.id) = some w.id
                  rw [hw]
                  rfl
              · intro hcontra
                exact absurd rfl hcontra
              · intro id hmem
                exact hChainSe id hmem
            · have hcg : checkGameOver se = se := by
                simp [checkGameOver, hlen1]
              rw [hcg]
              refine ⟨by rw [hIdsSe]; exact hInv.1,
                ⟨fun hcontra => absurd hcontra hph, fun _ => by omega⟩, hChainSe⟩
          · -- the phase moved to GameOver or stayed
            rcases hFields.2.2.2.2.2.1 with hpc | hpc
            · exact Or.inl hpc
            · exact Or.inr hpc
        · simp only [Option.some.injEq] at h
          subst h
          exact ⟨hInvSm, idsOf_map _ (fun p => by by_cases hx : p.id = pid <;> simp [hx]) rfl,
            rfl, rfl, rfl, rfl, rfl, rfl, rfl, rfl, rfl, rfl, Or.inl rfl⟩

theorem advanceTurn_inv {s s' : GameState} (h : advanceTurn s = some s')
    (hInv : StateInv s) : StateInv s' := by
  by_cases hph : s.phase = GamePhase.GameOver
  · unfold advanceTurn at h
    rw [if_pos hph] at h
    simp only [Option.some.injEq] at h
    subst h
    exact hInv
  · obtain ⟨h1, h2, -, -, -, -, -, -, h9, -, -, -, -⟩ := advanceTurn_spec h hph
    exact stateInv_record hInv hph h2 (by rw [h1]; simp) (Or.inr h9)

theorem replaceRevealedCard_inv {sh : List Character → List Character}
    {s s' : GameState} {pid : String} {ch : Character}
    (hInv : StateInv s) (hph : s.phase ≠ GamePhase.GameOver)
    (h : replaceRevealedCard sh s pid ch = some s') :
    StateInv s'
    ∧ s'.phase = s.phase
    ∧ s'.coupRedirectChain = s.coupRedirectChain
    ∧ s'.coupRedirectSourceId = s.coupRedirectSourceId
    ∧ s'.pendingAction = s.pendingAction
    ∧ s'.pendingBlock = s.pendingBlock
    ∧ s'.respondedPlayerIds = s.respondedPlayerIds
    ∧ s'.drawnCards = s.drawnCards
    ∧ s'.cardSelectionReason = s.cardSelectionReason
    ∧ s'.config = s.config
    ∧ s'.turnNumber = s.turnNumber := by
  unfold replaceRevealedCard at h
  cases hp : getPlayerById s pid with
  | none => rw [hp] at h; simp at h
  | some player =>
    rw [hp] at h
    simp only [Option.pure_def, Option.bind_eq_bind, Option.some_bind] at h
    split at h
    · simp only [Option.some.injEq] at h
      subst h
      exact ⟨hInv, rfl, rfl, rfl, rfl, rfl, rfl, rfl, rfl, rfl, rfl⟩
    · rename_i cardIdx hfind
      cases hpop : popCard (sh (s.courtDeck ++ [ch])) with
      | none => rw [hpop] at h; simp at h
      | some pr =>
        rw [hpop] at h
        simp only [Option.some_bind, Option.some.injEq] at h
        subst h
        refine ⟨stateInv_build hInv hph _
          (fun p => by by_cases hx : p.id = pid <;> simp [hx])
          (fun p => by by_cases hx : p.id = pid <;> simp [hx]) rfl hph hInv.2.2,
          rfl, rfl, rfl, rfl, rfl, rfl, rfl, rfl, rfl, rfl⟩

/-- The Jester re-randomization fold in `challengeCoupRedirect` preserves the
invariant and the non-roster fields. -/
theorem replaceFold_inv {sh : List Character → List Character}
    {pid : String} {ch : Character} :
    ∀ (l : List Nat) {s s' : GameState},
    StateInv s → s.phase ≠ GamePhase.GameOver →
    l.foldlM (fun st _ => replaceRevealedCard sh st pid ch) s = some s' →
    StateInv s'
    ∧ s'.phase = s.phase
    ∧ s'.coupRedirectChain = s.coupRedirectChain
    ∧ s'.coupRedirectSourceId = s.coupRedirectSourceId
    ∧ s'.pendingAction = s.pendingAction
    ∧ s'.config = s.config
    ∧ s'.turnNumber = s.turnNumber
  | [], s, s', hInv, hph, h => by
    simp only [List.foldlM_nil, Option.pure_def, Option.some.injEq] at h
    subst h
    exact ⟨hInv, rfl, rfl, rfl, rfl, rfl, rfl⟩
  | x :: l, s, s', hInv, hph, h => by
    simp only [List.foldlM_cons, Option.pure_def, Option.bind_eq_bind] at h
    cases h1 : replaceRevealedCard sh s pid ch with
    | none => rw [h1] at h; simp at h
    | some s₁ =>
      rw [h1] at h
      simp only [Option.some_bind] at h
      obtain ⟨k0, k1, k2, k3, k4, -, -, -, -, k9, k10⟩ :=
        replaceRevealedCard_inv hInv hph h1
      obtain ⟨m0, m1, m2, m3, m4, m5, m6⟩ :=
        replaceFold_inv l k0 (by rw [k1]; exact hph) h
      exact ⟨m0, by rw [m1, k1], by rw [m2, k2], by rw [m3, k3], by rw [m4, k4],
        by rw [m5, k9], by rw [m6, k10]⟩

theorem resolveAction_inv {sh : List Character → List Character}
    {s s' : GameState} (hInv : StateInv s) (hph : s.phase ≠ GamePhase.GameOver)
    (h : resolveAction sh s = some s') : StateInv s' := by
  unfold resolveAction at h
  cases hpa : s.pendingAction with
  | none => rw [hpa] at h; simp at h
  | some a =>
    rw [hpa] at h
    simp only [Option.pure_def, Option.bind_eq_bind, Option.some_bind] at h
    cases hac : getPlayerById s a.sourcePlayerId with
    | none => rw [hac] at h; simp at h
    | some actor =>
      rw [hac] at h
      simp only [Option.some_bind] at h
      split at h
      · -- Income
        refine advanceTurn_inv h (stateInv_build hInv hph _ ?_ ?_ rfl hph hInv.2.2)
        · intro p
          by_cases hx : p.id = actor.id <;> simp [hx]
        · intro p
          by_cases hx : p.id = actor.id <;> simp [hx]
      · -- ForeignAid
        refine advanceTurn_inv h (stateInv_build hInv hph _ ?_ ?_ rfl hph hInv.2.2)
        · intro p
          by_cases hx : p.id = actor.id <;> simp [hx]
        · intro p
          by_cases hx : p.id = actor.id <;> simp [hx]
      · -- Coup
        cases htgt : a.targetPlayerId with
        | none => rw [htgt] at h; simp at h
        | some tid =>
          rw [htgt] at h
          simp only [Option.some_bind] at h
          cases hct : getPlayerById s tid with
          | none => rw [hct] at h; simp at h
          | some coupTarget =>
            rw [hct] at h
            simp only [Option.some_bind] at h
            split at h
            · simp only [Option.some.injEq] at h
              subst h
              refine stateInv_build hInv hph id (fun _ => rfl) (fun _ => rfl)
                (by rw [List.map_id]) (by simp) ?_
              intro id hmem
              simp only [List.mem_singleton] at hmem
              subst hmem
              exact ⟨coupTarget, (getPlayerById_mem hct).1, (getPlayerById_mem hct).2⟩
            · split at h
              · cases hidx : coupTarget.influenceCards.findIdx? (fun c => !c.isRevealed) with
                | none => rw [hidx] at h; simp at h
                | some idx =>
                  rw [hidx] at h
                  simp only [Option.some_bind] at h
                  cases hlost : loseInfluence s tid idx with
                  | none => rw [hlost] at h; simp at h
                  | some lost =>
                    rw [hlost] at h
                    simp only [Option.some_bind] at h
                    exact advanceTurn_inv h (loseInfluence_inv hInv hph hlost).1
              · simp only [Option.some.injEq] at h
                subst h
                exact stateInv_record hInv hph rfl (by simp) (Or.inl rfl)
      · -- Tax
        refine advanceTurn_inv h (stateInv_build hInv hph _ ?_ ?_ rfl hph hInv.2.2)
        · intro p
          by_cases hx : p.id = actor.id <;> simp [hx]
        · intro p
          by_cases hx : p.id = actor.id <;> simp [hx]
      · -- SpeculatorTax
        refine advanceTurn_inv h (stateInv_build hInv hph _ ?_ ?_ rfl hph hInv.2.2)
        · intro p
          by_cases hx : p.id = actor.id <;> simp [hx]
        · intro p
          by_cases hx : p.id = actor.id <;> simp [hx]
      · -- BureaucratTax
        cases htgt : a.targetPlayerId with
        | none => rw [htgt] at h; simp at h
        | some tid =>
          rw [htgt] at h
          simp only [Option.some_bind] at h
          cases hct : getPlayerById s tid with
          | none => rw [hct] at h; simp at h
          | some tp =>
            rw [hct] at h
            simp only [Option.some_bind] at h
            refine advanceTurn_inv h (stateInv_build hInv hph _ ?_ ?_ rfl hph hInv.2.2)
            · intro p
              by_cases h1 : p.id = actor.id
              · simp [h1]
              · rw [if_neg h1]
                by_cases h2 : p.id = tid
                · rw [if_pos h2]
                · rw [if_neg h2]
            · intro p
              by_cases h1 : p.id = actor.id
              · simp [h1]
              · rw [if_neg h1]
                by_cases h2 : p.id = tid
                · rw [if_pos h2]
                · rw [if_neg h2]
      · -- Assassinate
        cases htgt : a.targetPlayerId with
        | none => rw [htgt] at h; simp at h
        | some tid =>
          rw [htgt] at h
          simp only [Option.some_bind] at h
          cases hct : getPlayerById s tid with
          | none => rw [hct] at h; simp at h
          | some target =>
            rw [hct] at h
            simp only [Option.some_bind] at h
            split at h
            · exact advanceTurn_inv h hInv
            · split at h
              · cases hidx : target.influenceCards.findIdx? (fun c => !c.isRevealed) with
                | none => rw [hidx] at h; simp at h
                | some idx =>
                  rw [hidx] at h
                  simp only [Option.some_bind] at h
                  cases hlost : loseInfluence s tid idx with
                  | none => rw [hlost] at h; simp at h
                  | some lost =>
                    rw [hlost] at h
                    simp only [Option.some_bind] at h
                    exact advanceTurn_inv h (loseInfluence_inv hInv hph hlost).1
              · simp only [Option.some.injEq] at h
                subst h
                exact stateInv_record hInv hph rfl (by simp) (Or.inl rfl)
      · -- Steal
        cases htgt : a.targetPlayerId with
        | none => rw [htgt] at h; simp at h
        | some tid =>
          rw [htgt] at h
          simp only [Option.some_bind] at h
          cases hct : getPlayerById s tid with
          | none => rw [hct] at h; simp at h
          | some target =>
            rw [hct] at h
            simp only [Option.some_bind] at h
            refine advanceTurn_inv h (stateInv_build hInv hph _ ?_ ?_ rfl hph hInv.2.2)
            · intro p
              by_cases h1 : p.id = actor.id
              · simp [h1]
              · rw [if_neg h1]
                by_cases h2 : p.id = tid
                · rw [if_pos h2]
                · rw [if_neg h2]
            · intro p
              by_cases h1 : p.id = actor.id
              · simp [h1]
              · rw [if_neg h1]
                by_cases h2 : p.id = tid
                · rw [if_pos h2]
                · rw [if_neg h2]
      · -- Exchange
        refine advanceTurn_inv h (stateInv_build hInv hph _ ?_ ?_ rfl hph hInv.2.2)
        · intro p
          by_cases hx : p.id = actor.id <;> simp [hx]
        · intro p
          by_cases hx : p.id = actor.id <;> simp [hx]
      · -- Examine
        simp only [Option.some.injEq] at h
        subst h
        exact stateInv_record hInv hph rfl (by simp) (Or.inl rfl)
      · -- InquisitorSelfExchange
        split at h
        · simp only [Option.some.injEq] at h
          subst h
          exact stateInv_record hInv hph rfl (by simp) (Or.inl rfl)
        · simp only [Option.some.injEq] at h
          subst h
          exact stateInv_record hInv hph rfl (by simp) (Or.inl rfl)
      · -- SocialistRedistribute
        refine advanceTurn_inv h (stateInv_build hInv hph
          ((fun p => if p.id = actor.id then { p with coins := p.coins + min 1 (((s.players.filter fun q => ¬(q.id = actor.id ∨ q.isEliminated)).map (fun q => min 1 q.coins)).sum) } else p) ∘ (fun p => if p.id = actor.id ∨ p.isEliminated then p else { p with coins := p.coins - min 1 p.coins }))
          ?_ ?_ (by rw [← List.map_map]) hph hInv.2.2)
        · intro p
          simp only [Function.comp]
          by_cases h1 : p.id = actor.id ∨ p.isEliminated = true
          · rw [if_pos h1]
            by_cases h2 : p.id = actor.id
            · rw [if_pos h2]
            · rw [if_neg h2]
          · rw [if_neg h1]
            by_cases h2 : p.id = actor.id
            · rw [if_pos h2]
            · rw [if_neg h2]
        · intro p
          simp only [Function.comp]
          by_cases h1 : p.id = actor.id ∨ p.isEliminated = true
          · rw [if_pos h1]
            by_cases h2 : p.id = actor.id
            · rw [if_pos h2]
            · rw [if_neg h2]
          · rw [if_neg h1]
            by_cases h2 : p.id = actor.id
            · rw [if_pos h2]
            · rw [if_neg h2]
      · -- default: Convert / Embezzle
        exact advanceTurn_inv h hInv

/-- `resolveAction_inv` with the run hypothesis first, so that applying it to a
run on a record literal fixes the intermediate state before the invariant
argument is elaborated. -/
theorem resolveAction_inv' {sh : List Character → List Character}
    {s s' : GameState} (h : resolveAction sh s = some s')
    (hInv : StateInv s) (hph : s.phase ≠ GamePhase.GameOver) : StateInv s' :=
  resolveAction_inv hInv hph h

theorem loseAllLoop_inv {rid : String} :
    ∀ (n : Nat) {s s' : GameState},
    StateInv s → s.phase ≠ GamePhase.GameOver →
    loseAllLoop rid n s = some s' → StateInv s'
  | 0, s, s', hInv, hph, h => by
    unfold loseAllLoop at h
    exact advanceTurn_inv h (stateInv_record hInv hph rfl hph (Or.inr rfl))
  | n + 1, s, s', hInv, hph, h => by
    unfold loseAllLoop at h
    simp only [Option.pure_def, Option.bind_eq_bind] at h
    cases hp : getPlayerById s rid with
    | none => rw [hp] at h; simp at h
    | some r =>
      rw [hp] at h
      simp only [Option.some_bind] at h
      cases hfi : r.influenceCards.findIdx? (fun c => !c.isRevealed) with
      | none =>
        rw [hfi] at h
        simp only [Option.some_bind] at h
        split at h
        · simp only [Option.some.injEq] at h; subst h; exact hInv
        · exact loseAllLoop_inv n hInv (by assumption) h
      | some idx =>
        rw [hfi] at h
        simp only [Option.some_bind] at h
        cases hlo : loseInfluence s rid idx with
        | none => rw [hlo] at h; simp at h
        | some s₁ =>
          rw [hlo] at h
          simp only [Option.some_bind] at h
          have hInv1 := (loseInfluence_inv hInv hph hlo).1
          split at h
          · simp only [Option.some.injEq] at h; subst h; exact hInv1
          · exact loseAllLoop_inv n hInv1 (by assumption) h

theorem declareAction_inv {sh : List Character → List Character}
    {s s' : GameState} {a : GameAction}
    (hInv : StateInv s) (hph : s.phase ≠ GamePhase.GameOver)
    (h : declareAction sh s a = some s') : StateInv s' := by
  unfold declareAction at h
  simp only [Option.pure_def, Option.bind_eq_bind] at h
  cases hpl : getPlayerById s a.sourcePlayerId with
  | none => rw [hpl] at h; simp at h
  | some player =>
    rw [hpl] at h
    simp only [Option.some_bind] at h
    have hde : declareAction.declareActionAfterLog sh s a player = some s' := by
      cases htgt : a.targetPlayerId with
      | none => rw [htgt] at h; exact h
      | some t =>
        rw [htgt] at h
        simp only [Option.bind_eq_bind] at h
        cases htl : getPlayerById s t with
        | none => rw [htl] at h; simp at h
        | some tp => rw [htl] at h; simpa using h
    clear h
    by_cases hc : engineActionCost a.type > 0 <;>
      by_cases hch : isActionChallengeable a.type = true <;>
        by_cases hb : isActionBlockable a.type s.config.enabledCharacters = true <;>
          simp only [declareAction.declareActionAfterLog, hc, hch, hb, if_pos, if_neg,
            if_true, if_false, Bool.false_eq_true, not_false_eq_true, not_true,
            Option.some.injEq] at hde <;>
          first
          | (subst hde
             exact stateInv_record hInv hph rfl (by simp) (Or.inl rfl))
          | (subst hde
             refine stateInv_build hInv hph
               (fun p => if p.id = player.id
                 then { p with coins := p.coins - engineActionCost a.type } else p)
               ?_ ?_ rfl (by simp) ?_
             · intro p
               by_cases hx : p.id = player.id <;> simp [hx]
             · intro p
               by_cases hx : p.id = player.id <;> simp [hx]
             · exact hInv.2.2)
          | exact resolveAction_inv' hde
              (stateInv_record hInv hph rfl hph (Or.inl rfl)) hph
          | (refine resolveAction_inv' hde (stateInv_build hInv hph
               (fun p => if p.id = player.id
                 then { p with coins := p.coins - engineActionCost a.type } else p)
               ?_ ?_ rfl hph hInv.2.2) hph <;>
             (intro p
              by_cases hx : p.id = player.id <;> simp [hx]))

theorem declareBlock_inv {s s' : GameState} {bid : String} {c : Character}
    (hInv : StateInv s) (hph : s.phase ≠ GamePhase.GameOver)
    (h : declareBlock s bid c = some s') : StateInv s' := by
  unfold declareBlock at h
  cases hpa : s.pendingAction with
  | none => rw [hpa] at h; simp at h
  | some a =>
    rw [hpa] at h
    simp only [Option.pure_def, Option.bind_eq_bind, Option.some_bind] at h
    cases hbl : getPlayerById s bid with
    | none => rw [hbl] at h; simp at h
    | some blocker =>
      rw [hbl] at h
      simp only [Option.some_bind, Option.some.injEq] at h
      subst h
      exact stateInv_record hInv hph rfl (by simp) (Or.inl rfl)

theorem passChallenge_inv {sh : List Character → List Character}
    {s s' : GameState} {pid : String}
    (hInv : StateInv s) (hph : s.phase ≠ GamePhase.GameOver)
    (h : passChallenge sh s pid = some s') : StateInv s' := by
  simp only [passChallenge] at h
  by_cases hlen : (s.respondedPlayerIds ++ [pid]).length ≥ (passResponders s).length
  · rw [if_pos hlen] at h
    by_cases hpc : s.phase = GamePhase.AwaitingChallengeOnAction
    · rw [if_pos hpc] at h
      cases hpa : s.pendingAction with
      | none => rw [hpa] at h; simp at h
      | some a =>
        rw [hpa] at h
        simp only [Option.pure_def, Option.bind_eq_bind, Option.some_bind] at h
        split at h
        · simp only [Option.some.injEq] at h
          subst h
          exact stateInv_record hInv hph rfl (by simp) (Or.inl rfl)
        · exact resolveAction_inv hInv hph h
    · rw [if_neg hpc] at h
      by_cases hpb : s.phase = GamePhase.AwaitingChallengeOnBlock
      · rw [if_pos hpb] at h
        exact advanceTurn_inv h hInv
      · rw [if_neg hpb] at h
        simp only [Option.some.injEq] at h
        subst h
        exact stateInv_record hInv hph rfl hph (Or.inl rfl)
  · rw [if_neg hlen] at h
    simp only [Option.some.injEq] at h
    subst h
    exact stateInv_record hInv hph rfl hph (Or.inl rfl)

theorem passBlock_inv {sh : List Character → List Character}
    {s s' : GameState} {pid : String}
    (hInv : StateInv s) (hph : s.phase ≠ GamePhase.GameOver)
    (h : passBlock sh s pid = some s') : StateInv s' := by
  simp only [passBlock] at h
  split at h
  · exact resolveAction_inv hInv hph h
  · simp only [Option.some.injEq] at h
    subst h
    exact stateInv_record hInv hph rfl hph (Or.inl rfl)

theorem challengeAction_inv {sh : List Character → List Character}
    {s s' : GameState} {cid : String}
    (hInv : StateInv s) (hph : s.phase ≠ GamePhase.GameOver)
    (h : challengeAction sh s cid = some s') : StateInv s' := by
  unfold challengeAction at h
  simp only [Option.pure_def, Option.bind_eq_bind] at h
  cases hpa : s.pendingAction with
  | none => rw [hpa] at h; simp at h
  | some act =>
    rw [hpa] at h
    simp only [Option.some_bind] at h
    cases hch : getPlayerById s cid with
    | none => rw [hch] at h; simp at h
    | some challenger =>
      rw [hch] at h
      simp only [Option.some_bind] at h
      cases hac : getPlayerById s act.sourcePlayerId with
      | none => rw [hac] at h; simp at h
      | some actor =>
        rw [hac] at h
        simp only [Option.some_bind] at h
        cases hcc : act.claimedCharacter with
        | none => rw [hcc] at h; simp at h
        | some cc =>
          rw [hcc] at h
          simp only [Option.some_bind] at h
          split at h
          · -- challenge fails: the actor proves the character
            cases hrs : replaceRevealedCard sh s actor.id cc with
            | none => rw [hrs] at h; simp at h
            | some ns =>
              rw [hrs] at h
              simp only [Option.some_bind] at h
              obtain ⟨hInvNs, hphEq, -⟩ := replaceRevealedCard_inv hInv hph hrs
              have hphNs : ns.phase ≠ GamePhase.GameOver := by
                rw [hphEq]; exact hph
              cases hchal : getPlayerById ns cid with
              | none => rw [hchal] at h; simp at h
              | some chal =>
                rw [hchal] at h
                simp only [Option.some_bind] at h
                split at h
                · cases hfi : chal.influenceCards.findIdx? (fun c => !c.isRevealed) with
                  | none => rw [hfi] at h; simp at h
                  | some idx =>
                    rw [hfi] at h
                    simp only [Option.some_bind] at h
                    cases hlo : loseInfluence ns cid idx with
                    | none => rw [hlo] at h; simp at h
                    | some ns2 =>
                      rw [hlo] at h
                      simp only [Option.some_bind] at h
                      have hInv2 := (loseInfluence_inv hInvNs hphNs hlo).1
                      split at h
                      · simp only [Option.some.injEq] at h
                        subst h
                        exact hInv2
                      · split at h
                        · exact resolveAction_inv hInv2 (by assumption) h
                        · split at h
                          · simp only [Option.some.injEq] at h
                            subst h
                            exact stateInv_record hInv2 (by assumption) rfl
                              (by simp) (Or.inl rfl)
                          · exact resolveAction_inv hInv2 (by assumption) h
                · simp only [Option.some.injEq] at h
                  subst h
                  exact stateInv_record hInvNs hphNs rfl (by simp) (Or.inl rfl)
          · -- challenge succeeds: the actor pays, no coin moves
            cases ha2 : getPlayerById
                { s with pendingAction := some act,
                         cardSelectionReason := some CardSelectionReason.challengePenalty }
                actor.id with
            | none => rw [ha2] at h; simp at h
            | some actor2 =>
              rw [ha2] at h
              simp only [Option.some_bind] at h
              have hInvNs : StateInv
                  { s with pendingAction := some act,
                           cardSelectionReason := some CardSelectionReason.challengePenalty } :=
                stateInv_record hInv hph rfl hph (Or.inl rfl)
              split at h
              · cases hfi : actor2.influenceCards.findIdx? (fun c => !c.isRevealed) with
                | none => rw [hfi] at h; simp at h
                | some idx =>
                  rw [hfi] at h
                  simp only [Option.some_bind] at h
                  cases hlo : loseInfluence
                      { s with pendingAction := some act,
                               cardSelectionReason := some CardSelectionReason.challengePenalty }
                      actor.id idx with
                  | none => rw [hlo] at h; simp at h
                  | some ns2 =>
                    rw [hlo] at h
                    simp only [Option.some_bind] at h
                    exact advanceTurn_inv h ((loseInfluence_inv hInvNs hph hlo).1)
              · simp only [Option.some.injEq] at h
                subst h
                exact stateInv_record hInvNs hph rfl (by simp) (Or.inl rfl)

theorem challengeBlock_inv {sh : List Character → List Character}
    {s s' : GameState} {cid : String}
    (hInv : StateInv s) (hph : s.phase ≠ GamePhase.GameOver)
    (h : challengeBlock sh s cid = some s') : StateInv s' := by
  unfold challengeBlock at h
  simp only [Option.pure_def, Option.bind_eq_bind] at h
  cases hpb : s.pendingBlock with
  | none => rw [hpb] at h; simp at h
  | some pb =>
    rw [hpb] at h
    simp only [Option.some_bind] at h
    cases hch : getPlayerById s cid with
    | none => rw [hch] at h; simp at h
    | some challenger =>
      rw [hch] at h
      simp only [Option.some_bind] at h
      cases hbl : getPlayerById s pb.blockingPlayerId with
      | none => rw [hbl] at h; simp at h
      | some blocker =>
        rw [hbl] at h
        simp only [Option.some_bind] at h
        split at h
        · -- block proven
          cases hrs : replaceRevealedCard sh s blocker.id pb.claimedCharacter with
          | none => rw [hrs] at h; simp at h
          | some ns =>
            rw [hrs] at h
            simp only [Option.some_bind] at h
            obtain ⟨hInvNs, hphEq, -⟩ := replaceRevealedCard_inv hInv hph hrs
            have hphNs : ns.phase ≠ GamePhase.GameOver := by
              rw [hphEq]; exact hph
            cases hchal : getPlayerById ns cid with
            | none => rw [hchal] at h; simp at h
            | some chal =>
              rw [hchal] at h
              simp only [Option.some_bind] at h
              split at h
              · cases hfi : chal.influenceCards.findIdx? (fun c => !c.isRevealed) with
                | none => rw [hfi] at h; simp at h
                | some idx =>
                  rw [hfi] at h
                  simp only [Option.some_bind] at h
                  cases hlo : loseInfluence ns cid idx with
                  | none => rw [hlo] at h; simp at h
                  | some ns2 =>
                    rw [hlo] at h
                    simp only [Option.some_bind] at h
                    exact advanceTurn_inv h ((loseInfluence_inv hInvNs hphNs hlo).1)
              · simp only [Option.some.injEq] at h
                subst h
                exact stateInv_record hInvNs hphNs rfl (by simp) (Or.inl rfl)
        · -- block disproven
          cases hb2 : getPlayerById
              { s with pendingBlock := some pb,
                       cardSelectionReason := some CardSelectionReason.challengePenalty }
              blocker.id with
          | none => rw [hb2] at h; simp at h
          | some blk =>
            rw [hb2] at h
            simp only [Option.some_bind] at h
            have hInvNs : StateInv
                { s with pendingBlock := some pb,
                         cardSelectionReason := some CardSelectionReason.challengePenalty } :=
              stateInv_record hInv hph rfl hph (Or.inl rfl)
            split at h
            · cases hfi : blk.influenceCards.findIdx? (fun c => !c.isRevealed) with
              | none => rw [hfi] at h; simp at h
              | some idx =>
                rw [hfi] at h
                simp only [Option.some_bind] at h
                cases hlo : loseInfluence
                    { s with pendingBlock := some pb,
                             cardSelectionReason := some CardSelectionReason.challengePenalty }
                    blocker.id idx with
                | none => rw [hlo] at h; simp at h
                | some ns2 =>
                  rw [hlo] at h
                  simp only [Option.some_bind] at h
                  have hInv2 := (loseInfluence_inv hInvNs hph hlo).1
                  split at h
                  · simp only [Option.some.injEq] at h
                    subst h
                    exact hInv2
                  · exact resolveAction_inv hInv2 (by assumption) h
            · simp only [Option.some.injEq] at h
              subst h
              exact stateInv_record hInvNs hph rfl (by simp) (Or.inl rfl)

theorem declareCoupRedirect_inv {s s' : GameState} {rid tid : String}
    (hInv : StateInv s) (hph : s.phase ≠ GamePhase.GameOver)
    (h : declareCoupRedirect s rid tid = some s') : StateInv s' := by
  unfold declareCoupRedirect at h
  simp only [Option.pure_def, Option.bind_eq_bind] at h
  cases hr : getPlayerById s rid with
  | none => rw [hr] at h; simp at h
  | some redirector =>
    rw [hr] at h
    simp only [Option.some_bind] at h
    cases ht : getPlayerById s tid with
    | none => rw [ht] at h; simp at h
    | some newTarget =>
      rw [ht] at h
      simp only [Option.some_bind, Option.some.injEq] at h
      subst h
      refine stateInv_build hInv hph id (fun _ => rfl) (fun _ => rfl)
        (by simp) (by simp) ?_
      intro id hmem
      have hmem' : id ∈ s.coupRedirectChain ++ [tid] := hmem
      rcases List.mem_append.mp hmem' with hm | hm
      · exact hInv.2.2 id hm
      · have hid : id = tid := by simpa using hm
        subst hid
        exact ⟨newTarget, (getPlayerById_mem ht).1, (getPlayerById_mem ht).2⟩

theorem passCoupRedirect_inv {s s' : GameState} {pid : String}
    (hInv : StateInv s) (hph : s.phase ≠ GamePhase.GameOver)
    (h : passCoupRedirect s pid = some s') : StateInv s' := by
  unfold passCoupRedirect at h
  simp only [Option.pure_def, Option.bind_eq_bind] at h
  cases hp : getPlayerById s pid with
  | none => rw [hp] at h; simp at h
  | some player =>
    rw [hp] at h
    simp only [Option.some_bind] at h
    cases hpa : s.pendingAction with
    | none => rw [hpa] at h; simp at h
    | some act =>
      rw [hpa] at h
      simp only [Option.some_bind] at h
      have hInvNs : StateInv { s with
          pendingAction := some { act with redirectDeclined := some true },
          coupRedirectChain := [],
          coupRedirectSourceId := none } :=
        stateInv_record hInv hph rfl hph (Or.inr rfl)
      split at h
      · cases hfi : player.influenceCards.findIdx? (fun c => !c.isRevealed) with
        | none => rw [hfi] at h; simp at h
        | some idx =>
          rw [hfi] at h
          simp only [Option.some_bind] at h
          cases hlo : loseInfluence { s with
              pendingAction := some { act with redirectDeclined := some true },
              coupRedirectChain := [],
              coupRedirectSourceId := none } pid idx with
          | none => rw [hlo] at h; simp at h
          | some ns2 =>
            rw [hlo] at h
            simp only [Option.some_bind] at h
            exact advanceTurn_inv h ((loseInfluence_inv hInvNs hph hlo).1)
      · simp only [Option.some.injEq] at h
        subst h
        exact stateInv_record hInvNs hph rfl (by simp) (Or.inl rfl)

theorem challengeCoupRedirect_inv {sh : List Character → List Character}
    {s s' : GameState} {cid : String}
    (hInv : StateInv s) (hph : s.phase ≠ GamePhase.GameOver)
    (h : challengeCoupRedirect sh s cid = some s') : StateInv s' := by
  unfold challengeCoupRedirect at h
  simp only [Option.pure_def, Option.bind_eq_bind, Option.bind_eq_some] at h
  obtain ⟨rid, hrid, redirector, hr, challenger, hc, h⟩ := h
  by_cases hge :
      ((getAliveInfluence redirector).filter
        (fun c => c.character = Character.Jester)).length ≥
      ((s.coupRedirectChain.take (s.coupRedirectChain.length - 1)).filter
        (fun id => id = rid)).length
  · rw [if_pos hge] at h
    -- challenge fails: the redirector proves the Jesters
    simp only [Option.pure_def, Option.bind_eq_bind, Option.bind_eq_some] at h
    obtain ⟨ns, hfold, chal, hchal, h⟩ := h
    obtain ⟨hInvNs, hphEq, -⟩ := replaceFold_inv _ hInv hph hfold
    have hphNs : ns.phase ≠ GamePhase.GameOver := by rw [hphEq]; exact hph
    by_cases hlen : (getAliveInfluence chal).length = 1
    · rw [if_pos hlen] at h
      simp only [Option.pure_def, Option.bind_eq_bind, Option.bind_eq_some] at h
      obtain ⟨idx, hfi, ns2, hlo, h⟩ := h
      have hInv2 := (loseInfluence_inv hInvNs hphNs hlo).1
      by_cases hgo : ns2.phase = GamePhase.GameOver
      · rw [if_pos hgo] at h
        simp only [Option.some.injEq] at h
        subst h
        exact hInv2
      · rw [if_neg hgo] at h
        simp only [Option.pure_def, Option.bind_eq_bind, Option.bind_eq_some] at h
        obtain ⟨ntid, hnt, newTarget, htg, h⟩ := h
        by_cases helim : newTarget.isEliminated = true
        · rw [if_pos helim] at h
          exact advanceTurn_inv h
            (stateInv_record hInv2 hgo rfl hgo (Or.inr rfl))
        · rw [if_neg helim] at h
          by_cases hjest : s.config.enabledCharacters.contains Character.Jester = true
          · rw [if_pos hjest] at h
            simp only [Option.some.injEq] at h
            subst h
            exact stateInv_record hInv2 hgo rfl (by simp) (Or.inl rfl)
          · rw [if_neg hjest] at h
            by_cases hlen2 : (getAliveInfluence newTarget).length = 1
            · rw [if_pos hlen2] at h
              simp only [Option.pure_def, Option.bind_eq_bind, Option.bind_eq_some] at h
              obtain ⟨idx2, hfi2, lost, hlo2, h⟩ := h
              have hInvC : StateInv
                  { ns2 with coupRedirectChain := [], coupRedirectSourceId := none } :=
                stateInv_record hInv2 hgo rfl hgo (Or.inr rfl)
              exact advanceTurn_inv h ((loseInfluence_inv hInvC hgo hlo2).1)
            · rw [if_neg hlen2] at h
              simp only [Option.some.injEq] at h
              subst h
              exact stateInv_record hInv2 hgo rfl (by simp) (Or.inr rfl)
    · rw [if_neg hlen] at h
      simp only [Option.some.injEq] at h
      subst h
      exact stateInv_record hInvNs hphNs rfl (by simp) (Or.inl rfl)
  · -- challenge succeeds: compound penalty loop
    rw [if_neg hge] at h
    exact loseAllLoop_inv _ hInv hph h

theorem passCoupRedirectChallenge_inv {s s' : GameState} {pid : String}
    (hInv : StateInv s) (hph : s.phase ≠ GamePhase.GameOver)
    (h : passCoupRedirectChallenge s pid = some s') : StateInv s' := by
  simp only [passCoupRedirectChallenge] at h
  split at h
  · simp only [Option.pure_def, Option.bind_eq_bind, Option.bind_eq_some] at h
    obtain ⟨ntid, hnt, newTarget, htg, h⟩ := h
    split at h
    · exact advanceTurn_inv h (stateInv_record hInv hph rfl hph (Or.inr rfl))
    · split at h
      · simp only [Option.some.injEq] at h
        subst h
        exact stateInv_record hInv hph rfl (by simp) (Or.inl rfl)
      · split at h
        · simp only [Option.pure_def, Option.bind_eq_bind, Option.bind_eq_some] at h
          obtain ⟨idx, hfi, lost, hlo, h⟩ := h
          have hInvC : StateInv
              { s with coupRedirectChain := [], coupRedirectSourceId := none } :=
            stateInv_record hInv hph rfl hph (Or.inr rfl)
          exact advanceTurn_inv h ((loseInfluence_inv hInvC hph hlo).1)
        · simp only [Option.some.injEq] at h
          subst h
          exact stateInv_record hInv hph rfl (by simp) (Or.inr rfl)
  · simp only [Option.some.injEq] at h
    subst h
    exact stateInv_record hInv hph rfl hph (Or.inl rfl)

theorem resolveInquisitorChoice_inv {sh : List Character → List Character}
    {r : Nat} {s s' : GameState} {choice : InquisitorChoice} {t? : Option String}
    (hInv : StateInv s) (hph : s.phase ≠ GamePhase.GameOver)
    (h : resolveInquisitorChoice sh r s choice t? = some s') : StateInv s' := by
  cases choice with
  | selfExchange =>
    simp only [resolveInquisitorChoice, Option.pure_def, Option.bind_eq_bind,
      Option.bind_eq_some] at h
    obtain ⟨act, hpa, actor, hac, h⟩ := h
    exact resolveAction_inv' h (stateInv_record hInv hph rfl hph (Or.inl rfl)) hph
  | examine =>
    simp only [resolveInquisitorChoice, Option.pure_def, Option.bind_eq_bind,
      Option.bind_eq_some] at h
    obtain ⟨act, hpa, actor, hac, tid, htid, target, htg, h⟩ := h
    split at h
    · simp at h
    · simp only [Option.pure_def, Option.bind_eq_bind, Option.bind_eq_some,
        Option.some.injEq] at h
      obtain ⟨sel, hsel, h⟩ := h
      subst h
      exact stateInv_record hInv hph rfl (by simp) (Or.inl rfl)

theorem selectCardToLose_inv {sh : List Character → List Character}
    {s s' : GameState} {pid : String} {i : Nat}
    (hInv : StateInv s) (hph : s.phase ≠ GamePhase.GameOver)
    (h : selectCardToLose sh s pid i = some s') : StateInv s' := by
  unfold selectCardToLose at h
  simp only [Option.pure_def, Option.bind_eq_bind, Option.bind_eq_some] at h
  obtain ⟨ns, hlo, h⟩ := h
  have hInvNs := (loseInfluence_inv hInv hph hlo).1
  split at h
  · simp only [Option.some.injEq] at h
    subst h
    exact hInvNs
  · rename_i hgo
    cases hpa : s.pendingAction with
    | none =>
      simp only [hpa] at h
      exact advanceTurn_inv h (stateInv_record hInvNs hgo rfl hgo (Or.inl rfl))
    | some act =>
      simp only [hpa] at h
      by_cases h1 : s.phase = GamePhase.AwaitingCardSelection
      · rw [if_pos h1] at h
        by_cases h2 : pid ≠ act.sourcePlayerId
        · rw [if_pos h2] at h
          by_cases h3 : act.type = ActionType.Assassinate
          · rw [if_pos h3] at h
            exact resolveAction_inv hInvNs hgo h
          · rw [if_neg h3] at h
            by_cases h4 : act.type = ActionType.Coup
            · rw [if_pos h4] at h
              exact advanceTurn_inv h
                (stateInv_record hInvNs hgo rfl hgo (Or.inl rfl))
            · rw [if_neg h4] at h
              by_cases h5 : s.cardSelectionReason = some CardSelectionReason.actionEffect
              · rw [if_pos h5] at h
                exact advanceTurn_inv h
                  (stateInv_record hInvNs hgo rfl hgo (Or.inl rfl))
              · rw [if_neg h5] at h
                by_cases h6 : isActionBlockable act.type ns.config.enabledCharacters = true
                · rw [if_pos h6] at h
                  simp only [Option.some.injEq] at h
                  subst h
                  exact stateInv_record hInvNs hgo rfl (by simp) (Or.inl rfl)
                · rw [if_neg h6] at h
                  exact resolveAction_inv hInvNs hgo h
        · rw [if_neg h2] at h
          exact advanceTurn_inv h (stateInv_record hInvNs hgo rfl hgo (Or.inl rfl))
      · rw [if_neg h1] at h
        exact advanceTurn_inv h (stateInv_record hInvNs hgo rfl hgo (Or.inl rfl))

theorem completeExchange_inv {sh : List Character → List Character}
    {s s' : GameState} {pid : String} {kept ret : List Character}
    (hInv : StateInv s) (hph : s.phase ≠ GamePhase.GameOver)
    (h : completeExchange sh s pid kept ret = some s') : StateInv s' := by
  unfold completeExchange at h
  simp only [Option.pure_def, Option.bind_eq_bind, Option.bind_eq_some] at h
  obtain ⟨player, hp, h⟩ := h
  split at h
  · simp at h
  · refine advanceTurn_inv h (stateInv_build hInv hph
      (fun p => if p.id = pid then
        { p with influenceCards :=
            kept.map (fun c => { character := c, isRevealed := false : InfluenceCard })
              ++ player.influenceCards.filter (·.isRevealed) }
        else p) ?_ ?_ rfl hph hInv.2.2)
    · intro p
      by_cases hx : p.id = pid <;> simp [hx]
    · intro p
      by_cases hx : p.id = pid <;> simp [hx]

theorem resolveExamine_inv {sh : List Character → List Character}
    {s s' : GameState} {fe : Bool} {ti : Nat}
    (hInv : StateInv s) (hph : s.phase ≠ GamePhase.GameOver)
    (h : resolveExamine sh s fe ti = some s') : StateInv s' := by
  unfold resolveExamine at h
  simp only [Option.pure_def, Option.bind_eq_bind, Option.bind_eq_some] at h
  obtain ⟨act, hpa, tid, htid, target, htg, card, hcard, h⟩ := h
  split at h
  · simp at h
  · split at h
    · simp only [Option.pure_def, Option.bind_eq_bind, Option.bind_eq_some] at h
      obtain ⟨pr, hpop, h⟩ := h
      obtain ⟨nc, nd⟩ := pr
      refine advanceTurn_inv h (stateInv_build hInv hph
        (fun p => if p.id = target.id then
          { p with influenceCards := p.influenceCards.mapIdx fun i c =>
              if i = ti then { character := nc, isRevealed := false } else c }
          else p) ?_ ?_ rfl hph hInv.2.2)
      · intro p
        by_cases hx : p.id = target.id <;> simp [hx]
      · intro p
        by_cases hx : p.id = target.id <;> simp [hx]
    · exact advanceTurn_inv h hInv

theorem dealPlayers_spec {config : GameConfig} {botCount : Nat} :
    ∀ (i n : Nat) {deck : List Character} {ps : List Player} {d : List Character},
    dealPlayers config botCount i n deck = some (ps, d) →
    ps.length = n ∧ ∀ p ∈ ps, p.isEliminated = false
  | i, 0, deck, ps, d, h => by
    simp only [dealPlayers, Option.some.injEq, Prod.mk.injEq] at h
    obtain ⟨h1, h2⟩ := h
    subst h1
    exact ⟨rfl, by simp⟩
  | i, n + 1, deck, ps, d, h => by
    simp only [dealPlayers, Option.pure_def, Option.bind_eq_bind, Option.bind_eq_some] at h
    obtain ⟨⟨c1, d1⟩, hp1, h⟩ := h
    simp only [Option.bind_eq_some] at h
    obtain ⟨⟨c2, d2⟩, hp2, h⟩ := h
    simp only [Option.bind_eq_some] at h
    obtain ⟨⟨rest, d3⟩, hrec, h⟩ := h
    simp only [Option.some.injEq, Prod.mk.injEq] at h
    obtain ⟨hps, hd⟩ := h
    subst hps
    obtain ⟨hlen, hall⟩ := dealPlayers_spec (i + 1) n hrec
    refine ⟨by simp [hlen], ?_⟩
    intro p hp
    rcases List.mem_cons.mp hp with hp | hp
    · subst hp; rfl
    · exact hall p hp

/-- The state built by `createGame` satisfies the structural invariant, given
the spec's two-player minimum and distinct player ids. -/
theorem createGame_inv {sh : List Character → List Character} {cfg : GameConfig}
    {s : GameState} (h2 : 2 ≤ cfg.playerCount) (h : createGame sh cfg = some s)
    (hnd : (s.players.map (·.id)).Nodup) : StateInv s := by
  unfold createGame at h
  simp only [Option.pure_def, Option.bind_eq_bind, Option.bind_eq_some] at h
  obtain ⟨⟨players, remainingDeck⟩, hdeal, h⟩ := h
  simp only [Option.some.injEq] at h
  subst h
  obtain ⟨hlen, hall⟩ := dealPlayers_spec 0 cfg.playerCount hdeal
  have hfilter : players.filter (fun p => !p.isEliminated) = players := by
    rw [List.filter_eq_self]
    intro p hp
    rw [hall p hp]
    rfl
  refine ⟨hnd, ⟨?_, ?_⟩, ?_⟩
  · intro hx
    simp at hx
  · intro _
    show 2 ≤ (getAlivePlayers _).length
    unfold getAlivePlayers
    show 2 ≤ (players.filter (fun p => !p.isEliminated)).length
    rw [hfilter, hlen]
    exact h2
  · intro id hmem
    simp at hmem

/-- A single public transition preserves the structural invariant. -/
theorem stateInv_step {s s' : GameState} (hst : Step s s') (hInv : StateInv s) :
    StateInv s' := by
  cases hst with
  | ofDeclareAction sh a hph h => exact declareAction_inv hInv hph h
  | ofChallengeAction sh cid hph h => exact challengeAction_inv hInv hph h
  | ofPassChallenge sh pid hph h => exact passChallenge_inv hInv hph h
  | ofDeclareBlock bid c hph h => exact declareBlock_inv hInv hph h
  | ofPassBlock sh pid hph h => exact passBlock_inv hInv hph h
  | ofChallengeBlock sh cid hph h => exact challengeBlock_inv hInv hph h
  | ofResolveAction sh hph h => exact resolveAction_inv hInv hph h
  | ofDeclareCoupRedirect rid tid hph h => exact declareCoupRedirect_inv hInv hph h
  | ofPassCoupRedirect pid hph h => exact passCoupRedirect_inv hInv hph h
  | ofChallengeCoupRedirect sh cid hph h => exact challengeCoupRedirect_inv hInv hph h
  | ofPassCoupRedirectChallenge pid hph h =>
    exact passCoupRedirectChallenge_inv hInv hph h
  | ofResolveInquisitorChoice sh r choice tid hph h =>
    exact resolveInquisitorChoice_inv hInv hph h
  | ofSelectCardToLose sh pid idx hph h => exact selectCardToLose_inv hInv hph h
  | ofCompleteExchange sh pid kept returned hph h =>
    exact completeExchange_inv hInv hph h
  | ofResolveExamine sh force idx hph h => exact resolveExamine_inv hInv hph h
  | ofAdvanceTurn hph h => exact advanceTurn_inv h hInv

/-- Every reachable state satisfies the structural invariant. -/
theorem stateInv_reachable {s : GameState} (h : Reachable s) : StateInv s := by
  induction h with
  | init cfg sh s h2 hcg hnd => exact createGame_inv h2 hcg hnd
  | step hr hst ih => exact stateInv_step hst ih

/-- **C9**: in every reachable state, the phase is `GameOver` exactly when one
non-eliminated player remains; in that case `winnerId` is that player's id;
and `advanceTurn` returns a `GameOver` state unchanged (terminality). -/
theorem claim_C9_gameover_iff_one_alive {s : GameState} (hr : Reachable s) :
    (s.phase = GamePhase.GameOver ↔ (getAlivePlayers s).length = 1)
    ∧ (s.phase = GamePhase.GameOver →
        ∃ p, getAlivePlayers s = [p] ∧ s.winnerId = some p.id)
    ∧ (∀ t : GameState, t.phase = GamePhase.GameOver → advanceTurn t = some t) := by
  obtain ⟨-, ⟨hgo1, hgo2⟩, -⟩ := stateInv_reachable hr
  refine ⟨⟨?_, ?_⟩, hgo1, ?_⟩
  · intro hx
    obtain ⟨p, hp, -⟩ := hgo1 hx
    rw [hp]
    rfl
  · intro hx
    by_contra hno
    have h2 := hgo2 hno
    omega
  · intro t ht
    unfold advanceTurn
    rw [if_pos ht]

theorem claim_C9_witness :
    (stateInit2.phase = GamePhase.GameOver
      ↔ (getAlivePlayers stateInit2).length = 1)
    ∧ (stateInit2.phase = GamePhase.GameOver →
        ∃ p, getAlivePlayers stateInit2 = [p] ∧ stateInit2.winnerId = some p.id)
    ∧ (∀ t : GameState, t.phase = GamePhase.GameOver → advanceTurn t = some t) :=
  claim_C9_gameover_iff_one_alive
    (Reachable.init cfgTwo shId stateInit2 (by decide) (by decide) (by decide))

/-- **C10**: on every reachable state with a redirect chain of length at least
two, the redirector lookup of `challengeCoupRedirect` at chain index
`length - 2` succeeds and names a rostered player (the not-found branch is
unreachable); and on every state with a shorter chain the call throws at that
lookup, producing no successor state. -/
theorem claim_C10_redirector_lookup {s : GameState} (hr : Reachable s) :
    (2 ≤ s.coupRedirectChain.length →
      ∃ rid p,
        jsIdx s.coupRedirectChain ((s.coupRedirectChain.length : Int) - 2) = some rid
        ∧ getPlayerById s rid = some p)
    ∧ (∀ (sh : List Character → List Character) (t : GameState) (cid : String),
        t.coupRedirectChain.length < 2 → challengeCoupRedirect sh t cid = none) := by
  constructor
  · intro hlen
    have hnn : ¬((s.coupRedirectChain.length : Int) - 2 < 0) := by omega
    have htn : ((s.coupRedirectChain.length : Int) - 2).toNat
        = s.coupRedirectChain.length - 2 := by omega
    have hlt : s.coupRedirectChain.length - 2 < s.coupRedirectChain.length := by omega
    have hget : s.coupRedirectChain.get? (s.coupRedirectChain.length - 2)
        = some (s.coupRedirectChain.get ⟨s.coupRedirectChain.length - 2, hlt⟩) :=
      List.get?_eq_get hlt
    obtain ⟨p, hp, hpid⟩ := (stateInv_reachable hr).2.2 _
      (List.get_mem s.coupRedirectChain (s.coupRedirectChain.length - 2) hlt)
    have hfind : (s.players.find? (fun q => q.id == s.coupRedirectChain.get
        ⟨s.coupRedirectChain.length - 2, hlt⟩)).isSome :=
      List.find?_isSome.mpr ⟨p, hp, by simp [hpid]⟩
    obtain ⟨q, hq⟩ := Option.isSome_iff_exists.mp hfind
    refine ⟨_, q, ?_, hq⟩
    unfold jsIdx
    rw [if_neg hnn, htn]
    exact hget
  · intro sh t cid hlt
    have hneg : (t.coupRedirectChain.length : Int) - 2 < 0 := by omega
    have hnone : jsIdx t.coupRedirectChain ((t.coupRedirectChain.length : Int) - 2)
        = none := by
      unfold jsIdx
      rw [if_pos hneg]
    simp only [challengeCoupRedirect]
    rw [hnone]
    rfl

theorem claim_C10_witness :
    (2 ≤ stateChainTwo.coupRedirectChain.length →
      ∃ rid p,
        jsIdx stateChainTwo.coupRedirectChain
          ((stateChainTwo.coupRedirectChain.length : Int) - 2) = some rid
        ∧ getPlayerById stateChainTwo rid = some p)
    ∧ (∀ (sh : List Character → List Character) (t : GameState) (cid : String),
        t.coupRedirectChain.length < 2 → challengeCoupRedirect sh t cid = none) :=
  claim_C10_redirector_lookup
    (Reachable.step
      (Reachable.step
        (Reachable.init cfgTwo shId stateInit2 (by decide) (by decide) (by decide))
        (@Step.ofDeclareAction stateInit2 stateCoupDeclared01 shId actCoup01
          (by decide) (by decide)))
      (@Step.ofDeclareCoupRedirect stateCoupDeclared01 stateChainTwo
        "player-1" "player-0" (by decide) (by decide)))

/-! ## Card-conservation helper lemmas (for C5) -/

theorem countC_append (a b : List Character) (c : Character) :
    countC (a ++ b) c = countC a c + countC b c := by
  simp [countC, List.filter_append]

theorem countC_perm {a b : List Character} (h : a.Perm b) (c : Character) :
    countC a c = countC b c :=
  (h.filter _).length_eq

theorem countC_singleton (x c : Character) :
    countC [x] c = if x = c then 1 else 0 := by
  by_cases hx : x = c <;> simp [countC, List.filter_cons, hx]

theorem popCard_eq {l d : List Character} {x : Character}
    (h : popCard l = some (x, d)) : l = d ++ [x] := by
  induction l using List.reverseRecOn with
  | nil => simp [popCard] at h
  | append_singleton a c ih =>
    simp only [popCard, List.getLast?_concat, List.dropLast_concat,
      Option.some.injEq, Prod.mk.injEq] at h
    obtain ⟨h1, h2⟩ := h
    rw [← h1, ← h2]

theorem popCard_count {l d : List Character} {x : Character}
    (h : popCard l = some (x, d)) (c : Character) :
    countC l c = countC d c + (if x = c then 1 else 0) := by
  rw [popCard_eq h, countC_append, countC_singleton]

theorem drawCards_perm : ∀ (n : Nat) (deck : List Character),
    ((drawCards n deck).1 ++ (drawCards n deck).2).Perm deck
  | 0, deck => by simp [drawCards]
  | n + 1, deck => by
    unfold drawCards
    cases hp : popCard deck with
    | none => simp
    | some pr =>
      obtain ⟨x, rest⟩ := pr
      have hrec := drawCards_perm n rest
      have hl : deck = rest ++ [x] := popCard_eq hp
      subst hl
      rcases hdc : drawCards n rest with ⟨drawn, fdeck⟩
      rw [hdc] at hrec
      simp only [hdc]
      exact (hrec.cons x).trans (List.perm_append_singleton x rest).symm

theorem drawCards_count (n : Nat) (deck : List Character) (c : Character) :
    countC (drawCards n deck).1 c + countC (drawCards n deck).2 c = countC deck c := by
  rw [← countC_append]
  exact countC_perm (drawCards_perm n deck) c

theorem filter_rev_partition (l : List InfluenceCard) (cc : Character) :
    ((l.filter fun ic => !ic.isRevealed).filter (fun ic => ic.character = cc)).length
      + ((l.filter (·.isRevealed)).filter (fun ic => ic.character = cc)).length
    = (l.filter (fun ic => ic.character = cc)).length := by
  induction l with
  | nil => rfl
  | cons a t ih =>
    by_cases hr : a.isRevealed <;> by_cases hc : a.character = cc <;>
      simp [List.filter_cons, hr, hc, List.filter_filter] at ih ⊢ <;> omega

theorem counts_partition (s : GameState) (c : Character) :
    unrevealedCount s c + revealedCount s c = handCount s c := by
  unfold unrevealedCount revealedCount handCount inflCount getAliveInfluence
  generalize s.players = ps
  induction ps with
  | nil => rfl
  | cons p t ih =>
    simp only [List.map_cons, List.sum_cons]
    have hp := filter_rev_partition p.influenceCards c
    omega

theorem sum_inflCount_congr {ps : List Player} (f : Player → Player) (c : Character)
    (h : ∀ p, inflCount (f p) c = inflCount p c) :
    ((ps.map f).map (fun p => inflCount p c)).sum
      = (ps.map (fun p => inflCount p c)).sum := by
  rw [List.map_map]
  congr 1
  exact List.map_congr_left (fun a _ => h a)

theorem charTotal_map {s t : GameState} (f : Player → Player) (c : Character)
    (hf : ∀ p, inflCount (f p) c = inflCount p c)
    (hpl : t.players = s.players.map f) (hd : t.courtDeck = s.courtDeck)
    (hdr : t.drawnCards = s.drawnCards) :
    charTotal t c = charTotal s c := by
  unfold charTotal handCount
  rw [hpl, hd, hdr, sum_inflCount_congr f c hf]

theorem sum_map_update_nodup {pid : String} (g : Player → Player)
    (F : Player → Nat) :
    ∀ {ps : List Player}, (ps.map (·.id)).Nodup →
    ∀ {p0 : Player}, p0 ∈ ps → p0.id = pid →
    ((ps.map fun p => if p.id = pid then g p else p).map F).sum + F p0
      = (ps.map F).sum + F (g p0)
  | [], _, p0, h0, _ => by simp at h0
  | q :: rest, hnd, p0, h0, hid0 => by
    simp only [List.map_cons, List.nodup_cons] at hnd
    obtain ⟨hq, hnd'⟩ := hnd
    rcases List.mem_cons.mp h0 with h0 | h0
    · subst h0
      have hrest : rest.map (fun p => if p.id = pid then g p else p) = rest := by
        have : ∀ p ∈ rest, (if p.id = pid then g p else p) = p := by
          intro p hp
          have hne : p.id ≠ pid := by
            intro he
            exact hq (by rw [hid0, ← he]; exact List.mem_map_of_mem _ hp)
          rw [if_neg hne]
        calc rest.map (fun p => if p.id = pid then g p else p)
            = rest.map id := List.map_congr_left this
          _ = rest := List.map_id rest
      rw [List.map_cons, if_pos hid0, hrest]
      simp only [List.map_cons, List.sum_cons]
      omega
    · have hqid : q.id ≠ pid := by
        intro he
        refine hq ?_
        rw [he, ← hid0]
        exact List.mem_map_of_mem _ h0
      rw [List.map_cons, if_neg hqid]
      simp only [List.map_cons, List.sum_cons]
      have := sum_map_update_nodup g F hnd' h0 hid0
      omega

theorem mapIdx_filter_pres {g : InfluenceCard → InfluenceCard}
    {P : InfluenceCard → Bool} (hg : ∀ x, P (g x) = P x) :
    ∀ (l : List InfluenceCard) (i0 : Nat),
    ((l.mapIdx fun i x => if i = i0 then g x else x).filter P).length
      = (l.filter P).length
  | [], _ => rfl
  | a :: t, i0 => by
    rw [List.mapIdx_cons]
    cases i0 with
    | zero =>
      simp only [if_pos rfl]
      rw [mapIdx_idFn t (fun i a => by simp)]
      by_cases hP : P a = true <;>
        simp [List.filter_cons, hP, hg a]
    | succ k =>
      simp only [if_neg (by omega : ¬(0 : Nat) = k + 1)]
      rw [mapIdx_congrFn t (g := fun j x => if j = k then g x else x)
        (fun i a => by simp [Nat.succ_inj])]
      have := mapIdx_filter_pres hg t k
      rw [List.filter_cons, List.filter_cons]
      cases hP : P a <;> simp [hP, this]

theorem mapIdx_count_repl (c : Character) (newIC : InfluenceCard) :
    ∀ (l : List InfluenceCard) (i0 : Nat) (card : InfluenceCard),
    l.get? i0 = some card →
    ((l.mapIdx fun i x => if i = i0 then newIC else x).filter
        (fun ic => ic.character = c)).length
      + (if card.character = c then 1 else 0)
      = (l.filter (fun ic => ic.character = c)).length
      + (if newIC.character = c then 1 else 0)
  | [], i0, card, h => by simp at h
  | a :: t, i0, card, h => by
    rw [List.mapIdx_cons]
    cases i0 with
    | zero =>
      simp only [List.get?] at h
      cases h
      simp only [if_pos rfl]
      rw [mapIdx_idFn t (fun i a => by simp)]
      by_cases hP : a.character = c <;> by_cases hN : newIC.character = c <;>
        simp [List.filter_cons, hP, hN] <;> omega
    | succ k =>
      simp only [List.get?] at h
      simp only [if_neg (by omega : ¬(0 : Nat) = k + 1)]
      rw [mapIdx_congrFn t (g := fun j x => if j = k then newIC else x)
        (fun i a => by simp [Nat.succ_inj])]
      have := mapIdx_count_repl c newIC t k card h
      rw [List.filter_cons, List.filter_cons]
      by_cases hP : a.character = c <;> by_cases hN : newIC.character = c <;>
        by_cases hC : card.character = c <;>
        simp [hP, hN, hC] at this ⊢ <;> omega

theorem mk_unrevealed_count (l : List Character) (c : Character) :
    ((l.map (fun ch => { character := ch, isRevealed := false : InfluenceCard })).filter
      (fun ic => ic.character = c)).length = countC l c := by
  induction l with
  | nil => rfl
  | cons a t ih =>
    by_cases ha : a = c <;>
      simp only [List.map_cons, List.filter_cons, countC] at * <;>
      simp [ha] <;> omega

theorem map_character_count (l : List InfluenceCard) (c : Character) :
    countC (l.map (·.character)) c = (l.filter (fun ic => ic.character = c)).length := by
  induction l with
  | nil => rfl
  | cons a t ih =>
    by_cases ha : a.character = c <;>
      simp only [List.map_cons, List.filter_cons, countC] at * <;>
      simp [ha] <;> omega

theorem countC_replicate (k : Nat) (x c : Character) :
    countC (List.replicate k x) c = if x = c then k else 0 := by
  induction k with
  | zero => simp [countC]
  | succ n ih =>
    rw [List.replicate_succ]
    by_cases hx : x = c <;> simp [countC, List.filter_cons, hx] at * <;> omega

theorem countC_flatMap_replicate (k : Nat) :
    ∀ (l : List Character) (c : Character), l.Nodup →
    countC (l.flatMap (fun ch => List.replicate k ch)) c
      = if c ∈ l then k else 0
  | [], c, _ => by simp [countC]
  | a :: t, c, hnd => by
    rw [List.flatMap_cons, countC_append]
    obtain ⟨ha, hnd'⟩ := List.nodup_cons.mp hnd
    rw [countC_flatMap_replicate k t c hnd', countC_replicate]
    by_cases hac : a = c
    · subst hac
      simp [ha]
    · rw [if_neg hac]
      by_cases hct : c ∈ t
      · rw [if_pos hct, if_pos (List.mem_cons_of_mem a hct)]
        omega
      · rw [if_neg hct, if_neg (fun hmem => by
          rcases List.mem_cons.mp hmem with he | ht
          · exact hac he.symm
          · exact hct ht)]

theorem findIdx?_get {α : Type} {p : α → Bool} {l : List α} {i : Nat}
    (h : l.findIdx? p = some i) : ∃ x, l.get? i = some x ∧ p x = true := by
  rw [List.findIdx?_eq_some_iff_getElem] at h
  obtain ⟨hlt, hp, -⟩ := h
  exact ⟨l[i], by rw [List.get?_eq_getElem?]; exact List.getElem?_eq_getElem hlt, hp⟩

theorem advanceTurn_cards {t t' : GameState} (h : advanceTurn t = some t')
    (hdr : t.drawnCards = []) :
    t'.config = t.config ∧ ∀ c, charTotal t' c = charTotal t c := by
  by_cases hph : t.phase = GamePhase.GameOver
  · unfold advanceTurn at h
    rw [if_pos hph] at h
    simp only [Option.some.injEq] at h
    subst h
    exact ⟨rfl, fun c => rfl⟩
  · obtain ⟨-, hpl, hcd, -, -, -, hdr', -, -, -, -, -, hcfg⟩ := advanceTurn_spec h hph
    refine ⟨hcfg, fun c => ?_⟩
    unfold charTotal handCount
    rw [hpl, hcd, hdr', hdr]

theorem checkPlayerElimination_cards {s s' : GameState} {pid : String}
    (h : checkPlayerElimination s pid = some s') :
    s'.config = s.config ∧ s'.courtDeck = s.courtDeck ∧ s'.drawnCards = s.drawnCards
    ∧ ∀ c, charTotal s' c = charTotal s c := by
  unfold checkPlayerElimination at h
  simp only [Option.pure_def, Option.bind_eq_bind, Option.bind_eq_some] at h
  obtain ⟨player, hp, h⟩ := h
  split at h
  · simp only [Option.some.injEq] at h
    subst h
    obtain ⟨-, -, -, -, hcfg, -, -, hcd, hdr, -, -, -⟩ := checkGameOver_fields
      { s with players := s.players.map fun p =>
          if p.id = pid then { p with isEliminated := true } else p }
    refine ⟨hcfg, hcd, hdr, fun c => ?_⟩
    refine charTotal_map
      (fun p => if p.id = pid then { p with isEliminated := true } else p) c ?_ ?_ hcd hdr
    · intro p
      show inflCount (if p.id = pid then { p with isEliminated := true } else p) c
        = inflCount p c
      unfold inflCount
      by_cases hx : p.id = pid
      · rw [if_pos hx]
      · rw [if_neg hx]
    · rw [checkGameOver_players]
  · simp only [Option.some.injEq] at h
    subst h
    exact ⟨rfl, rfl, rfl, fun c => rfl⟩

theorem loseInfluence_cards {s s' : GameState} {pid : String} {i : Nat}
    (h : loseInfluence s pid i = some s') :
    s'.config = s.config ∧ s'.courtDeck = s.courtDeck ∧ s'.drawnCards = s.drawnCards
    ∧ ∀ c, charTotal s' c = charTotal s c := by
  unfold loseInfluence at h
  simp only [Option.pure_def, Option.bind_eq_bind, Option.bind_eq_some] at h
  obtain ⟨player, hp, card, hcard, h⟩ := h
  split at h
  · simp at h
  · obtain ⟨hcfg, hcd, hdr, htot⟩ := checkPlayerElimination_cards h
    refine ⟨hcfg, hcd, hdr, fun c => ?_⟩
    rw [htot c]
    refine charTotal_map
      (fun p => if p.id = pid then
        { p with influenceCards := p.influenceCards.mapIdx fun j x =>
            if j = i then { x with isRevealed := true } else x }
        else p) c ?_ rfl rfl rfl
    intro p
    show inflCount (if p.id = pid then
        { p with influenceCards := p.influenceCards.mapIdx fun j x =>
            if j = i then { x with isRevealed := true } else x }
        else p) c = inflCount p c
    unfold inflCount
    by_cases hx : p.id = pid
    · rw [if_pos hx]
      exact mapIdx_filter_pres (fun x => by simp) p.influenceCards i
    · rw [if_neg hx]

theorem replaceRevealedCard_cards {sh : List Character → List Character}
    (hperm : ∀ l, (sh l).Perm l) {s s' : GameState} {pid : String} {cc : Character}
    (hnd : (s.players.map (·.id)).Nodup)
    (h : replaceRevealedCard sh s pid cc = some s') :
    s'.config = s.config ∧ s'.drawnCards = s.drawnCards
    ∧ ∀ c, charTotal s' c = charTotal s c := by
  unfold replaceRevealedCard at h
  simp only [Option.pure_def, Option.bind_eq_bind, Option.bind_eq_some] at h
  obtain ⟨player, hp, h⟩ := h
  cases hfi : player.influenceCards.findIdx?
      (fun c => c.character = cc ∧ !c.isRevealed) with
  | none =>
    rw [hfi] at h
    simp only [Option.some.injEq] at h
    subst h
    exact ⟨rfl, rfl, fun c => rfl⟩
  | some cardIdx =>
    rw [hfi] at h
    simp only [Option.bind_eq_some] at h
    obtain ⟨⟨newCard, newDeck⟩, hpop, h⟩ := h
    simp only [Option.some.injEq] at h
    subst h
    refine ⟨rfl, rfl, fun c => ?_⟩
    obtain ⟨card, hgot, hprop⟩ := findIdx?_get hfi
    have hcardc : card.character = cc := by
      simp only [Bool.and_eq_true, decide_eq_true_eq] at hprop
      exact hprop.1
    have hdeck : countC newDeck c + (if newCard = c then 1 else 0)
        = countC s.courtDeck c + (if cc = c then 1 else 0) := by
      have h1 := popCard_count hpop c
      have h2 : countC (sh (s.courtDeck ++ [cc])) c
          = countC s.courtDeck c + (if cc = c then 1 else 0) := by
        rw [countC_perm (hperm _) c, countC_append, countC_singleton]
      omega
    have hhand : ((player.influenceCards.mapIdx fun j x =>
          if j = cardIdx then { character := newCard, isRevealed := false } else x).filter
            (fun ic => ic.character = c)).length
          + (if cc = c then 1 else 0)
        = (player.influenceCards.filter (fun ic => ic.character = c)).length
          + (if newCard = c then 1 else 0) := by
      have h3 : ((player.influenceCards.mapIdx fun j x =>
            if j = cardIdx then { character := newCard, isRevealed := false } else x).filter
              (fun ic => ic.character = c)).length
            + (if card.character = c then 1 else 0)
          = (player.influenceCards.filter (fun ic => ic.character = c)).length
            + (if newCard = c then 1 else 0) :=
        mapIdx_count_repl c { character := newCard, isRevealed := false }
          player.influenceCards cardIdx card hgot
      rw [hcardc] at h3
      exact h3
    have hsum : ((s.players.map fun p => if p.id = pid then
          { p with influenceCards := p.influenceCards.mapIdx (fun j x =>
              if j = cardIdx then { character := newCard, isRevealed := false } else x) }
          else p).map (fun p => inflCount p c)).sum + inflCount player c
        = (s.players.map (fun p => inflCount p c)).sum
          + ((player.influenceCards.mapIdx fun j x =>
              if j = cardIdx then { character := newCard, isRevealed := false } else x).filter
                (fun ic => ic.character = c)).length :=
      sum_map_update_nodup _ _ hnd (getPlayerById_mem hp).1 (getPlayerById_mem hp).2
    have hpl : inflCount player c
        = (player.influenceCards.filter (fun ic => ic.character = c)).length := rfl
    simp only [charTotal, handCount]
    omega

theorem replaceFold_cards {sh : List Character → List Character}
    (hperm : ∀ l, (sh l).Perm l) {pid : String} {cc : Character} :
    ∀ (l : List Nat) {s s' : GameState}, StateInv s → s.phase ≠ GamePhase.GameOver →
    l.foldlM (fun st _ => replaceRevealedCard sh st pid cc) s = some s' →
    s'.config = s.config ∧ s'.drawnCards = s.drawnCards
    ∧ ∀ c, charTotal s' c = charTotal s c
  | [], s, s', _, _, h => by
    simp only [List.foldlM_nil, Option.pure_def, Option.some.injEq] at h
    subst h
    exact ⟨rfl, rfl, fun c => rfl⟩
  | n :: rest, s, s', hInv, hph, h => by
    simp only [List.foldlM_cons, Option.pure_def, Option.bind_eq_bind,
      Option.bind_eq_some] at h
    obtain ⟨s1, h1, h2⟩ := h
    obtain ⟨hInv1, hph1, -⟩ := replaceRevealedCard_inv hInv hph h1
    have hph1' : s1.phase ≠ GamePhase.GameOver := by rw [hph1]; exact hph
    obtain ⟨hc1, hd1, ht1⟩ := replaceRevealedCard_cards hperm hInv.1 h1
    obtain ⟨hc2, hd2, ht2⟩ := replaceFold_cards hperm rest hInv1 hph1' h2
    exact ⟨hc2.trans hc1, hd2.trans hd1, fun c => (ht2 c).trans (ht1 c)⟩

theorem loseAllLoop_cards {rid : String} :
    ∀ (n : Nat) {s s' : GameState}, s.drawnCards = [] →
    loseAllLoop rid n s = some s' →
    s'.config = s.config ∧ ∀ c, charTotal s' c = charTotal s c
  | 0, s, s', hdr, h => by
    unfold loseAllLoop at h
    obtain ⟨hcfg, htot⟩ := advanceTurn_cards h hdr
    exact ⟨hcfg, fun c => (htot c).trans rfl⟩
  | n + 1, s, s', hdr, h => by
    unfold loseAllLoop at h
    simp only [Option.pure_def, Option.bind_eq_bind, Option.bind_eq_some] at h
    obtain ⟨r, hr, h⟩ := h
    cases hfi : r.influenceCards.findIdx? (fun c => !c.isRevealed) with
    | none =>
      rw [hfi] at h
      simp only [Option.bind_eq_some, Option.some.injEq] at h
      obtain ⟨s1, hs1, h⟩ := h
      subst hs1
      split at h
      · simp only [Option.some.injEq] at h
        subst h
        exact ⟨rfl, fun c => rfl⟩
      · exact loseAllLoop_cards n hdr h
    | some idx =>
      rw [hfi] at h
      simp only [Option.bind_eq_some] at h
      obtain ⟨s1, hs1, h⟩ := h
      obtain ⟨hc1, -, hd1, ht1⟩ := loseInfluence_cards hs1
      split at h
      · simp only [Option.some.injEq] at h
        subst h
        exact ⟨hc1, ht1⟩
      · obtain ⟨hc2, ht2⟩ := loseAllLoop_cards n (hd1.trans hdr) h
        exact ⟨hc2.trans hc1, fun c => (ht2 c).trans (ht1 c)⟩

/-- A roster map that leaves every hand unchanged preserves `charTotal`. -/
theorem charTotal_map_hand {s t : GameState} (f : Player → Player) (c : Character)
    (hf : ∀ p, (f p).influenceCards = p.influenceCards)
    (hpl : t.players = s.players.map f) (hd : t.courtDeck = s.courtDeck)
    (hdr : t.drawnCards = s.drawnCards) :
    charTotal t c = charTotal s c :=
  charTotal_map f c (fun p => by unfold inflCount; rw [hf p]) hpl hd hdr

theorem resolveAction_cards {sh : List Character → List Character}
    (hperm : ∀ l, (sh l).Perm l) {s s' : GameState}
    (hnd : (s.players.map (·.id)).Nodup) (hdr : s.drawnCards = [])
    (h : resolveAction sh s = some s') :
    s'.config = s.config ∧ ∀ c, charTotal s' c = charTotal s c := by
  unfold resolveAction at h
  cases hpa : s.pendingAction with
  | none => rw [hpa] at h; simp at h
  | some a =>
    rw [hpa] at h
    simp only [Option.pure_def, Option.bind_eq_bind, Option.some_bind] at h
    cases hac : getPlayerById s a.sourcePlayerId with
    | none => rw [hac] at h; simp at h
    | some actor =>
      rw [hac] at h
      simp only [Option.some_bind] at h
      split at h
      · -- Income
        obtain ⟨hcfg, htot⟩ := advanceTurn_cards h hdr
        refine ⟨hcfg, fun c => (htot c).trans (charTotal_map_hand _ c ?_ rfl rfl rfl)⟩
        intro p
        by_cases hx : p.id = actor.id <;> simp [hx]
      · -- ForeignAid
        obtain ⟨hcfg, htot⟩ := advanceTurn_cards h hdr
        refine ⟨hcfg, fun c => (htot c).trans (charTotal_map_hand _ c ?_ rfl rfl rfl)⟩
        intro p
        by_cases hx : p.id = actor.id <;> simp [hx]
      · -- Coup
        cases htgt : a.targetPlayerId with
        | none => rw [htgt] at h; simp at h
        | some tid =>
          rw [htgt] at h
          simp only [Option.some_bind] at h
          cases hct : getPlayerById s tid with
          | none => rw [hct] at h; simp at h
          | some coupTarget =>
            rw [hct] at h
            simp only [Option.some_bind] at h
            split at h
            · simp only [Option.some.injEq] at h
              subst h
              exact ⟨rfl, fun c => rfl⟩
            · split at h
              · cases hidx : coupTarget.influenceCards.findIdx? (fun c => !c.isRevealed) with
                | none => rw [hidx] at h; simp at h
                | some idx =>
                  rw [hidx] at h
                  simp only [Option.some_bind] at h
                  cases hlost : loseInfluence s tid idx with
                  | none => rw [hlost] at h; simp at h
                  | some lost =>
                    rw [hlost] at h
                    simp only [Option.some_bind] at h
                    obtain ⟨hc1, -, hd1, ht1⟩ := loseInfluence_cards hlost
                    obtain ⟨hc2, ht2⟩ := advanceTurn_cards h (hd1.trans hdr)
                    exact ⟨hc2.trans hc1, fun c => (ht2 c).trans (ht1 c)⟩
              · simp only [Option.some.injEq] at h
                subst h
                exact ⟨rfl, fun c => rfl⟩
      · -- Tax
        obtain ⟨hcfg, htot⟩ := advanceTurn_cards h hdr
        refine ⟨hcfg, fun c => (htot c).trans (charTotal_map_hand _ c ?_ rfl rfl rfl)⟩
        intro p
        by_cases hx : p.id = actor.id <;> simp [hx]
      · -- SpeculatorTax
        obtain ⟨hcfg, htot⟩ := advanceTurn_cards h hdr
        refine ⟨hcfg, fun c => (htot c).trans (charTotal_map_hand _ c ?_ rfl rfl rfl)⟩
        intro p
        by_cases hx : p.id = actor.id <;> simp [hx]
      · -- BureaucratTax
        cases htgt : a.targetPlayerId with
        | none => rw [htgt] at h; simp at h
        | some tid =>
          rw [htgt] at h
          simp only [Option.some_bind] at h
          cases hct : getPlayerById s tid with
          | none => rw [hct] at h; simp at h
          | some tp =>
            rw [hct] at h
            simp only [Option.some_bind] at h
            obtain ⟨hcfg, htot⟩ := advanceTurn_cards h hdr
            refine ⟨hcfg, fun c => (htot c).trans (charTotal_map_hand _ c ?_ rfl rfl rfl)⟩
            intro p
            by_cases h1 : p.id = actor.id
            · simp [h1]
            · rw [if_neg h1]
              by_cases h2 : p.id = tid
              · rw [if_pos h2]
              · rw [if_neg h2]
      · -- Assassinate
        cases htgt : a.targetPlayerId with
        | none => rw [htgt] at h; simp at h
        | some tid =>
          rw [htgt] at h
          simp only [Option.some_bind] at h
          cases hct : getPlayerById s tid with
          | none => rw [hct] at h; simp at h
          | some target =>
            rw [hct] at h
            simp only [Option.some_bind] at h
            split at h
            · exact advanceTurn_cards h hdr
            · split at h
              · cases hidx : target.influenceCards.findIdx? (fun c => !c.isRevealed) with
                | none => rw [hidx] at h; simp at h
                | some idx =>
                  rw [hidx] at h
                  simp only [Option.some_bind] at h
                  cases hlost : loseInfluence s tid idx with
                  | none => rw [hlost] at h; simp at h
                  | some lost =>
                    rw [hlost] at h
                    simp only [Option.some_bind] at h
                    obtain ⟨hc1, -, hd1, ht1⟩ := loseInfluence_cards hlost
                    obtain ⟨hc2, ht2⟩ := advanceTurn_cards h (hd1.trans hdr)
                    exact ⟨hc2.trans hc1, fun c => (ht2 c).trans (ht1 c)⟩
              · simp only [Option.some.injEq] at h
                subst h
                exact ⟨rfl, fun c => rfl⟩
      · -- Steal
        cases htgt : a.targetPlayerId with
        | none => rw [htgt] at h; simp at h
        | some tid =>
          rw [htgt] at h
          simp only [Option.some_bind] at h
          cases hct : getPlayerById s tid with
          | none => rw [hct] at h; simp at h
          | some target =>
            rw [hct] at h
            simp only [Option.some_bind] at h
            obtain ⟨hcfg, htot⟩ := advanceTurn_cards h hdr
            refine ⟨hcfg, fun c => (htot c).trans (charTotal_map_hand _ c ?_ rfl rfl rfl)⟩
            intro p
            by_cases h1 : p.id = actor.id
            · simp [h1]
            · rw [if_neg h1]
              by_cases h2 : p.id = tid
              · rw [if_pos h2]
              · rw [if_neg h2]
      · -- Exchange
        rcases hdc : drawCards (getAliveInfluence actor).length
            (sh (s.courtDeck ++ (getAliveInfluence actor).map (·.character)))
          with ⟨newCards, newDeck⟩
        rw [hdc] at h
        obtain ⟨hcfg, htot⟩ := advanceTurn_cards h hdr
        refine ⟨hcfg, fun c => (htot c).trans ?_⟩
        have hsum : ((s.players.map fun p => if p.id = actor.id then
              { p with influenceCards :=
                  newCards.map (fun ch => { character := ch, isRevealed := false : InfluenceCard })
                    ++ actor.influenceCards.filter (·.isRevealed) }
              else p).map (fun p => inflCount p c)).sum + inflCount actor c
            = (s.players.map (fun p => inflCount p c)).sum
              + ((newCards.map (fun ch => { character := ch, isRevealed := false : InfluenceCard })
                  ++ actor.influenceCards.filter (·.isRevealed)).filter
                    (fun ic => ic.character = c)).length :=
          sum_map_update_nodup _ _ hnd (getPlayerById_mem hac).1 rfl
        have h1 : ((newCards.map (fun ch => { character := ch, isRevealed := false : InfluenceCard })
              ++ actor.influenceCards.filter (·.isRevealed)).filter
                (fun ic => ic.character = c)).length
            = countC newCards c
              + ((actor.influenceCards.filter (·.isRevealed)).filter
                  (fun ic => ic.character = c)).length := by
          rw [List.filter_append, List.length_append, mk_unrevealed_count]
        have h2 : ((getAliveInfluence actor).filter (fun ic => ic.character = c)).length
              + ((actor.influenceCards.filter (·.isRevealed)).filter
                  (fun ic => ic.character = c)).length
            = (actor.influenceCards.filter (fun ic => ic.character = c)).length :=
          filter_rev_partition actor.influenceCards c
        have h3 : countC ((getAliveInfluence actor).map (·.character)) c
            = ((getAliveInfluence actor).filter (fun ic => ic.character = c)).length :=
          map_character_count _ c
        have h4 : countC newCards c + countC newDeck c
            = countC (sh (s.courtDeck ++ (getAliveInfluence actor).map (·.character))) c := by
          have h0 := drawCards_count (getAliveInfluence actor).length
            (sh (s.courtDeck ++ (getAliveInfluence actor).map (·.character))) c
          rw [hdc] at h0
          exact h0
        have h5 : countC (sh (s.courtDeck ++ (getAliveInfluence actor).map (·.character))) c
            = countC s.courtDeck c + countC ((getAliveInfluence actor).map (·.character)) c := by
          rw [countC_perm (hperm _) c, countC_append]
        have hpl : inflCount actor c
            = (actor.influenceCards.filter (fun ic => ic.character = c)).length := rfl
        simp only [charTotal, handCount]
        omega
      · -- Examine
        simp only [Option.some.injEq] at h
        subst h
        exact ⟨rfl, fun c => rfl⟩
      · -- InquisitorSelfExchange
        cases hpop : popCard s.courtDeck with
        | some pr =>
          obtain ⟨c0, rest⟩ := pr
          rw [hpop] at h
          simp only [Option.some.injEq] at h
          subst h
          refine ⟨rfl, fun c => ?_⟩
          simp only [charTotal, handCount]
          have h1 := popCard_count hpop c
          rw [hdr]
          have h2 : countC ([] : List Character) c = 0 := rfl
          have h3 : countC [c0] c = if c0 = c then 1 else 0 := countC_singleton c0 c
          omega
        | none =>
          rw [hpop] at h
          simp only [Option.some.injEq] at h
          subst h
          refine ⟨rfl, fun c => ?_⟩
          simp only [charTotal, handCount]
          rw [hdr]
      · -- SocialistRedistribute
        obtain ⟨hcfg, htot⟩ := advanceTurn_cards h hdr
        refine ⟨hcfg, fun c => (htot c).trans (charTotal_map_hand
          ((fun p => if p.id = actor.id then { p with coins := p.coins + min 1 (((s.players.filter fun q => ¬(q.id = actor.id ∨ q.isEliminated)).map (fun q => min 1 q.coins)).sum) } else p) ∘ (fun p => if p.id = actor.id ∨ p.isEliminated then p else { p with coins := p.coins - min 1 p.coins }))
          c ?_ (by rw [← List.map_map]) rfl rfl)⟩
        intro p
        simp only [Function.comp]
        by_cases h1 : p.id = actor.id ∨ p.isEliminated = true
        · rw [if_pos h1]
          by_cases h2 : p.id = actor.id
          · rw [if_pos h2]
          · rw [if_neg h2]
        · rw [if_neg h1]
          by_cases h2 : p.id = actor.id
          · rw [if_pos h2]
          · rw [if_neg h2]
      · -- default: Convert / Embezzle
        exact advanceTurn_cards h hdr

/-- `resolveAction_cards` with the run hypothesis first, for applications to
record-literal intermediate states. -/
theorem resolveAction_cards' {sh : List Character → List Character}
    {s s' : GameState} (h : resolveAction sh s = some s')
    (hperm : ∀ l, (sh l).Perm l) (hnd : (s.players.map (·.id)).Nodup)
    (hdr : s.drawnCards = []) :
    s'.config = s.config ∧ ∀ c, charTotal s' c = charTotal s c :=
  resolveAction_cards hperm hnd hdr h

theorem declareAction_cards {sh : List Character → List Character}
    (hperm : ∀ l, (sh l).Perm l) {s s' : GameState} {a : GameAction}
    (hInv : StateInv s) (hph : s.phase ≠ GamePhase.GameOver) (hdr : s.drawnCards = [])
    (h : declareAction sh s a = some s') :
    s'.config = s.config ∧ ∀ c, charTotal s' c = charTotal s c := by
  unfold declareAction at h
  simp only [Option.pure_def, Option.bind_eq_bind] at h
  cases hpl : getPlayerById s a.sourcePlayerId with
  | none => rw [hpl] at h; simp at h
  | some player =>
    rw [hpl] at h
    simp only [Option.some_bind] at h
    have hde : declareAction.declareActionAfterLog sh s a player = some s' := by
      cases htgt : a.targetPlayerId with
      | none => rw [htgt] at h; exact h
      | some t =>
        rw [htgt] at h
        simp only [Option.bind_eq_bind] at h
        cases htl : getPlayerById s t with
        | none => rw [htl] at h; simp at h
        | some tp => rw [htl] at h; simpa using h
    clear h
    have hnd2 : ((s.players.map (fun p => if p.id = player.id
        then { p with coins := p.coins - engineActionCost a.type } else p)).map
          (·.id)).Nodup := by
      rw [List.map_map]
      have heq : s.players.map ((·.id) ∘ (fun p => if p.id = player.id
          then { p with coins := p.coins - engineActionCost a.type } else p))
          = s.players.map (·.id) :=
        List.map_congr_left (fun p _ => by by_cases hx : p.id = player.id <;> simp [hx])
      rw [heq]
      exact hInv.1
    by_cases hc : engineActionCost a.type > 0 <;>
      by_cases hch : isActionChallengeable a.type = true <;>
        by_cases hb : isActionBlockable a.type s.config.enabledCharacters = true <;>
          simp only [declareAction.declareActionAfterLog, hc, hch, hb, if_pos, if_neg,
            if_true, if_false, Bool.false_eq_true, not_false_eq_true, not_true,
            Option.some.injEq] at hde <;>
          first
          | (subst hde
             exact ⟨rfl, fun c => rfl⟩)
          | (subst hde
             refine ⟨rfl, fun c => charTotal_map_hand _ c ?_ rfl rfl rfl⟩
             intro p
             by_cases hx : p.id = player.id <;> simp [hx])
          | (obtain ⟨hcfg, htot⟩ := resolveAction_cards' hde hperm hInv.1 hdr
             exact ⟨hcfg, fun c => (htot c).trans rfl⟩)
          | (obtain ⟨hcfg, htot⟩ := resolveAction_cards' hde hperm hnd2 hdr
             refine ⟨hcfg, fun c => (htot c).trans
               (charTotal_map_hand _ c ?_ rfl rfl rfl)⟩
             intro p
             by_cases hx : p.id = player.id <;> simp [hx])

theorem declareBlock_cards {s s' : GameState} {bid : String} {c0 : Character}
    (h : declareBlock s bid c0 = some s') :
    s'.config = s.config ∧ ∀ c, charTotal s' c = charTotal s c := by
  unfold declareBlock at h
  cases hpa : s.pendingAction with
  | none => rw [hpa] at h; simp at h
  | some a =>
    rw [hpa] at h
    simp only [Option.pure_def, Option.bind_eq_bind, Option.some_bind] at h
    cases hbl : getPlayerById s bid with
    | none => rw [hbl] at h; simp at h
    | some blocker =>
      rw [hbl] at h
      simp only [Option.some_bind, Option.some.injEq] at h
      subst h
      exact ⟨rfl, fun c => rfl⟩

theorem passChallenge_cards {sh : List Character → List Character}
    (hperm : ∀ l, (sh l).Perm l) {s s' : GameState} {pid : String}
    (hInv : StateInv s) (hdr : s.drawnCards = [])
    (h : passChallenge sh s pid = some s') :
    s'.config = s.config ∧ ∀ c, charTotal s' c = charTotal s c := by
  simp only [passChallenge] at h
  by_cases hlen : (s.respondedPlayerIds ++ [pid]).length ≥ (passResponders s).length
  · rw [if_pos hlen] at h
    by_cases hpc : s.phase = GamePhase.AwaitingChallengeOnAction
    · rw [if_pos hpc] at h
      cases hpa : s.pendingAction with
      | none => rw [hpa] at h; simp at h
      | some a =>
        rw [hpa] at h
        simp only [Option.pure_def, Option.bind_eq_bind, Option.some_bind] at h
        split at h
        · simp only [Option.some.injEq] at h
          subst h
          exact ⟨rfl, fun c => rfl⟩
        · exact resolveAction_cards hperm hInv.1 hdr h
    · rw [if_neg hpc] at h
      by_cases hpb : s.phase = GamePhase.AwaitingChallengeOnBlock
      · rw [if_pos hpb] at h
        exact advanceTurn_cards h hdr
      · rw [if_neg hpb] at h
        simp only [Option.some.injEq] at h
        subst h
        exact ⟨rfl, fun c => rfl⟩
  · rw [if_neg hlen] at h
    simp only [Option.some.injEq] at h
    subst h
    exact ⟨rfl, fun c => rfl⟩

theorem passBlock_cards {sh : List Character → List Character}
    (hperm : ∀ l, (sh l).Perm l) {s s' : GameState} {pid : String}
    (hInv : StateInv s) (hdr : s.drawnCards = [])
    (h : passBlock sh s pid = some s') :
    s'.config = s.config ∧ ∀ c, charTotal s' c = charTotal s c := by
  simp only [passBlock] at h
  split at h
  · exact resolveAction_cards hperm hInv.1 hdr h
  · simp only [Option.some.injEq] at h
    subst h
    exact ⟨rfl, fun c => rfl⟩

theorem challengeAction_cards {sh : List Character → List Character}
    (hperm : ∀ l, (sh l).Perm l) {s s' : GameState} {cid : String}
    (hInv : StateInv s) (hph : s.phase ≠ GamePhase.GameOver) (hdr : s.drawnCards = [])
    (h : challengeAction sh s cid = some s') :
    s'.config = s.config ∧ ∀ c, charTotal s' c = charTotal s c := by
  unfold challengeAction at h
  simp only [Option.pure_def, Option.bind_eq_bind] at h
  cases hpa : s.pendingAction with
  | none => rw [hpa] at h; simp at h
  | some act =>
    rw [hpa] at h
    simp only [Option.some_bind] at h
    cases hch : getPlayerById s cid with
    | none => rw [hch] at h; simp at h
    | some challenger =>
      rw [hch] at h
      simp only [Option.some_bind] at h
      cases hac : getPlayerById s act.sourcePlayerId with
      | none => rw [hac] at h; simp at h
      | some actor =>
        rw [hac] at h
        simp only [Option.some_bind] at h
        cases hcc : act.claimedCharacter with
        | none => rw [hcc] at h; simp at h
        | some cc =>
          rw [hcc] at h
          simp only [Option.some_bind] at h
          split at h
          · cases hrs : replaceRevealedCard sh s actor.id cc with
            | none => rw [hrs] at h; simp at h
            | some ns =>
              rw [hrs] at h
              simp only [Option.some_bind] at h
              obtain ⟨hInvNs, hphEq, -⟩ := replaceRevealedCard_inv hInv hph hrs
              have hphNs : ns.phase ≠ GamePhase.GameOver := by
                rw [hphEq]; exact hph
              obtain ⟨hcN, hdN, htN⟩ := replaceRevealedCard_cards hperm hInv.1 hrs
              have hdrN : ns.drawnCards = [] := hdN.trans hdr
              cases hchal : getPlayerById ns cid with
              | none => rw [hchal] at h; simp at h
              | some chal =>
                rw [hchal] at h
                simp only [Option.some_bind] at h
                split at h
                · cases hfi : chal.influenceCards.findIdx? (fun c => !c.isRevealed) with
                  | none => rw [hfi] at h; simp at h
                  | some idx =>
                    rw [hfi] at h
                    simp only [Option.some_bind] at h
                    cases hlo : loseInfluence ns cid idx with
                    | none => rw [hlo] at h; simp at h
                    | some ns2 =>
                      rw [hlo] at h
                      simp only [Option.some_bind] at h
                      have hInv2 := (loseInfluence_inv hInvNs hphNs hlo).1
                      obtain ⟨hc2, -, hd2, ht2⟩ := loseInfluence_cards hlo
                      have hdr2 : ns2.drawnCards = [] := hd2.trans hdrN
                      split at h
                      · simp only [Option.some.injEq] at h
                        subst h
                        exact ⟨hc2.trans hcN, fun c => (ht2 c).trans (htN c)⟩
                      · split at h
                        · obtain ⟨hc3, ht3⟩ :=
                            resolveAction_cards hperm hInv2.1 hdr2 h
                          exact ⟨(hc3.trans hc2).trans hcN,
                            fun c => ((ht3 c).trans (ht2 c)).trans (htN c)⟩
                        · split at h
                          · simp only [Option.some.injEq] at h
                            subst h
                            exact ⟨hc2.trans hcN,
                              fun c => (ht2 c).trans (htN c)⟩
                          · obtain ⟨hc3, ht3⟩ :=
                              resolveAction_cards hperm hInv2.1 hdr2 h
                            exact ⟨(hc3.trans hc2).trans hcN,
                              fun c => ((ht3 c).trans (ht2 c)).trans (htN c)⟩
                · simp only [Option.some.injEq] at h
                  subst h
                  exact ⟨hcN, htN⟩
          · cases ha2 : getPlayerById
                { s with pendingAction := some act,
                         cardSelectionReason := some CardSelectionReason.challengePenalty }
                actor.id with
            | none => rw [ha2] at h; simp at h
            | some actor2 =>
              rw [ha2] at h
              simp only [Option.some_bind] at h
              split at h
              · cases hfi : actor2.influenceCards.findIdx? (fun c => !c.isRevealed) with
                | none => rw [hfi] at h; simp at h
                | some idx =>
                  rw [hfi] at h
                  simp only [Option.some_bind] at h
                  cases hlo : loseInfluence
                      { s with pendingAction := some act,
                               cardSelectionReason := some CardSelectionReason.challengePenalty }
                      actor.id idx with
                  | none => rw [hlo] at h; simp at h
                  | some ns2 =>
                    rw [hlo] at h
                    simp only [Option.some_bind] at h
                    obtain ⟨hc2, -, hd2, ht2⟩ := loseInfluence_cards hlo
                    obtain ⟨hc3, ht3⟩ := advanceTurn_cards h (hd2.trans hdr)
                    exact ⟨hc3.trans hc2, fun c => (ht3 c).trans (ht2 c)⟩
              · simp only [Option.some.injEq] at h
                subst h
                exact ⟨rfl, fun c => rfl⟩

theorem challengeBlock_cards {sh : List Character → List Character}
    (hperm : ∀ l, (sh l).Perm l) {s s' : GameState} {cid : String}
    (hInv : StateInv s) (hph : s.phase ≠ GamePhase.GameOver) (hdr : s.drawnCards = [])
    (h : challengeBlock sh s cid = some s') :
    s'.config = s.config ∧ ∀ c, charTotal s' c = charTotal s c := by
  unfold challengeBlock at h
  simp only [Option.pure_def, Option.bind_eq_bind] at h
  cases hpb : s.pendingBlock with
  | none => rw [hpb] at h; simp at h
  | some pb =>
    rw [hpb] at h
    simp only [Option.some_bind] at h
    cases hch : getPlayerById s cid with
    | none => rw [hch] at h; simp at h
    | some challenger =>
      rw [hch] at h
      simp only [Option.some_bind] at h
      cases hbl : getPlayerById s pb.blockingPlayerId with
      | none => rw [hbl] at h; simp at h
      | some blocker =>
        rw [hbl] at h
        simp only [Option.some_bind] at h
        split at h
        · cases hrs : replaceRevealedCard sh s blocker.id pb.claimedCharacter with
          | none => rw [hrs] at h; simp at h
          | some ns =>
            rw [hrs] at h
            simp only [Option.some_bind] at h
            obtain ⟨hcN, hdN, htN⟩ := replaceRevealedCard_cards hperm hInv.1 hrs
            cases hchal : getPlayerById ns cid with
            | none => rw [hchal] at h; simp at h
            | some chal =>
              rw [hchal] at h
              simp only [Option.some_bind] at h
              split at h
              · cases hfi : chal.influenceCards.findIdx? (fun c => !c.isRevealed) with
                | none => rw [hfi] at h; simp at h
                | some idx =>
                  rw [hfi] at h
                  simp only [Option.some_bind] at h
                  cases hlo : loseInfluence ns cid idx with
                  | none => rw [hlo] at h; simp at h
                  | some ns2 =>
                    rw [hlo] at h
                    simp only [Option.some_bind] at h
                    obtain ⟨hc2, -, hd2, ht2⟩ := loseInfluence_cards hlo
                    obtain ⟨hc3, ht3⟩ := advanceTurn_cards h
                      (hd2.trans (hdN.trans hdr))
                    exact ⟨(hc3.trans hc2).trans hcN,
                      fun c => ((ht3 c).trans (ht2 c)).trans (htN c)⟩
              · simp only [Option.some.injEq] at h
                subst h
                exact ⟨hcN, htN⟩
        · cases hb2 : getPlayerById
              { s with pendingBlock := some pb,
                       cardSelectionReason := some CardSelectionReason.challengePenalty }
              blocker.id with
          | none => rw [hb2] at h; simp at h
          | some blk =>
            rw [hb2] at h
            simp only [Option.some_bind] at h
            have hInvNs : StateInv
                { s with pendingBlock := some pb,
                         cardSelectionReason := some CardSelectionReason.challengePenalty } :=
              stateInv_record hInv hph rfl hph (Or.inl rfl)
            split at h
            · cases hfi : blk.influenceCards.findIdx? (fun c => !c.isRevealed) with
              | none => rw [hfi] at h; simp at h
              | some idx =>
                rw [hfi] at h
                simp only [Option.some_bind] at h
                cases hlo : loseInfluence
                    { s with pendingBlock := some pb,
                             cardSelectionReason := some CardSelectionReason.challengePenalty }
                    blocker.id idx with
                | none => rw [hlo] at h; simp at h
                | some ns2 =>
                  rw [hlo] at h
                  simp only [Option.some_bind] at h
                  have hInv2 := (loseInfluence_inv hInvNs hph hlo).1
                  obtain ⟨hc2, -, hd2, ht2⟩ := loseInfluence_cards hlo
                  have hdr2 : ns2.drawnCards = [] := hd2.trans hdr
                  split at h
                  · simp only [Option.some.injEq] at h
                    subst h
                    exact ⟨hc2, ht2⟩
                  · obtain ⟨hc3, ht3⟩ := resolveAction_cards hperm hInv2.1 hdr2 h
                    exact ⟨hc3.trans hc2, fun c => (ht3 c).trans (ht2 c)⟩
            · simp only [Option.some.injEq] at h
              subst h
              exact ⟨rfl, fun c => rfl⟩

theorem declareCoupRedirect_cards {s s' : GameState} {rid tid : String}
    (h : declareCoupRedirect s rid tid = some s') :
    s'.config = s.config ∧ ∀ c, charTotal s' c = charTotal s c := by
  unfold declareCoupRedirect at h
  simp only [Option.pure_def, Option.bind_eq_bind] at h
  cases hr : getPlayerById s rid with
  | none => rw [hr] at h; simp at h
  | some redirector =>
    rw [hr] at h
    simp only [Option.some_bind] at h
    cases ht : getPlayerById s tid with
    | none => rw [ht] at h; simp at h
    | some newTarget =>
      rw [ht] at h
      simp only [Option.some_bind, Option.some.injEq] at h
      subst h
      exact ⟨rfl, fun c => rfl⟩

theorem passCoupRedirect_cards {s s' : GameState} {pid : String}
    (hdr : s.drawnCards = [])
    (h : passCoupRedirect s pid = some s') :
    s'.config = s.config ∧ ∀ c, charTotal s' c = charTotal s c := by
  unfold passCoupRedirect at h
  simp only [Option.pure_def, Option.bind_eq_bind] at h
  cases hp : getPlayerById s pid with
  | none => rw [hp] at h; simp at h
  | some player =>
    rw [hp] at h
    simp only [Option.some_bind] at h
    cases hpa : s.pendingAction with
    | none => rw [hpa] at h; simp at h
    | some act =>
      rw [hpa] at h
      simp only [Option.some_bind] at h
      split at h
      · cases hfi : player.influenceCards.findIdx? (fun c => !c.isRevealed) with
        | none => rw [hfi] at h; simp at h
        | some idx =>
          rw [hfi] at h
          simp only [Option.some_bind] at h
          cases hlo : loseInfluence { s with
              pendingAction := some { act with redirectDeclined := some true },
              coupRedirectChain := [],
              coupRedirectSourceId := none } pid idx with
          | none => rw [hlo] at h; simp at h
          | some ns2 =>
            rw [hlo] at h
            simp only [Option.some_bind] at h
            obtain ⟨hc2, -, hd2, ht2⟩ := loseInfluence_cards hlo
            obtain ⟨hc3, ht3⟩ := advanceTurn_cards h (hd2.trans hdr)
            exact ⟨hc3.trans hc2, fun c => (ht3 c).trans (ht2 c)⟩
      · simp only [Option.some.injEq] at h
        subst h
        exact ⟨rfl, fun c => rfl⟩

theorem challengeCoupRedirect_cards {sh : List Character → List Character}
    (hperm : ∀ l, (sh l).Perm l) {s s' : GameState} {cid : String}
    (hInv : StateInv s) (hph : s.phase ≠ GamePhase.GameOver) (hdr : s.drawnCards = [])
    (h : challengeCoupRedirect sh s cid = some s') :
    s'.config = s.config ∧ ∀ c, charTotal s' c = charTotal s c := by
  unfold challengeCoupRedirect at h
  simp only [Option.pure_def, Option.bind_eq_bind, Option.bind_eq_some] at h
  obtain ⟨rid, hrid, redirector, hr, challenger, hc, h⟩ := h
  by_cases hge :
      ((getAliveInfluence redirector).filter
        (fun c => c.character = Character.Jester)).length ≥
      ((s.coupRedirectChain.take (s.coupRedirectChain.length - 1)).filter
        (fun id => id = rid)).length
  · rw [if_pos hge] at h
    simp only [Option.pure_def, Option.bind_eq_bind, Option.bind_eq_some] at h
    obtain ⟨ns, hfold, chal, hchal, h⟩ := h
    obtain ⟨hInvNs, hphEq, -⟩ := replaceFold_inv _ hInv hph hfold
    have hphNs : ns.phase ≠ GamePhase.GameOver := by rw [hphEq]; exact hph
    obtain ⟨hcN, hdN, htN⟩ := replaceFold_cards hperm _ hInv hph hfold
    have hdrN : ns.drawnCards = [] := hdN.trans hdr
    by_cases hlen : (getAliveInfluence chal).length = 1
    · rw [if_pos hlen] at h
      simp only [Option.pure_def, Option.bind_eq_bind, Option.bind_eq_some] at h
      obtain ⟨idx, hfi, ns2, hlo, h⟩ := h
      obtain ⟨hc2, -, hd2, ht2⟩ := loseInfluence_cards hlo
      have hdr2 : ns2.drawnCards = [] := hd2.trans hdrN
      by_cases hgo : ns2.phase = GamePhase.GameOver
      · rw [if_pos hgo] at h
        simp only [Option.some.injEq] at h
        subst h
        exact ⟨hc2.trans hcN, fun c => (ht2 c).trans (htN c)⟩
      · rw [if_neg hgo] at h
        simp only [Option.pure_def, Option.bind_eq_bind, Option.bind_eq_some] at h
        obtain ⟨ntid, hnt, newTarget, htg, h⟩ := h
        by_cases helim : newTarget.isEliminated = true
        · rw [if_pos helim] at h
          obtain ⟨hc3, ht3⟩ := advanceTurn_cards h hdr2
          exact ⟨(hc3.trans hc2).trans hcN,
            fun c => ((ht3 c).trans (ht2 c)).trans (htN c)⟩
        · rw [if_neg helim] at h
          by_cases hjest : s.config.enabledCharacters.contains Character.Jester = true
          · rw [if_pos hjest] at h
            simp only [Option.some.injEq] at h
            subst h
            exact ⟨hc2.trans hcN, fun c => (ht2 c).trans (htN c)⟩
          · rw [if_neg hjest] at h
            by_cases hlen2 : (getAliveInfluence newTarget).length = 1
            · rw [if_pos hlen2] at h
              simp only [Option.pure_def, Option.bind_eq_bind, Option.bind_eq_some] at h
              obtain ⟨idx2, hfi2, lost, hlo2, h⟩ := h
              obtain ⟨hc4, -, hd4, ht4⟩ := loseInfluence_cards hlo2
              obtain ⟨hc5, ht5⟩ := advanceTurn_cards h (hd4.trans hdr2)
              exact ⟨((hc5.trans hc4).trans hc2).trans hcN,
                fun c => (((ht5 c).trans (ht4 c)).trans (ht2 c)).trans (htN c)⟩
            · rw [if_neg hlen2] at h
              simp only [Option.some.injEq] at h
              subst h
              exact ⟨hc2.trans hcN, fun c => (ht2 c).trans (htN c)⟩
    · rw [if_neg hlen] at h
      simp only [Option.some.injEq] at h
      subst h
      exact ⟨hcN, htN⟩
  · rw [if_neg hge] at h
    exact loseAllLoop_cards _ hdr h

theorem passCoupRedirectChallenge_cards {s s' : GameState} {pid : String}
    (hdr : s.drawnCards = [])
    (h : passCoupRedirectChallenge s pid = some s') :
    s'.config = s.config ∧ ∀ c, charTotal s' c = charTotal s c := by
  simp only [passCoupRedirectChallenge] at h
  split at h
  · simp only [Option.pure_def, Option.bind_eq_bind, Option.bind_eq_some] at h
    obtain ⟨ntid, hnt, newTarget, htg, h⟩ := h
    split at h
    · obtain ⟨hc2, ht2⟩ := advanceTurn_cards h hdr
      exact ⟨hc2, fun c => (ht2 c).trans rfl⟩
    · split at h
      · simp only [Option.some.injEq] at h
        subst h
        exact ⟨rfl, fun c => rfl⟩
      · split at h
        · simp only [Option.pure_def, Option.bind_eq_bind, Option.bind_eq_some] at h
          obtain ⟨idx, hfi, lost, hlo, h⟩ := h
          obtain ⟨hc2, -, hd2, ht2⟩ := loseInfluence_cards hlo
          obtain ⟨hc3, ht3⟩ := advanceTurn_cards h (hd2.trans hdr)
          exact ⟨hc3.trans hc2, fun c => (ht3 c).trans (ht2 c)⟩
        · simp only [Option.some.injEq] at h
          subst h
          exact ⟨rfl, fun c => rfl⟩
  · simp only [Option.some.injEq] at h
    subst h
    exact ⟨rfl, fun c => rfl⟩

theorem resolveInquisitorChoice_cards {sh : List Character → List Character}
    (hperm : ∀ l, (sh l).Perm l) {r : Nat} {s s' : GameState}
    {choice : InquisitorChoice} {t? : Option String}
    (hInv : StateInv s) (hdr : s.drawnCards = [])
    (h : resolveInquisitorChoice sh r s choice t? = some s') :
    s'.config = s.config ∧ ∀ c, charTotal s' c = charTotal s c := by
  cases choice with
  | selfExchange =>
    simp only [resolveInquisitorChoice, Option.pure_def, Option.bind_eq_bind,
      Option.bind_eq_some] at h
    obtain ⟨act, hpa, actor, hac, h⟩ := h
    obtain ⟨hcfg, htot⟩ := resolveAction_cards' h hperm hInv.1 hdr
    exact ⟨hcfg, fun c => (htot c).trans rfl⟩
  | examine =>
    simp only [resolveInquisitorChoice, Option.pure_def, Option.bind_eq_bind,
      Option.bind_eq_some] at h
    obtain ⟨act, hpa, actor, hac, tid, htid, target, htg, h⟩ := h
    split at h
    · simp at h
    · simp only [Option.pure_def, Option.bind_eq_bind, Option.bind_eq_some,
        Option.some.injEq] at h
      obtain ⟨sel, hsel, h⟩ := h
      subst h
      exact ⟨rfl, fun c => rfl⟩

theorem selectCardToLose_cards {sh : List Character → List Character}
    (hperm : ∀ l, (sh l).Perm l) {s s' : GameState} {pid : String} {i : Nat}
    (hInv : StateInv s) (hph : s.phase ≠ GamePhase.GameOver) (hdr : s.drawnCards = [])
    (h : selectCardToLose sh s pid i = some s') :
    s'.config = s.config ∧ ∀ c, charTotal s' c = charTotal s c := by
  unfold selectCardToLose at h
  simp only [Option.pure_def, Option.bind_eq_bind, Option.bind_eq_some] at h
  obtain ⟨ns, hlo, h⟩ := h
  have hInvNs := (loseInfluence_inv hInv hph hlo).1
  obtain ⟨hcN, -, hdN, htN⟩ := loseInfluence_cards hlo
  have hdrN : ns.drawnCards = [] := hdN.trans hdr
  split at h
  · simp only [Option.some.injEq] at h
    subst h
    exact ⟨hcN, htN⟩
  · cases hpa : s.pendingAction with
    | none =>
      simp only [hpa] at h
      obtain ⟨hc2, ht2⟩ := advanceTurn_cards h hdrN
      exact ⟨hc2.trans hcN, fun c => (ht2 c).trans (htN c)⟩
    | some act =>
      simp only [hpa] at h
      by_cases h1 : s.phase = GamePhase.AwaitingCardSelection
      · rw [if_pos h1] at h
        by_cases h2 : pid ≠ act.sourcePlayerId
        · rw [if_pos h2] at h
          by_cases h3 : act.type = ActionType.Assassinate
          · rw [if_pos h3] at h
            obtain ⟨hc2, ht2⟩ := resolveAction_cards hperm hInvNs.1 hdrN h
            exact ⟨hc2.trans hcN, fun c => (ht2 c).trans (htN c)⟩
          · rw [if_neg h3] at h
            by_cases h4 : act.type = ActionType.Coup
            · rw [if_pos h4] at h
              obtain ⟨hc2, ht2⟩ := advanceTurn_cards h hdrN
              exact ⟨hc2.trans hcN, fun c => (ht2 c).trans (htN c)⟩
            · rw [if_neg h4] at h
              by_cases h5 : s.cardSelectionReason = some CardSelectionReason.actionEffect
              · rw [if_pos h5] at h
                obtain ⟨hc2, ht2⟩ := advanceTurn_cards h hdrN
                exact ⟨hc2.trans hcN, fun c => (ht2 c).trans (htN c)⟩
              · rw [if_neg h5] at h
                by_cases h6 : isActionBlockable act.type ns.config.enabledCharacters = true
                · rw [if_pos h6] at h
                  simp only [Option.some.injEq] at h
                  subst h
                  exact ⟨hcN, htN⟩
                · rw [if_neg h6] at h
                  obtain ⟨hc2, ht2⟩ := resolveAction_cards hperm hInvNs.1 hdrN h
                  exact ⟨hc2.trans hcN, fun c => (ht2 c).trans (htN c)⟩
        · rw [if_neg h2] at h
          obtain ⟨hc2, ht2⟩ := advanceTurn_cards h hdrN
          exact ⟨hc2.trans hcN, fun c => (ht2 c).trans (htN c)⟩
      · rw [if_neg h1] at h
        obtain ⟨hc2, ht2⟩ := advanceTurn_cards h hdrN
        exact ⟨hc2.trans hcN, fun c => (ht2 c).trans (htN c)⟩

theorem completeExchange_cards {sh : List Character → List Character}
    (hperm : ∀ l, (sh l).Perm l) {s s' : GameState} {pid : String}
    {kept ret : List Character}
    (hnd : (s.players.map (·.id)).Nodup)
    (hpart : ∀ p, getPlayerById s pid = some p →
      (kept ++ ret).Perm ((getAliveInfluence p).map (·.character) ++ s.drawnCards))
    (h : completeExchange sh s pid kept ret = some s') :
    s'.config = s.config ∧ ∀ c, charTotal s' c = charTotal s c := by
  unfold completeExchange at h
  simp only [Option.pure_def, Option.bind_eq_bind, Option.bind_eq_some] at h
  obtain ⟨player, hp, h⟩ := h
  split at h
  · simp at h
  · obtain ⟨hcfg, htot⟩ := advanceTurn_cards h rfl
    refine ⟨hcfg, fun c => (htot c).trans ?_⟩
    have hperm2 := hpart player hp
    have h6 : countC kept c + countC ret c
        = countC ((getAliveInfluence player).map (·.character)) c
          + countC s.drawnCards c := by
      have h0 := countC_perm hperm2 c
      rw [countC_append, countC_append] at h0
      exact h0
    have hsum : ((s.players.map fun p => if p.id = pid then
          { p with influenceCards :=
              kept.map (fun ch => { character := ch, isRevealed := false : InfluenceCard })
                ++ player.influenceCards.filter (·.isRevealed) }
          else p).map (fun p => inflCount p c)).sum + inflCount player c
        = (s.players.map (fun p => inflCount p c)).sum
          + ((kept.map (fun ch => { character := ch, isRevealed := false : InfluenceCard })
              ++ player.influenceCards.filter (·.isRevealed)).filter
                (fun ic => ic.character = c)).length :=
      sum_map_update_nodup _ _ hnd (getPlayerById_mem hp).1 (getPlayerById_mem hp).2
    have h1 : ((kept.map (fun ch => { character := ch, isRevealed := false : InfluenceCard })
          ++ player.influenceCards.filter (·.isRevealed)).filter
            (fun ic => ic.character = c)).length
        = countC kept c
          + ((player.influenceCards.filter (·.isRevealed)).filter
              (fun ic => ic.character = c)).length := by
      rw [List.filter_append, List.length_append, mk_unrevealed_count]
    have h2 : ((getAliveInfluence player).filter (fun ic => ic.character = c)).length
          + ((player.influenceCards.filter (·.isRevealed)).filter
              (fun ic => ic.character = c)).length
        = (player.influenceCards.filter (fun ic => ic.character = c)).length :=
      filter_rev_partition player.influenceCards c
    have h3 : countC ((getAliveInfluence player).map (·.character)) c
        = ((getAliveInfluence player).filter (fun ic => ic.character = c)).length :=
      map_character_count _ c
    have h5 : countC (sh (s.courtDeck ++ ret)) c
        = countC s.courtDeck c + countC ret c := by
      rw [countC_perm (hperm _) c, countC_append]
    have hpl : inflCount player c
        = (player.influenceCards.filter (fun ic => ic.character = c)).length := rfl
    have h0 : countC ([] : List Character) c = 0 := rfl
    simp only [charTotal, handCount]
    omega

theorem resolveExamine_cards {sh : List Character → List Character}
    (hperm : ∀ l, (sh l).Perm l) {s s' : GameState} {fe : Bool} {ti : Nat}
    (hnd : (s.players.map (·.id)).Nodup) (hdr : s.drawnCards = [])
    (h : resolveExamine sh s fe ti = some s') :
    s'.config = s.config ∧ ∀ c, charTotal s' c = charTotal s c := by
  unfold resolveExamine at h
  simp only [Option.pure_def, Option.bind_eq_bind, Option.bind_eq_some] at h
  obtain ⟨act, hpa, tid, htid, target, htg, card, hcard, h⟩ := h
  split at h
  · simp at h
  · split at h
    · simp only [Option.pure_def, Option.bind_eq_bind, Option.bind_eq_some] at h
      obtain ⟨pr, hpop, h⟩ := h
      obtain ⟨newCard, newDeck⟩ := pr
      obtain ⟨hcfg, htot⟩ := advanceTurn_cards h hdr
      refine ⟨hcfg, fun c => (htot c).trans ?_⟩
      have hdeck : countC newDeck c + (if newCard = c then 1 else 0)
          = countC s.courtDeck c + (if card.character = c then 1 else 0) := by
        have h1 := popCard_count hpop c
        have h2 : countC (sh (s.courtDeck ++ [card.character])) c
            = countC s.courtDeck c + (if card.character = c then 1 else 0) := by
          rw [countC_perm (hperm _) c, countC_append, countC_singleton]
        omega
      have hhand : ((target.influenceCards.mapIdx fun j x =>
            if j = ti then { character := newCard, isRevealed := false } else x).filter
              (fun ic => ic.character = c)).length
            + (if card.character = c then 1 else 0)
          = (target.influenceCards.filter (fun ic => ic.character = c)).length
            + (if newCard = c then 1 else 0) :=
        mapIdx_count_repl c { character := newCard, isRevealed := false }
          target.influenceCards ti card hcard
      have hsum : ((s.players.map fun p => if p.id = target.id then
            { p with influenceCards := p.influenceCards.mapIdx (fun j x =>
                if j = ti then { character := newCard, isRevealed := false } else x) }
            else p).map (fun p => inflCount p c)).sum + inflCount target c
          = (s.players.map (fun p => inflCount p c)).sum
            + ((target.influenceCards.mapIdx fun j x =>
                if j = ti then { character := newCard, isRevealed := false } else x).filter
                  (fun ic => ic.character = c)).length :=
        sum_map_update_nodup _ _ hnd (getPlayerById_mem htg).1 rfl
      have hpl : inflCount target c
          = (target.influenceCards.filter (fun ic => ic.character = c)).length := rfl
      simp only [charTotal, handCount]
      omega
    · exact advanceTurn_cards h hdr

theorem dealPlayers_cards {config : GameConfig} {botCount : Nat} :
    ∀ (i n : Nat) {deck : List Character} {ps : List Player} {d : List Character},
    dealPlayers config botCount i n deck = some (ps, d) →
    ∀ c, countC d c + (ps.map (fun p => inflCount p c)).sum = countC deck c
  | i, 0, deck, ps, d, h => by
    simp only [dealPlayers, Option.some.injEq, Prod.mk.injEq] at h
    obtain ⟨h1, h2⟩ := h
    subst h1
    subst h2
    intro c
    simp
  | i, n + 1, deck, ps, d, h => by
    simp only [dealPlayers, Option.pure_def, Option.bind_eq_bind, Option.bind_eq_some] at h
    obtain ⟨⟨c1, d1⟩, hp1, h⟩ := h
    simp only [Option.bind_eq_some] at h
    obtain ⟨⟨c2, d2⟩, hp2, h⟩ := h
    simp only [Option.bind_eq_some] at h
    obtain ⟨⟨rest, d3⟩, hrec, h⟩ := h
    simp only [Option.some.injEq, Prod.mk.injEq] at h
    obtain ⟨hps, hd⟩ := h
    subst hps
    subst hd
    intro c
    have hr := dealPlayers_cards (i + 1) n hrec c
    have h1 := popCard_count hp1 c
    have h2 := popCard_count hp2 c
    have hm : inflCount (mkPlayer config botCount i c1 c2) c
        = (if c1 = c then 1 else 0) + (if c2 = c then 1 else 0) := by
      unfold inflCount
      show ((([{ character := c1, isRevealed := false },
          { character := c2, isRevealed := false }] : List InfluenceCard)).filter
            (fun ic => ic.character = c)).length = _
      by_cases ha : c1 = c <;> by_cases hb : c2 = c <;>
        simp [List.filter_cons, ha, hb]
    simp only [List.map_cons, List.sum_cons]
    omega

/-- The state built by `createGame` satisfies the per-character conservation
equation for every enabled character, given distinct enabled characters. -/
theorem createGame_cards {sh : List Character → List Character} {cfg : GameConfig}
    {s : GameState} (hperm : ∀ l, (sh l).Perm l) (h : createGame sh cfg = some s) :
    s.config = cfg
    ∧ s.drawnCards = []
    ∧ (cfg.enabledCharacters.Nodup →
        ∀ c ∈ cfg.enabledCharacters, charTotal s c = cfg.cardsPerCharacter) := by
  unfold createGame at h
  simp only [Option.pure_def, Option.bind_eq_bind, Option.bind_eq_some] at h
  obtain ⟨⟨players, remainingDeck⟩, hdeal, h⟩ := h
  simp only [Option.some.injEq] at h
  subst h
  refine ⟨rfl, rfl, fun hndE c hc => ?_⟩
  have hd := dealPlayers_cards 0 cfg.playerCount hdeal c
  have hsh : countC (sh (cfg.enabledCharacters.flatMap
      (fun char => List.replicate cfg.cardsPerCharacter char))) c
      = countC (cfg.enabledCharacters.flatMap
        (fun char => List.replicate cfg.cardsPerCharacter char)) c :=
    countC_perm (hperm _) c
  have hfm := countC_flatMap_replicate cfg.cardsPerCharacter cfg.enabledCharacters c hndE
  rw [if_pos hc] at hfm
  have h0 : countC ([] : List Character) c = 0 := rfl
  simp only [charTotal, handCount]
  omega

/-- A protocol-respecting transition is in particular a public transition. -/
theorem stepC_step {s s' : GameState} (h : StepC s s') : Step s s' := by
  cases h with
  | ofDeclareAction sh a hperm hdr hph hop => exact Step.ofDeclareAction sh a hph hop
  | ofChallengeAction sh cid hperm hdr hph hop =>
    exact Step.ofChallengeAction sh cid hph hop
  | ofPassChallenge sh pid hperm hdr hph hop => exact Step.ofPassChallenge sh pid hph hop
  | ofDeclareBlock bid c hdr hph hop => exact Step.ofDeclareBlock bid c hph hop
  | ofPassBlock sh pid hperm hdr hph hop => exact Step.ofPassBlock sh pid hph hop
  | ofChallengeBlock sh cid hperm hdr hph hop => exact Step.ofChallengeBlock sh cid hph hop
  | ofResolveAction sh hperm hdr hph hop => exact Step.ofResolveAction sh hph hop
  | ofDeclareCoupRedirect rid tid hdr hph hop =>
    exact Step.ofDeclareCoupRedirect rid tid hph hop
  | ofPassCoupRedirect pid hdr hph hop => exact Step.ofPassCoupRedirect pid hph hop
  | ofChallengeCoupRedirect sh cid hperm hdr hph hop =>
    exact Step.ofChallengeCoupRedirect sh cid hph hop
  | ofPassCoupRedirectChallenge pid hdr hph hop =>
    exact Step.ofPassCoupRedirectChallenge pid hph hop
  | ofResolveInquisitorChoice sh r choice tid hperm hdr hph hop =>
    exact Step.ofResolveInquisitorChoice sh r choice tid hph hop
  | ofSelectCardToLose sh pid idx hperm hdr hph hop =>
    exact Step.ofSelectCardToLose sh pid idx hph hop
  | ofCompleteExchange sh pid kept returned hperm hpart hph hop =>
    exact Step.ofCompleteExchange sh pid kept returned hph hop
  | ofResolveExamine sh force idx hperm hdr hph hop =>
    exact Step.ofResolveExamine sh force idx hph hop

theorem reachableC_reachable {s : GameState} (h : ReachableC s) : Reachable s := by
  induction h with
  | init cfg sh s hperm h2 hcg hnd => exact Reachable.init cfg sh s h2 hcg hnd
  | step hr hst ih => exact Reachable.step ih (stepC_step hst)

/-- A protocol-respecting transition preserves config and per-character totals. -/
theorem stepC_cards {s s' : GameState} (hst : StepC s s') (hInv : StateInv s) :
    s'.config = s.config ∧ ∀ c, charTotal s' c = charTotal s c := by
  cases hst with
  | ofDeclareAction sh a hperm hdr hph hop =>
    exact declareAction_cards hperm hInv hph hdr hop
  | ofChallengeAction sh cid hperm hdr hph hop =>
    exact challengeAction_cards hperm hInv hph hdr hop
  | ofPassChallenge sh pid hperm hdr hph hop =>
    exact passChallenge_cards hperm hInv hdr hop
  | ofDeclareBlock bid c hdr hph hop => exact declareBlock_cards hop
  | ofPassBlock sh pid hperm hdr hph hop => exact passBlock_cards hperm hInv hdr hop
  | ofChallengeBlock sh cid hperm hdr hph hop =>
    exact challengeBlock_cards hperm hInv hph hdr hop
  | ofResolveAction sh hperm hdr hph hop =>
    exact resolveAction_cards hperm hInv.1 hdr hop
  | ofDeclareCoupRedirect rid tid hdr hph hop => exact declareCoupRedirect_cards hop
  | ofPassCoupRedirect pid hdr hph hop => exact passCoupRedirect_cards hdr hop
  | ofChallengeCoupRedirect sh cid hperm hdr hph hop =>
    exact challengeCoupRedirect_cards hperm hInv hph hdr hop
  | ofPassCoupRedirectChallenge pid hdr hph hop =>
    exact passCoupRedirectChallenge_cards hdr hop
  | ofResolveInquisitorChoice sh r choice tid hperm hdr hph hop =>
    exact resolveInquisitorChoice_cards hperm hInv hdr hop
  | ofSelectCardToLose sh pid idx hperm hdr hph hop =>
    exact selectCardToLose_cards hperm hInv hph hdr hop
  | ofCompleteExchange sh pid kept returned hperm hpart hph hop =>
    exact completeExchange_cards hperm hInv.1 hpart hop
  | ofResolveExamine sh force idx hperm hdr hph hop =>
    exact resolveExamine_cards hperm hInv.1 hdr hop

theorem cards_reachableC {s : GameState} (hr : ReachableC s) :
    s.config.enabledCharacters.Nodup →
    ∀ c ∈ s.config.enabledCharacters, charTotal s c = s.config.cardsPerCharacter := by
  induction hr with
  | init cfg sh s hperm h2 hcg hnd =>
    obtain ⟨hcfg, -, hcons⟩ := createGame_cards hperm hcg
    rw [hcfg]
    exact hcons
  | step hr hst ih =>
    obtain ⟨hcfg, htot⟩ := stepC_cards hst (stateInv_reachable (reachableC_reachable hr))
    rw [hcfg]
    intro hndE c hc
    rw [htot c]
    exact ih hndE c hc

/-- C5 counterexample: the claim quantifies over *every* character, but a
character absent from the enabled list has zero copies anywhere while
`cardsPerCharacter` is positive, already in the freshly created (reachable)
two-player state. -/
theorem claim_C5_counterexample :
    Reachable stateInit2
    ∧ deckCount stateInit2 Character.Socialist
        + unrevealedCount stateInit2 Character.Socialist
        + revealedCount stateInit2 Character.Socialist
      ≠ stateInit2.config.cardsPerCharacter :=
  ⟨Reachable.init cfgTwo shId stateInit2 (by decide) (by decide) (by decide),
   by decide⟩

/-- **C5** (amended): under a protocol-respecting host — shuffles permute, no
transition other than `completeExchange` is applied while exchange cards are
drawn, and `completeExchange` receives a genuine partition — for every
*enabled* character (the enabled list being duplicate-free), the court deck,
unrevealed hands, revealed hands and the drawn-cards buffer together hold
exactly `cardsPerCharacter` copies in every reachable state. -/
theorem claim_C5_card_conservation {s : GameState} (hr : ReachableC s)
    (hndE : s.config.enabledCharacters.Nodup) :
    ∀ c ∈ s.config.enabledCharacters,
      deckCount s c + unrevealedCount s c + revealedCount s c + drawnCount s c
        = s.config.cardsPerCharacter := by
  intro c hc
  have h1 := cards_reachableC hr hndE c hc
  have h2 := counts_partition s c
  unfold charTotal at h1
  unfold deckCount drawnCount
  have e1 : countC s.courtDeck c = (s.courtDeck.filter (fun x => x = c)).length := rfl
  have e2 : countC s.drawnCards c = (s.drawnCards.filter (fun x => x = c)).length := rfl
  omega

theorem claim_C5_witness :
    Character.Duke ∈ stateInit2.config.enabledCharacters
    ∧ deckCount stateInit2 Character.Duke + unrevealedCount stateInit2 Character.Duke
        + revealedCount stateInit2 Character.Duke + drawnCount stateInit2 Character.Duke
      = stateInit2.config.cardsPerCharacter :=
  ⟨by decide,
   claim_C5_card_conservation
     (ReachableC.init cfgTwo shId stateInit2 (fun l => List.Perm.refl l)
       (by decide) (by decide) (by decide))
     (by decide) Character.Duke (by decide)⟩

end Coup
